import Mathlib

/-!
# Builtins of the asp build-file interpreter (`src/parse/asp/builtins.go`)

A shallow embedding of the native builtins and of the part of their
collaborators that they read and write, followed by theorems about them.

Conventions of the embedding

* A Go `string` is a list of bytes; slicing and searching are byte-indexed.
* A Go `panic` (failed `s.Assert`, failed type assertion, slice out of range,
  `errDeferParse`) and `log.Fatalf` are values of `Signal`, returned in `Except`.
* A builtin that writes through its pointers returns its result together
  with the state in which it stopped, so that what a failed call leaves behind
  can be stated.
* `*core.BuildTarget` values are indices into the `heap` of a `scope`.
-/

namespace Asp

/-! ## Strings -/

/-- A Go string: a sequence of bytes. -/
abbrev GoString := List (Fin 256)

/-- The bytes of an ASCII literal. -/
def gs (s : String) : GoString := s.data.map (fun c => Fin.ofNat c.toNat)

/-- Go `strings.HasPrefix`. -/
def HasPrefix (s p : GoString) : Bool := p.isPrefixOf s

/-- Go `strings.TrimPrefix`: `s` without the leading `p`, or `s` itself. -/
def TrimPrefix (s p : GoString) : GoString :=
  if HasPrefix s p then s.drop p.length else s

/-- The search loop of `strings.Index`: the offset of the first position of `s`
at which `sep` starts, counted from `i`, or `-1`. -/
def indexFrom (sep : GoString) : GoString → Nat → Int
  | [], i => if HasPrefix [] sep then (i : Int) else -1
  | c :: t, i => if HasPrefix (c :: t) sep then (i : Int) else indexFrom sep t (i + 1)

/-- Go `strings.Index`: index of the first instance of `sep` in `s`, or `-1`. -/
def Index (s sep : GoString) : Int := indexFrom sep s 0

/-- The search loop of `strings.LastIndex`, counted from `i`. -/
def lastIndexFrom (sep : GoString) : GoString → Nat → Int
  | [], i => if HasPrefix [] sep then (i : Int) else -1
  | c :: t, i =>
    let r := lastIndexFrom sep t (i + 1)
    if r ≠ -1 then r else if HasPrefix (c :: t) sep then (i : Int) else -1

/-- Go `strings.LastIndex`: index of the last instance of `sep` in `s`, or `-1`. -/
def LastIndex (s sep : GoString) : Int := lastIndexFrom sep s 0

/-- The UTF-8 encodings of the code points for which Go `unicode.IsSpace` holds:
tab, newline, vertical tab, form feed, carriage return, space, U+0085, U+00A0,
U+1680, U+2000 to U+200A, U+2028, U+2029, U+202F, U+205F and U+3000. -/
def spaceEncodings : List GoString :=
  [[0x09], [0x0A], [0x0B], [0x0C], [0x0D], [0x20], [0xC2, 0x85], [0xC2, 0xA0],
   [0xE1, 0x9A, 0x80],
   [0xE2, 0x80, 0x80], [0xE2, 0x80, 0x81], [0xE2, 0x80, 0x82], [0xE2, 0x80, 0x83],
   [0xE2, 0x80, 0x84], [0xE2, 0x80, 0x85], [0xE2, 0x80, 0x86], [0xE2, 0x80, 0x87],
   [0xE2, 0x80, 0x88], [0xE2, 0x80, 0x89], [0xE2, 0x80, 0x8A],
   [0xE2, 0x80, 0xA8], [0xE2, 0x80, 0xA9], [0xE2, 0x80, 0xAF], [0xE2, 0x81, 0x9F],
   [0xE3, 0x80, 0x80]]

/-- The width of the white-space rune that `s` starts with, `0` when `s` does
not start with one. -/
def leadingSpace (s : GoString) : Nat :=
  match spaceEncodings.find? (fun e => e.isPrefixOf s) with
  | some e => e.length
  | none => 0

/-- Left half of `strings.TrimSpace`: drop white-space runes from the front.
The first argument bounds the number of runes dropped. -/
def trimLeftSpace : Nat → GoString → GoString
  | 0, s => s
  | n + 1, s => if leadingSpace s = 0 then s else trimLeftSpace n (s.drop (leadingSpace s))

/-- Right half of `strings.TrimSpace`, on the reversed bytes: a rune at the
back is white space when the string ends with its encoding. -/
def trimRightSpace : Nat → GoString → GoString
  | 0, r => r
  | n + 1, r =>
    match spaceEncodings.find? (fun e => e.reverse.isPrefixOf r) with
    | some e => trimRightSpace n (r.drop e.length)
    | none => r

/-- Go `strings.TrimSpace`: white space is removed from the front, then from
the back. -/
def TrimSpace (s : GoString) : GoString :=
  let l := trimLeftSpace s.length s
  (trimRightSpace l.length l.reverse).reverse

/-- The width of the UTF-8 sequence that `s` starts with, as
`utf8.DecodeRuneInString` reports it: `1` for ASCII and for an invalid
sequence, `0` for the empty string. -/
def runeWidth : GoString → Nat
  | [] => 0
  | [_] => 1
  | b0 :: b1 :: rest =>
    let cont := fun (b : Fin 256) => 0x80 ≤ b.val ∧ b.val ≤ 0xBF
    let second : Bool :=
      if b0.val = 0xE0 then 0xA0 ≤ b1.val ∧ b1.val ≤ 0xBF
      else if b0.val = 0xED then 0x80 ≤ b1.val ∧ b1.val ≤ 0x9F
      else if b0.val = 0xF0 then 0x90 ≤ b1.val ∧ b1.val ≤ 0xBF
      else if b0.val = 0xF4 then 0x80 ≤ b1.val ∧ b1.val ≤ 0x8F
      else cont b1
    if b0.val < 0x80 then 1
    else if 0xC2 ≤ b0.val ∧ b0.val ≤ 0xDF then (if second then 2 else 1)
    else if 0xE0 ≤ b0.val ∧ b0.val ≤ 0xEF then
      match rest with
      | b2 :: _ => if second ∧ cont b2 then 3 else 1
      | [] => 1
    else if 0xF0 ≤ b0.val ∧ b0.val ≤ 0xF4 then
      match rest with
      | b2 :: b3 :: _ => if second ∧ cont b2 ∧ cont b3 then 4 else 1
      | _ => 1
    else 1

/-- The copy loop of `strings.Replace` for a non-empty `old`: `skip` counts the
bytes of a replaced instance that are still to be passed over. -/
def replaceScan (old new : GoString) : GoString → Nat → GoString
  | [], _ => []
  | _ :: t, skip + 1 => replaceScan old new t skip
  | c :: t, 0 =>
    if HasPrefix (c :: t) old then new ++ replaceScan old new t (old.length - 1)
    else c :: replaceScan old new t 0

/-- The copy loop of `strings.Replace` for the empty `old`, which matches at
the start of the string and after each UTF-8 sequence: `skip` counts the bytes
of the current sequence still to be copied. -/
def replaceEmpty (new : GoString) : GoString → Nat → GoString
  | [], _ => new
  | c :: t, skip + 1 => c :: replaceEmpty new t skip
  | c :: t, 0 => new ++ c :: replaceEmpty new t (runeWidth (c :: t) - 1)

/-- Go `strings.Replace(s, old, new, -1)`: every non-overlapping instance of
`old` is replaced by `new`. -/
def Replace (s old new : GoString) : GoString :=
  if old = new then s
  else if old = [] then replaceEmpty new s 0
  else replaceScan old new s 0

/-- Go `sort.Strings`: ascending in the byte-wise order of strings. -/
def sortStrings (l : List GoString) : List GoString :=
  l.insertionSort (fun a b => a ≤ b)

/-! ## Signals and values -/

/-- Modelled from the spec: `core.BuildLabel`, the identifier of a target
(`//package:name`), of which the builtins read `PackageName` and `Name`. -/
structure BuildLabel where
  PackageName : GoString
  Name : GoString
  deriving DecidableEq, Repr

/-- The ways in which a builtin stops without returning a value. -/
inductive Signal where
  /-- A failed `s.Assert` or `s.NAssert`, with its format string. -/
  | assertion (format : String)
  /-- The signal of `panic(errDeferParse{Label: l})`. -/
  | deferParse (label : BuildLabel)
  /-- A call of `log.Fatalf`, or of a collaborator that ends the process. -/
  | fatal (format : String)
  /-- A panic of the Go runtime: failed type assertion, index or slice out of
  range, nil dereference, undefined name in `Lookup`. -/
  | runtimePanic (what : String)
  /-- The recursion budget of an embedded recursive closure ran out. -/
  | outOfFuel
  deriving DecidableEq, Repr

/-- Modelled from the spec: the closed set of runtime values of section 3
(`pyObject` and its implementations are declared outside `builtins.go`).
`nil` is the nil interface value of an argument slot that was not filled;
functions and the config object are pointers. An Int carries its number; the Go
`pyInt` holds the numbers of a 64-bit `int` (`fitsInt` below), and arithmetic
on them wraps (`wrapInt`). -/
inductive pyObject where
  | nil
  | None
  | pyBool (b : Bool)
  | pyInt (n : Int)
  | pyString (s : GoString)
  | pyList (l : List pyObject)
  | pyDict (d : List (GoString × pyObject))
  | pyFunc (ref : Nat)
  | pyConfig (ref : Nat)

/-- The element `args[i]` of the argument array; out of range is a panic. -/
def arg (args : List pyObject) (i : Nat) : Except Signal pyObject :=
  match args[i]? with
  | some a => .ok a
  | none => .error (.runtimePanic "index out of range")

/-- The type assertion `x.(pyString)`. -/
def asString : pyObject → Except Signal GoString
  | .pyString s => .ok s
  | _ => .error (.runtimePanic "interface conversion: pyObject is not pyString")

/-- The slice expression `s[lo:hi]` of a string; it panics unless
`lo ≤ hi ≤ len(s)`. -/
def slice (s : GoString) (lo hi : Nat) : Except Signal GoString :=
  if lo ≤ hi ∧ hi ≤ s.length then .ok ((s.take hi).drop lo)
  else .error (.runtimePanic "slice bounds out of range")

/-- Source `fromStringList`. -/
def fromStringList (l : List GoString) : pyObject :=
  .pyList (l.map .pyString)

/-! ## String methods (the scope argument of these natives is unused) -/

/-- Source `strPartition`. -/
def strPartition (args : List pyObject) : Except Signal pyObject := do
  let self ← asString (← arg args 0)
  let sep ← asString (← arg args 1)
  let idx := Index self sep
  if idx ≠ -1 then
    let a ← slice self 0 idx.toNat
    let b ← slice self idx.toNat (idx.toNat + 1)
    let c ← slice self (idx.toNat + 1) self.length
    return .pyList [.pyString a, .pyString b, .pyString c]
  else
    return .pyList [.pyString self, .pyString [], .pyString []]

/-- Source `strRPartition`. -/
def strRPartition (args : List pyObject) : Except Signal pyObject := do
  let self ← asString (← arg args 0)
  let sep ← asString (← arg args 1)
  let idx := LastIndex self sep
  if idx ≠ -1 then
    let a ← slice self 0 idx.toNat
    let b ← slice self idx.toNat (idx.toNat + 1)
    let c ← slice self (idx.toNat + 1) self.length
    return .pyList [.pyString a, .pyString b, .pyString c]
  else
    return .pyList [.pyString [], .pyString [], .pyString self]

/-- Source `strFind`. -/
def strFind (args : List pyObject) : Except Signal pyObject := do
  let self ← asString (← arg args 0)
  let needle ← asString (← arg args 1)
  return .pyInt (Index self needle)

/-- Source `strRFind`. -/
def strRFind (args : List pyObject) : Except Signal pyObject := do
  let self ← asString (← arg args 0)
  let needle ← asString (← arg args 1)
  return .pyInt (LastIndex self needle)

/-! ## Targets, packages, the graph and the scope -/

/-- Modelled from the spec: `core.BuildTargetState` is an ordered enumeration
that the builtins compare with `<`; states are kept as their numbers, in the
order of declaration Inactive, Semiactive, Active, Pending, Building, Stopped,
Built, Cached, Unchanged, Reused, Failed. -/
abbrev BuildTargetState := Nat

/-- Modelled from the spec: the state `core.Building`. -/
def Building : BuildTargetState := 4

/-- Modelled from the spec: the state `core.Built`. -/
def Built : BuildTargetState := 6

/-- Modelled from the spec: the part of `core.BuildTarget` that the builtins
read and write. `Dependencies` holds what the method `Dependencies()` returns,
pointers to the resolved dependency targets; `declared` holds the dependencies
added with `AddMaybeExportedDependency`. -/
structure BuildTarget where
  Label : BuildLabel
  state : BuildTargetState
  Labels : List GoString
  OutputIsComplete : Bool
  Dependencies : List Nat
  declared : List (BuildLabel × Bool)
  outputs : List GoString
  namedOutputs : List (GoString × GoString)
  OutDir : GoString
  licences : List GoString
  Command : GoString
  commands : List (GoString × GoString)
  AddedPostBuild : Bool
  deriving DecidableEq, Repr

/-- Modelled from the spec: `BuildTarget.Outputs()`, the declared output files. -/
def BuildTarget.Outputs (t : BuildTarget) : List GoString :=
  t.outputs ++ t.namedOutputs.map (fun o => o.2)

/-- Modelled from the spec: `BuildTarget.GetCommandConfig`, the default command
for the empty configuration, else the command of the named configuration. -/
def BuildTarget.GetCommandConfig (t : BuildTarget) (config : GoString) : GoString :=
  if config = [] then t.Command else (t.commands.lookup config).getD []

/-- Modelled from the spec: `core.Package`, with its target table, the targets
marked modified, the output-ownership index and the recorded subincludes. -/
structure Package where
  Name : GoString
  targets : List (GoString × Nat)
  modified : List Nat
  outputs : List (GoString × Nat)
  subincludes : List BuildLabel
  deriving DecidableEq, Repr

/-- Modelled from the spec: `Package.Target(name)`, `none` for Go `nil`. -/
def Package.Target (p : Package) (name : GoString) : Option Nat :=
  p.targets.lookup name

/-- Modelled from the spec: `core.BuildGraph`, with its target table and the
registered dependency edges. -/
structure BuildGraph where
  targets : List (BuildLabel × Nat)
  edges : List (BuildLabel × BuildLabel)
  deriving DecidableEq, Repr

/-- Modelled from the spec: `BuildGraph.Target(label)`, `none` for Go `nil`. -/
def BuildGraph.Target (g : BuildGraph) (l : BuildLabel) : Option Nat :=
  g.targets.lookup l

/-- The natives that `registerBuiltins` and `registerSubincludePackage` can
store in the `nativeCode` field of a function object. -/
inductive nativeFunc where
  | buildRule | subinclude | pkg | sorted | isinstance | callable | pyRange
  | enumerate | zip | lenFunc | glob | boolType | strType | joinPath
  | packageName | getLabels | addDep | addOut | addLicence | getCommand
  | setCommand | strJoin | strSplit | strReplace | strPartition | strRPartition
  | strStartsWith | strEndsWith | strLStrip | strRStrip | strFind | strRFind
  | strFormat | strCount | dictGet | dictKeys | dictItems | dictValues
  | dictCopy | configGet | filegroup | hashFilegroup
  /-- The closure that `setLogCode` builds for one log level. -/
  | logCode (level : String)
  deriving DecidableEq, Repr

/-- Modelled from the spec: the fields of `pyFunc` that `builtins.go` writes.
`code` tells whether the interpreted body is still attached. -/
structure pyFunc where
  name : GoString
  nativeCode : Option nativeFunc
  code : Bool
  varargs : Bool
  kwargs : Bool
  deriving DecidableEq, Repr

/-- Modelled from the spec: the environment of section 3 together with what it
points to. `locals` is the lookup chain, innermost binding first; `pkg` is the
current package (`none` for nil); `Graph` is `s.state.Graph`; `heap` holds the
targets that pointers refer to and `funcs` the function objects;
`subincludeScope` holds the bindings of `s.interpreter.subincludeScope`. -/
structure scope where
  locals : List (GoString × pyObject)
  pkg : Option Package
  Graph : BuildGraph
  heap : List BuildTarget
  funcs : List pyFunc
  subincludeScope : List (GoString × pyObject)
  Callback : Bool

/-- A builtin that may write through its pointers: from a state it gives its
result, or the signal it stopped with, and the state it stopped in. -/
def Eval (α : Type) : Type := scope → Except Signal α × scope

/-- Sequencing: a signal stops the computation in the state reached. -/
def Eval.bind {α β : Type} (m : Eval α) (f : α → Eval β) : Eval β := fun s =>
  match m s with
  | (.ok a, s1) => f a s1
  | (.error e, s1) => (.error e, s1)

instance : Monad Eval where
  pure a := fun s => (.ok a, s)
  bind := Eval.bind

/-- A pure, fallible step leaves the state as it is. -/
def Eval.lift {α : Type} (x : Except Signal α) : Eval α := fun s => (x, s)

instance : MonadLift (Except Signal) Eval where
  monadLift := Eval.lift

/-- Stop with a signal. -/
def Eval.throw {α : Type} (e : Signal) : Eval α := fun s => (.error e, s)

/-- The current state. -/
def Eval.get : Eval scope := fun s => (.ok s, s)

/-- Replace the state. -/
def Eval.modify (f : scope → scope) : Eval Unit := fun s => (.ok (), f s)

/-- Modelled from the spec: `s.Assert(cond, format, ...)`, a recoverable
assertion failure when the condition is false. -/
def Assert (cond : Bool) (format : String) : Eval Unit :=
  if cond then pure () else Eval.throw (.assertion format)

/-- Modelled from the spec: `s.NAssert(cond, format, ...)`, which fails when the
condition is true. -/
def NAssert (cond : Bool) (format : String) : Eval Unit :=
  if cond then Eval.throw (.assertion format) else pure ()

/-- Modelled from the spec: `s.Lookup(name)`; an undefined name is a panic. -/
def Lookup (name : GoString) : Eval pyObject := fun s =>
  match s.locals.lookup name with
  | some v => (.ok v, s)
  | none => (.error (.runtimePanic "name is not defined"), s)

/-- The type assertion `x.(*pyFunc)`. -/
def asFunc : pyObject → Except Signal Nat
  | .pyFunc r => .ok r
  | _ => .error (.runtimePanic "interface conversion: pyObject is not *pyFunc")

/-- The type assertion `x.(*pyConfig)`. -/
def asConfig : pyObject → Except Signal Nat
  | .pyConfig r => .ok r
  | _ => .error (.runtimePanic "interface conversion: pyObject is not *pyConfig")

/-- Modelled from the spec: `IsTruthy` of the Value Model. -/
def pyObject.IsTruthy : pyObject → Bool
  | .nil => false
  | .None => false
  | .pyBool b => b
  | .pyInt n => n != 0
  | .pyString s => !s.isEmpty
  | .pyList l => !l.isEmpty
  | .pyDict d => !d.isEmpty
  | .pyFunc _ => true
  | .pyConfig _ => true

/-- The method call `x.IsTruthy()` on an interface value; on the nil interface
it is a nil dereference. -/
def truthy : pyObject → Except Signal Bool
  | .nil => .error (.runtimePanic "nil pointer dereference")
  | v => .ok v.IsTruthy

/-- The target a pointer refers to; a pointer to nothing is a nil dereference. -/
def deref (s : scope) (p : Nat) : Except Signal BuildTarget :=
  match s.heap[p]? with
  | some t => .ok t
  | none => .error (.runtimePanic "nil pointer dereference")

/-- The current package `s.pkg`, dereferenced. -/
def currentPackage (s : scope) : Except Signal Package :=
  match s.pkg with
  | some p => .ok p
  | none => .error (.runtimePanic "nil pointer dereference")

/-- Write a field of the target that `p` points to. -/
def updateTarget (p : Nat) (f : BuildTarget → BuildTarget) : Eval Unit := fun s =>
  match s.heap[p]? with
  | some t => (.ok (), { s with heap := s.heap.set p (f t) })
  | none => (.error (.runtimePanic "nil pointer dereference"), s)

/-- Write a field of the current package. -/
def updatePackage (f : Package → Package) : Eval Unit := fun s =>
  match s.pkg with
  | some p => (.ok (), { s with pkg := some (f p) })
  | none => (.error (.runtimePanic "nil pointer dereference"), s)

/-- The collaborators of `builtins.go` that are declared in other files and of
which the spec gives only the interface: they are parameters of the embedding. -/
structure Collab where
  /-- The method `pyConfig.Get(name, default)` of the config object at a pointer. -/
  configGet : Nat → GoString → pyObject → pyObject
  /-- The function `createTarget(s, args)`: the new target object, not yet registered. -/
  createTarget : scope → List pyObject → Except Signal BuildTarget
  /-- The function `populateTarget(s, target, args)` on the target at a pointer. -/
  populateTarget : Nat → List pyObject → Eval Unit
  /-- The function `core.ParseBuildLabel(target, currentPath)`. -/
  ParseBuildLabel : GoString → GoString → Except Signal BuildLabel
  /-- The function `core.LooksLikeABuildLabel`. -/
  LooksLikeABuildLabel : GoString → Bool
  /-- Go `path.Base`. -/
  pathBase : GoString → GoString
  /-- Go `path.Join` of two elements. -/
  pathJoin : GoString → GoString → GoString
  /-- The method `s.interpreter.Subinclude(path)`: the symbols that evaluating the file binds. -/
  Subinclude : GoString → Eval (List (GoString × pyObject))
  /-- The call `remoteFile.Call(subincludeScope, ...)` with name, url and the optional hash. -/
  callRemoteFile : Nat → GoString → GoString → Option GoString → Eval Unit

/-! ## Collaborator methods on the package and the graph -/

/-- Modelled from the spec: `Package.AddTarget(target)` for a target object that
is not registered yet: the object gets its place on the heap and the package
binds its name to it. The pointer is returned. -/
def AddTarget (t : BuildTarget) : Eval Nat := fun s =>
  match s.pkg with
  | some p =>
    (.ok s.heap.length,
      { s with heap := s.heap ++ [t],
               pkg := some { p with targets := (t.Label.Name, s.heap.length) :: p.targets } })
  | none => (.error (.runtimePanic "nil pointer dereference"), s)

/-- Modelled from the spec: `Package.MarkTargetModified(target)`. -/
def MarkTargetModified (p : Nat) : Eval Unit :=
  updatePackage (fun pk => { pk with modified := p :: pk.modified })

/-- Modelled from the spec: `Package.MustRegisterOutput(name, target)`, which
records the owner of an output and panics when another target owns it. -/
def MustRegisterOutput (name : GoString) (p : Nat) : Eval Unit := fun s =>
  match s.pkg with
  | some pk =>
    match pk.outputs.lookup name with
    | some q =>
      if q = p then (.ok (), s)
      else (.error (.runtimePanic "output is already registered by another target"), s)
    | none => (.ok (), { s with pkg := some { pk with outputs := (name, p) :: pk.outputs } })
  | none => (.error (.runtimePanic "nil pointer dereference"), s)

/-- Modelled from the spec: `Package.RegisterSubinclude(label)`. -/
def RegisterSubinclude (l : BuildLabel) : Eval Unit :=
  updatePackage (fun pk => { pk with subincludes := l :: pk.subincludes })

/-- Modelled from the spec: `BuildGraph.AddTarget(target)`, which binds the
label of the target to it. -/
def GraphAddTarget (p : Nat) : Eval Unit := fun s =>
  match s.heap[p]? with
  | some t => (.ok (), { s with Graph := { s.Graph with targets := (t.Label, p) :: s.Graph.targets } })
  | none => (.error (.runtimePanic "nil pointer dereference"), s)

/-- Modelled from the spec: `BuildGraph.AddDependency(from, to)`, which registers
the dependency edge with the graph. -/
def GraphAddDependency (src dst : BuildLabel) : Eval Unit :=
  Eval.modify (fun s => { s with Graph := { s.Graph with edges := (src, dst) :: s.Graph.edges } })

/-- Modelled from the spec: `s.SetAll(d, false)`, which binds every symbol of
`d` that is not bound yet. -/
def SetAll (d : List (GoString × pyObject)) : Eval Unit :=
  Eval.modify (fun s =>
    { s with locals :=
        (List.foldl (fun acc kv => if (acc.lookup kv.1).isSome then acc else acc ++ [kv])
          s.locals d) })

/-! ## Target construction -/

/-- Source `subincludePackageName`. -/
def subincludePackageName : GoString := gs "_remote"

/-- Source `defaultFromConfig`. -/
def defaultFromConfig (c : Collab) (config : Nat) (a : pyObject) (name : GoString) : pyObject :=
  match a with
  | .nil => c.configGet config name a
  | .None => c.configGet config name a
  | _ => a

/-- The statement `args[i] = defaultFromConfig(config, args[i], name)`. -/
def defaultArg (c : Collab) (config : Nat) (args : List pyObject) (i : Nat) (name : GoString) :
    Except Signal (List pyObject) := do
  let a ← arg args i
  return args.set i (defaultFromConfig c config a name)

/-- Lines 142 to 147 of `buildRule`: the config lookup and the five defaults. -/
def buildRuleDefaults (c : Collab) (args : List pyObject) : Eval (List pyObject) := do
  let config ← asConfig (← Lookup (gs "CONFIG"))
  let args ← defaultArg c config args 11 (gs "DEFAULT_VISIBILITY")
  let args ← defaultArg c config args 15 (gs "DEFAULT_TESTONLY")
  let args ← defaultArg c config args 30 (gs "DEFAULT_LICENCES")
  let args ← defaultArg c config args 20 (gs "BUILD_SANDBOX")
  let args ← defaultArg c config args 21 (gs "TEST_SANDBOX")
  return args

/-- Source `buildRule`. -/
def buildRule (c : Collab) (args : List pyObject) : Eval pyObject := do
  let args ← buildRuleDefaults c args
  let target ← c.createTarget (← Eval.get) args
  let pkg ← currentPackage (← Eval.get)
  Assert (pkg.Target target.Label.Name).isNone "Duplicate build target in %s: %s"
  let p ← AddTarget target
  c.populateTarget p args
  if (← Eval.get).Callback then
    updateTarget p (fun t => { t with AddedPostBuild := true })
    GraphAddTarget p
    MarkTargetModified p
  let t ← deref (← Eval.get) p
  return .pyString (gs ":" ++ t.Label.Name)

/-! ## Deferred inclusion -/

/-- Source `subincludeLabel`. -/
def subincludeLabel (c : Collab) (args : List pyObject) : Eval BuildLabel := do
  let target ← asString (← arg args 0)
  NAssert (HasPrefix target (gs ":")) "Subincludes cannot be from the local package"
  if !HasPrefix target (gs "http") then
    return ← c.ParseBuildLabel target []
  let name := Replace (c.pathBase target) (gs ".") (gs "_")
  let label : BuildLabel := ⟨subincludePackageName, name⟩
  if ((← Eval.get).Graph.Target label).isSome then
    return label
  let remoteFile ←
    match (← Eval.get).subincludeScope.lookup (gs "remote_file") with
    | some (.pyFunc r) => pure r
    | some _ => Eval.throw (.assertion "remote_file is not callable")
    | none => Eval.throw (.runtimePanic "name is not defined")
  let hashes ←
    match ← arg args 1 with
    | .nil => pure none
    | .None => pure none
    | h => do
      let hs ← asString h
      pure (some hs)
  c.callRemoteFile remoteFile name target hashes
  return label

/-- The loop of `subinclude` over the outputs of the target at `p`. -/
def subincludeOutputs (c : Collab) (p : Nat) : List GoString → Eval Unit
  | [] => pure ()
  | out :: rest => do
    let t ← deref (← Eval.get) p
    let symbols ← c.Subinclude (c.pathJoin t.OutDir out)
    SetAll symbols
    subincludeOutputs c p rest

/-- Source `subinclude`. -/
def subinclude (c : Collab) (args : List pyObject) : Eval pyObject := do
  let l ← subincludeLabel c args
  let s ← Eval.get
  match s.Graph.Target l with
  | none => Eval.throw (.deferParse l)
  | some p =>
    let t ← deref s p
    if t.state < Built then
      Eval.throw (.deferParse l)
    else
      if l.PackageName ≠ subincludePackageName ∧ s.pkg.isSome then
        RegisterSubinclude l
      subincludeOutputs c p t.Outputs
      return .None

/-! ## Labels of a target and of its dependencies -/

/-- The body of the first loop of the closure in `getLabelsInternal`: the
labels of one target that start with `pfx` are entered, stripped and trimmed,
as keys of the map `labels` (a list without repetition). -/
def addLabels (pfx : GoString) (labels : List GoString) : List GoString → List GoString
  | [] => labels
  | label :: rest =>
    if HasPrefix label pfx then
      addLabels pfx (labels.insert (TrimSpace (TrimPrefix label pfx))) rest
    else addLabels pfx labels rest

/-- The recursive closure `getLabels` of `getLabelsInternal`, on the pair of the
maps `labels` and `done`. The first argument bounds the depth of the recursion;
each call marks a target that was not done, so the number of targets is enough. -/
def getLabelsVisit (heap : List BuildTarget) (pfx : GoString) (target : Nat) :
    Nat → Nat → List GoString × List Nat → Except Signal (List GoString × List Nat)
  | 0, _, _ => .error .outOfFuel
  | fuel + 1, t, (labels, done) =>
    match heap[t]? with
    | none => .error (.runtimePanic "nil pointer dereference")
    | some tgt =>
      let labels := addLabels pfx labels tgt.Labels
      let done := t :: done
      if !tgt.OutputIsComplete || t = target then
        tgt.Dependencies.foldlM
          (fun st dep =>
            if dep ∈ st.2 then pure st
            else getLabelsVisit heap pfx target fuel dep st)
          (labels, done)
      else pure (labels, done)

/-- Source `getLabelsInternal`, on the heap that the target pointer refers to. -/
def getLabelsInternal (heap : List BuildTarget) (target : Nat) (pfx : GoString)
    (minState : BuildTargetState) : Except Signal pyObject :=
  match heap[target]? with
  | none => .error (.runtimePanic "nil pointer dereference")
  | some t =>
    if t.state < minState then
      .error (.fatal "get_labels called on a target that is not yet built: %s")
    else
      match getLabelsVisit heap pfx target heap.length target ([], []) with
      | .error e => .error e
      | .ok (labels, _) => .ok (fromStringList (sortStrings labels))

/-! ## Post-build mutation -/

/-- Source `getTargetPost`; it reads the state and writes nothing. -/
def getTargetPost (s : scope) (name : GoString) : Except Signal Nat := do
  let pkg ← currentPackage s
  match pkg.Target name with
  | none => .error (.assertion "Unknown build target %s in %s")
  | some p =>
    let target ← deref s p
    if target.state < Built then pure p
    else .error (.assertion "Attempted to modify target %s, but it's already built")

/-- Source `getLabels`; it reads the state and writes nothing. `TargetOrDie`
ends the process when the graph has no target for the label. -/
def getLabels (c : Collab) (s : scope) (args : List pyObject) : Except Signal pyObject := do
  let name ← asString (← arg args 0)
  let pfx ← asString (← arg args 1)
  if c.LooksLikeABuildLabel name then
    let pkg ← currentPackage s
    let label ← c.ParseBuildLabel name pkg.Name
    match s.Graph.Target label with
    | none => .error (.fatal "Target %s not found in build graph")
    | some p => getLabelsInternal s.heap p pfx Built
  else
    let target ← getTargetPost s name
    getLabelsInternal s.heap target pfx Building

/-- Source `addDep`. -/
def addDep (c : Collab) (args : List pyObject) : Eval pyObject := do
  Assert (← Eval.get).Callback "can only be called from a pre- or post-build callback"
  let name ← asString (← arg args 0)
  let target ← getTargetPost (← Eval.get) name
  let depName ← asString (← arg args 1)
  let pkg ← currentPackage (← Eval.get)
  let dep ← c.ParseBuildLabel depName pkg.Name
  let exported ← truthy (← arg args 2)
  updateTarget target (fun t => { t with declared := t.declared ++ [(dep, exported)] })
  let t ← deref (← Eval.get) target
  GraphAddDependency t.Label dep
  MarkTargetModified target
  return .None

/-- Source `addOut`. -/
def addOut (args : List pyObject) : Eval pyObject := do
  let target ← getTargetPost (← Eval.get) (← asString (← arg args 0))
  let name ← asString (← arg args 1)
  let out ← asString (← arg args 2)
  if out = [] then
    updateTarget target (fun t => { t with outputs := t.outputs ++ [name] })
    MustRegisterOutput name target
  else
    updateTarget target (fun t => { t with namedOutputs := t.namedOutputs ++ [(name, out)] })
    MustRegisterOutput out target
  return .None

/-- Source `addLicence`. -/
def addLicence (args : List pyObject) : Eval pyObject := do
  let target ← getTargetPost (← Eval.get) (← asString (← arg args 0))
  let licence ← asString (← arg args 1)
  updateTarget target (fun t => { t with licences := t.licences ++ [licence] })
  return .None

/-- Source `getCommand`. -/
def getCommand (args : List pyObject) : Eval pyObject := do
  let target ← getTargetPost (← Eval.get) (← asString (← arg args 0))
  let config ← asString (← arg args 1)
  let t ← deref (← Eval.get) target
  return .pyString (t.GetCommandConfig config)

/-- Source `setCommand`. -/
def setCommand (args : List pyObject) : Eval pyObject := do
  let target ← getTargetPost (← Eval.get) (← asString (← arg args 0))
  let config ← asString (← arg args 1)
  let command ← asString (← arg args 2)
  if command = [] then
    updateTarget target (fun t => { t with Command := config })
  else
    updateTarget target
      (fun t => { t with commands := (config, command) :: t.commands.filter (fun kv => kv.1 ≠ config) })
  return .None

/-! ## Registration of the natives -/

/-- Write a field of the function object that `f` points to. -/
def updateFunc (f : Nat) (g : pyFunc → pyFunc) : Eval Unit := fun s =>
  match s.funcs[f]? with
  | some fn => (.ok (), { s with funcs := s.funcs.set f (g fn) })
  | none => (.error (.runtimePanic "nil pointer dereference"), s)

/-- Source `setNativeCode`: the function object bound to `name` gets `code` as
its native code and loses its interpreted body; the pointer is returned. -/
def setNativeCode (name : GoString) (code : nativeFunc) : Eval Nat := do
  let f ← asFunc (← Lookup name)
  updateFunc f (fun fn => { fn with nativeCode := some code })
  updateFunc f (fun fn => { fn with code := false })
  return f

/-- Source `setLogCode`. -/
def setLogCode (name : GoString) (level : String) : Eval Unit := do
  let f ← setNativeCode name (.logCode level)
  updateFunc f (fun fn => { fn with varargs := true })

/-- The expression `s.Lookup(name).(*pyFunc)`. -/
def lookupFunc (name : GoString) : Eval Nat := do
  let f ← asFunc (← Lookup name)
  return f

/-- The three method tables that `registerBuiltins` assigns: method name to
function object. -/
structure MethodTables where
  stringMethods : List (GoString × Nat)
  dictMethods : List (GoString × Nat)
  configMethods : List (GoString × Nat)
  deriving DecidableEq, Repr

/-- Source `registerBuiltins`; the calls run in the order of the source text,
the entries of a map literal included. -/
def registerBuiltins : Eval MethodTables := do
  let _ ← setNativeCode (gs "build_rule") .buildRule
  let _ ← setNativeCode (gs "subinclude") .subinclude
  let f ← setNativeCode (gs "package") .pkg
  updateFunc f (fun fn => { fn with kwargs := true })
  let _ ← setNativeCode (gs "sorted") .sorted
  let _ ← setNativeCode (gs "isinstance") .isinstance
  let _ ← setNativeCode (gs "callable") .callable
  let _ ← setNativeCode (gs "range") .pyRange
  let _ ← setNativeCode (gs "enumerate") .enumerate
  let f ← setNativeCode (gs "zip") .zip
  updateFunc f (fun fn => { fn with varargs := true })
  let _ ← setNativeCode (gs "len") .lenFunc
  let _ ← setNativeCode (gs "glob") .glob
  let _ ← setNativeCode (gs "bool") .boolType
  let _ ← setNativeCode (gs "str") .strType
  let f ← setNativeCode (gs "join_path") .joinPath
  updateFunc f (fun fn => { fn with varargs := true })
  let _ ← setNativeCode (gs "get_base_path") .packageName
  let _ ← setNativeCode (gs "package_name") .packageName
  let _ ← setNativeCode (gs "get_labels") .getLabels
  let _ ← setNativeCode (gs "add_dep") .addDep
  let _ ← setNativeCode (gs "add_out") .addOut
  let _ ← setNativeCode (gs "add_licence") .addLicence
  let _ ← setNativeCode (gs "get_command") .getCommand
  let _ ← setNativeCode (gs "set_command") .setCommand
  let mJoin ← setNativeCode (gs "join") .strJoin
  let mSplit ← setNativeCode (gs "split") .strSplit
  let mReplace ← setNativeCode (gs "replace") .strReplace
  let mPartition ← setNativeCode (gs "partition") .strPartition
  let mRPartition ← setNativeCode (gs "rpartition") .strRPartition
  let mStartsWith ← setNativeCode (gs "startswith") .strStartsWith
  let mEndsWith ← setNativeCode (gs "endswith") .strEndsWith
  let mLStrip ← setNativeCode (gs "lstrip") .strLStrip
  let mRStrip ← setNativeCode (gs "rstrip") .strRStrip
  let mStrip ← lookupFunc (gs "strip")
  let mFind ← setNativeCode (gs "find") .strFind
  let mRFind ← setNativeCode (gs "find") .strRFind
  let mFormat ← setNativeCode (gs "format") .strFormat
  let mCount ← setNativeCode (gs "count") .strCount
  let stringMethods : List (GoString × Nat) :=
    [(gs "join", mJoin), (gs "split", mSplit), (gs "replace", mReplace),
     (gs "partition", mPartition), (gs "rpartition", mRPartition),
     (gs "startswith", mStartsWith), (gs "endswith", mEndsWith),
     (gs "lstrip", mLStrip), (gs "rstrip", mRStrip), (gs "strip", mStrip),
     (gs "find", mFind), (gs "rfind", mRFind), (gs "format", mFormat),
     (gs "count", mCount)]
  updateFunc mFormat (fun fn => { fn with kwargs := true })
  let dGet ← setNativeCode (gs "get") .dictGet
  let dSetdefault ← lookupFunc (gs "setdefault")
  let dKeys ← setNativeCode (gs "keys") .dictKeys
  let dItems ← setNativeCode (gs "items") .dictItems
  let dValues ← setNativeCode (gs "values") .dictValues
  let dCopy ← setNativeCode (gs "copy") .dictCopy
  let dictMethods : List (GoString × Nat) :=
    [(gs "get", dGet), (gs "setdefault", dSetdefault), (gs "keys", dKeys),
     (gs "items", dItems), (gs "values", dValues), (gs "copy", dCopy)]
  let cGet ← setNativeCode (gs "config_get") .configGet
  let cSetdefault ← lookupFunc (gs "setdefault")
  let configMethods : List (GoString × Nat) :=
    [(gs "get", cGet), (gs "setdefault", cSetdefault)]
  setLogCode (gs "debug") "Debug"
  setLogCode (gs "info") "Info"
  setLogCode (gs "notice") "Notice"
  setLogCode (gs "warning") "Warning"
  setLogCode (gs "error") "Errorf"
  setLogCode (gs "fatal") "Fatalf"
  return ⟨stringMethods, dictMethods, configMethods⟩

/-- The native code that a method of strings runs: the entry of the string
method table under `method`, dereferenced. -/
def stringMethodCode (tables : MethodTables) (s : scope) (method : GoString) :
    Option nativeFunc :=
  match tables.stringMethods.lookup method with
  | some f =>
    match s.funcs[f]? with
    | some fn => fn.nativeCode
    | none => none
  | none => none

/-! ## Example data for closed statements -/

/-- The names that the prelude binds to function objects before
`registerBuiltins` runs. -/
def preludeNames : List GoString :=
  [gs "build_rule", gs "subinclude", gs "package", gs "sorted", gs "isinstance",
   gs "callable", gs "range", gs "enumerate", gs "zip", gs "len", gs "glob", gs "bool",
   gs "str", gs "join_path", gs "get_base_path", gs "package_name", gs "get_labels",
   gs "add_dep", gs "add_out", gs "add_licence", gs "get_command", gs "set_command",
   gs "join", gs "split", gs "replace", gs "partition", gs "rpartition", gs "startswith",
   gs "endswith", gs "lstrip", gs "rstrip", gs "strip", gs "find", gs "rfind",
   gs "format", gs "count", gs "get", gs "setdefault", gs "keys", gs "items",
   gs "values", gs "copy", gs "config_get", gs "debug", gs "info", gs "notice",
   gs "warning", gs "error", gs "fatal"]

/-- A root scope in which every prelude name is bound to a function object of
its own, with an interpreted body and no native code. -/
def preludeScope : scope where
  locals := preludeNames.enum.map (fun (i, n) => (n, .pyFunc i))
  pkg := none
  Graph := ⟨[], []⟩
  heap := []
  funcs := preludeNames.map (fun n => ⟨n, none, true, false, false⟩)
  subincludeScope := []
  Callback := false

/-- The native code found under a string method after `registerBuiltins` has
run on the scope `s`. -/
def registeredStringMethod (s : scope) (method : GoString) : Except Signal (Option nativeFunc) :=
  match registerBuiltins s with
  | (.ok tables, s1) => .ok (stringMethodCode tables s1 method)
  | (.error e, _) => .error e

/-- A collaborator instance for closed statements: labels are `//pkg:name` or
`:name`, a target is created from the name in slot 0, and nothing else
happens. -/
def exCollab : Collab where
  configGet := fun _ _ d => d
  createTarget := fun _ args =>
    match (args[0]? : Option pyObject) with
    | some (pyObject.pyString n) => .ok ⟨⟨gs "pkg", n⟩, 0, [], false, [], [], [], [], [], [], [], [], false⟩
    | _ => .error (.assertion "name must be a string")
  populateTarget := fun _ _ => pure ()
  ParseBuildLabel := fun t cur =>
    if HasPrefix t (gs ":") then .ok ⟨cur, t.drop 1⟩
    else if HasPrefix t (gs "//") then
      .ok ⟨(t.drop 2).takeWhile (fun b => b ≠ 58), ((t.drop 2).dropWhile (fun b => b ≠ 58)).drop 1⟩
    else .error (.fatal "Invalid build label")
  LooksLikeABuildLabel := fun t => HasPrefix t (gs "//") || HasPrefix t (gs ":")
  pathBase := fun t => t
  pathJoin := fun a b => a ++ gs "/" ++ b
  Subinclude := fun _ => pure []
  callRemoteFile := fun _ _ _ _ => pure ()

/-- A target `//pkg:x` in a given state, with the labels `cc:ld` and `py: z`. -/
def exTarget (state : BuildTargetState) : BuildTarget :=
  ⟨⟨gs "pkg", gs "x"⟩, state, [gs "cc:ld", gs "py: z"], false, [], [], [], [], [], [], [], [],
    false⟩

/-- A scope whose package `pkg` holds the one target `x`, registered with the
graph, in a given mode and with the target in a given state. -/
def exScope (callback : Bool) (state : BuildTargetState) : scope where
  locals := [(gs "CONFIG", .pyConfig 0)]
  pkg := some ⟨gs "pkg", [(gs "x", 0)], [], [], []⟩
  Graph := ⟨[(⟨gs "pkg", gs "x"⟩, 0)], []⟩
  heap := [exTarget state]
  funcs := []
  subincludeScope := []
  Callback := callback

/-- An argument array of `build_rule` with the name `x` in slot 0 and the other
30 slots unset. -/
def exRuleArgs : List pyObject :=
  .pyString (gs "x") :: List.replicate 30 .nil

/-! ## Properties stated about the builtins -/

/-- Target names are unique within the current package. -/
def UniqueNames (s : scope) : Prop :=
  ∀ pkg, s.pkg = some pkg → (pkg.targets.map Prod.fst).Nodup

/-- A computation leaves the target table of the current package as it is. -/
def KeepsTargetTable {α : Type} (m : Eval α) : Prop :=
  ∀ s, (m s).2.pkg.map (fun k => k.targets) = s.pkg.map (fun k => k.targets)

/-- The part of `buildRule` after `s.pkg.AddTarget(target)`, named for the
proofs; `buildRule` is shown to run it. -/
def buildRuleTail (c : Collab) (p : Nat) (args : List pyObject) : Eval pyObject := do
  c.populateTarget p args
  if (← Eval.get).Callback then
    updateTarget p (fun t => { t with AddedPostBuild := true })
    GraphAddTarget p
    MarkTargetModified p
  let t ← deref (← Eval.get) p
  return .pyString (gs ":" ++ t.Label.Name)

/-- Every pointer among the dependencies of an allocated target refers to an
allocated target (no dangling pointers). -/
def HeapClosed (heap : List BuildTarget) : Prop :=
  ∀ (p : Nat) (t : BuildTarget), heap[p]? = some t → ∀ d ∈ t.Dependencies, d < heap.length

/-- The target `v` is reachable from `root` by a dependency path on which every
target that is passed through, other than `root`, has `OutputIsComplete` unset. -/
inductive Reaches (heap : List BuildTarget) (root : Nat) : Nat → Prop
  | root : Reaches heap root root
  | step {u v : Nat} {tu : BuildTarget} : Reaches heap root u → heap[u]? = some tu →
      (tu.OutputIsComplete = false ∨ u = root) → v ∈ tu.Dependencies → Reaches heap root v

/-- The string `x` is what the traversal records for some label of the target
`u`: a label that starts with `pfx`, with the prefix stripped and the white
space around the rest trimmed. -/
def CarriesLabel (heap : List BuildTarget) (pfx : GoString) (u : Nat) (x : GoString) : Prop :=
  ∃ tu label, heap[u]? = some tu ∧ label ∈ tu.Labels ∧ HasPrefix label pfx = true ∧
    x = TrimSpace (TrimPrefix label pfx)

/-- The dependencies of `u` are all marked in `done`, if the traversal descends
into `u` at all. -/
def DepsDone (heap : List BuildTarget) (root : Nat) (u : Nat) (done : List Nat) : Prop :=
  ∀ tu, heap[u]? = some tu → (tu.OutputIsComplete = false ∨ u = root) →
    ∀ d ∈ tu.Dependencies, d ∈ done

/-- The invariant of the traversal on the pair of the maps `labels` and `done`:
every marked target is allocated and reachable, and the keys of `labels` are
what the marked targets carry. -/
def VisitInv (heap : List BuildTarget) (pfx : GoString) (root : Nat)
    (st : List GoString × List Nat) : Prop :=
  st.2.Nodup ∧ (∀ u ∈ st.2, u < heap.length) ∧ (∀ u ∈ st.2, Reaches heap root u) ∧
    st.1.Nodup ∧ ∀ x, x ∈ st.1 ↔ ∃ u ∈ st.2, CarriesLabel heap pfx u x

/-- The list `l` is the ascending list, without repetition, of what the
targets reachable from `root` carry under `pfx`. -/
def LabelsFrom (heap : List BuildTarget) (root : Nat) (pfx : GoString) (l : List GoString) :
    Prop :=
  l.Sorted (fun a b => a < b) ∧
    ∀ x, x ∈ l ↔ ∃ u, Reaches heap root u ∧ CarriesLabel heap pfx u x

/-- A heap with a cycle: `x` depends on `d`, which has `OutputIsComplete` set and
depends on `e`, which depends on `x`. -/
def exHeap : List BuildTarget :=
  [⟨⟨gs "pkg", gs "x"⟩, 0, [gs "cc:ld", gs "py: z"], false, [1], [], [], [], [], [], [], [],
      false⟩,
   ⟨⟨gs "pkg", gs "d"⟩, 0, [gs "py:a"], true, [2], [], [], [], [], [], [], [], false⟩,
   ⟨⟨gs "pkg", gs "e"⟩, 0, [gs "py:b"], false, [0], [], [], [], [], [], [], [], false⟩]

/-! ## Splitting and joining -/

/-- The counting loop of `strings.Count` for a non-empty `sep`: instances are
found from the left and do not overlap. The first argument bounds the number of
rounds; each round drops at least one byte. -/
def countLoop (sep : GoString) : Nat → GoString → Nat
  | 0, _ => 0
  | fuel + 1, s =>
    let i := Index s sep
    if i = -1 then 0 else 1 + countLoop sep fuel (s.drop (i.toNat + sep.length))

/-- Go `utf8.RuneCountInString`: the number of UTF-8 sequences, an invalid byte
counting as one. -/
def runeCount : Nat → GoString → Nat
  | 0, _ => 0
  | fuel + 1, s => if s = [] then 0 else 1 + runeCount fuel (s.drop (runeWidth s))

/-- Go `strings.Count`: the number of non-overlapping instances of `sep` in `s`,
and one more than the number of runes for the empty `sep`. -/
def Count (s sep : GoString) : Nat :=
  if sep = [] then runeCount s.length s + 1 else countLoop sep s.length s

/-- The function `explode` of Go's `strings`, used by `Split` for the empty
separator: one string for each UTF-8 sequence, an invalid byte before the last
sequence being given as the encoding of U+FFFD. -/
def explode : Nat → GoString → List GoString
  | 0, _ => []
  | fuel + 1, s =>
    match s with
    | [] => []
    | b :: t =>
      let w := runeWidth (b :: t)
      if (b :: t).length ≤ w then [b :: t]
      else
        (if 0x80 ≤ b.val ∧ w = 1 then [0xEF, 0xBF, 0xBD] else (b :: t).take w) ::
          explode fuel ((b :: t).drop w)

/-- The loop of `genSplit` in Go's `strings` for a non-empty separator: at most
`n` times, the text before the first instance of `sep` is split off and the
search goes on behind that instance; what is left is the last element. -/
def splitLoop (sep : GoString) : Nat → GoString → List GoString
  | 0, s => [s]
  | n + 1, s =>
    let m := Index s sep
    if m < 0 then [s]
    else s.take m.toNat :: splitLoop sep n (s.drop (m.toNat + sep.length))

/-- Go `strings.Split(s, sep)`: the number of rounds of the loop is
`Count(s, sep)`, capped at `len(s)`. -/
def Split (s sep : GoString) : List GoString :=
  if sep = [] then explode s.length s
  else splitLoop sep (min (Count s sep + 1) (s.length + 1) - 1) s

/-- Go `strings.Join(elems, sep)`. -/
def Join : List GoString → GoString → GoString
  | [], _ => []
  | [a], _ => a
  | a :: b :: rest, sep => a ++ sep ++ Join (b :: rest) sep

/-- The loop of `asStringList`: every element must be a string. -/
def stringsOf : List pyObject → Except Signal (List GoString)
  | [] => .ok []
  | .pyString sx :: rest => do
    let sl ← stringsOf rest
    return sx :: sl
  | _ :: _ => .error (.assertion "%s must be a list of strings")

/-- Source `asStringList`. -/
def asStringList (a : pyObject) : Except Signal (List GoString) :=
  match a with
  | .pyList l => stringsOf l
  | _ => .error (.assertion "argument %s must be a list")

/-- Source `strJoin`. -/
def strJoin (args : List pyObject) : Except Signal pyObject := do
  let self ← asString (← arg args 0)
  let seq ← asStringList (← arg args 1)
  return .pyString (Join seq self)

/-- Source `strSplit`. -/
def strSplit (args : List pyObject) : Except Signal pyObject := do
  let self ← asString (← arg args 0)
  let sep ← asString (← arg args 1)
  return fromStringList (Split self sep)

/-! ## Type tests -/

/-- Modelled from the spec: the variant of a value, which is what
`reflect.TypeOf` tells apart; the nil interface value has the nil type. -/
inductive pyType where
  | nil | none | bool | int | str | list | dict | func | config
  deriving DecidableEq, Repr

/-- The expression `reflect.TypeOf(x)`. -/
def TypeOf : pyObject → pyType
  | .nil => .nil
  | .None => .none
  | .pyBool _ => .bool
  | .pyInt _ => .int
  | .pyString _ => .str
  | .pyList _ => .list
  | .pyDict _ => .dict
  | .pyFunc _ => .func
  | .pyConfig _ => .config

/-- Source `isType`. -/
def isType (obj : pyObject) (name : GoString) : Bool :=
  match obj with
  | .pyBool _ => name = gs "bool" || name = gs "int"
  | .pyInt _ => name = gs "int"
  | .pyString _ => name = gs "str"
  | .pyList _ => name = gs "list"
  | .pyDict _ => name = gs "dict"
  | _ => false

/-- The field `f.name` of the function object that `f` points to. -/
def funcName (s : scope) (f : Nat) : Except Signal GoString :=
  match s.funcs[f]? with
  | some fn => .ok fn.name
  | none => .error (.runtimePanic "nil pointer dereference")

/-- The loop of `isinstance` over the elements of a list of types: whether it
returns True from inside the loop. -/
def isinstanceLoop (s : scope) (obj : pyObject) : List pyObject → Except Signal Bool
  | [] => .ok false
  | li :: rest => do
    let named ←
      match li with
      | .pyFunc lif => do
        let name ← funcName s lif
        pure (isType obj name)
      | _ => pure false
    if named then return true
    else if TypeOf obj = TypeOf li then return true
    else isinstanceLoop s obj rest

/-- Source `isinstance`. -/
def isinstance (s : scope) (args : List pyObject) : Except Signal pyObject := do
  let obj ← arg args 0
  let types ← arg args 1
  let named ←
    match types with
    | .pyFunc f => do
      let name ← funcName s f
      pure (isType obj name)
    | _ => pure false
  if named then return .pyBool true
  let listed ←
    match types with
    | .pyList l => isinstanceLoop s obj l
    | _ => pure false
  if listed then return .pyBool true
  return .pyBool (TypeOf obj = TypeOf types)

/-- An element of a list of type designators matches a value: it is a function
object whose name designates the variant of the value, or it is a value of the
same variant. -/
def Designates (s : scope) (obj li : pyObject) : Prop :=
  (∃ f fn, li = .pyFunc f ∧ s.funcs[f]? = some fn ∧ isType obj fn.name = true) ∨
    TypeOf obj = TypeOf li

/-- A scope whose function objects 0 to 4 are the builtin type functions `int`,
`str`, `bool`, `list` and `dict`. -/
def typeScope : scope where
  locals := [(gs "int", .pyFunc 0), (gs "str", .pyFunc 1), (gs "bool", .pyFunc 2),
    (gs "list", .pyFunc 3), (gs "dict", .pyFunc 4)]
  pkg := none
  Graph := ⟨[], []⟩
  heap := []
  funcs := [⟨gs "int", none, true, false, false⟩, ⟨gs "str", none, true, false, false⟩,
    ⟨gs "bool", none, true, false, false⟩, ⟨gs "list", none, true, false, false⟩,
    ⟨gs "dict", none, true, false, false⟩]
  subincludeScope := []
  Callback := false

/-! ## Ranges and zipping -/

/-- The value a Go `int` (64 bits, two's complement) holds after an operation
whose exact result is `x`. -/
def wrapInt (x : Int) : Int := (x + 2 ^ 63) % 2 ^ 64 - 2 ^ 63

/-- The numbers that a Go `int`, and so a `pyInt`, holds. -/
def fitsInt (x : Int) : Prop := -(2 : Int) ^ 63 ≤ x ∧ x < 2 ^ 63

instance (x : Int) : Decidable (fitsInt x) := inferInstanceAs (Decidable (_ ∧ _))

/-- Limits of the Go runtime on the machine at hand: `maxLen` is the greatest
length that `makeslice` accepts for a `pyList` (`maxAlloc` over the size of an
element), `memLen` the greatest length for which the memory is there. -/
structure Limits where
  maxLen : Nat
  memLen : Nat
  maxLen_lt : maxLen < 2 ^ 63

/-- The call `make(pyList, n)`: a panic on a negative length and on one above
`maxLen`, the end of the process when the memory is not there, and otherwise a
slice of `n` nil values. -/
def makeList (lim : Limits) (n : Int) : Except Signal (List pyObject) :=
  if n < 0 ∨ (lim.maxLen : Int) < n then .error (.runtimePanic "makeslice: len out of range")
  else if (lim.memLen : Int) < n then .error (.fatal "runtime: out of memory")
  else .ok (List.replicate n.toNat pyObject.nil)

/-- Limits for closed statements: 48 address bits with elements of 16 bytes,
and memory for a list of 2^30 elements. -/
def exLimits : Limits := ⟨2 ^ 44, 2 ^ 30, by decide⟩

/-- The loop `for i := start; i < stop; i++ { ret[i-start] = i }` of `pyRange`,
with the arithmetic of a Go `int`; the first argument bounds the number of
rounds. The loop body runs only with `start ≤ i < stop`, where the index
`i - start` is within the slice made for it. -/
def rangeFill (start stop : Int) : Nat → Int → List pyObject → List pyObject
  | 0, _, ret => ret
  | fuel + 1, i, ret =>
    if i < stop then
      rangeFill start stop fuel (wrapInt (i + 1))
        (ret.set (wrapInt (i - start)).toNat (.pyInt i))
    else ret

/-- Source `pyRange`. The difference `stop-start` is that of two Go `int`s, so
it wraps; `make` panics on a negative length and on one it cannot allocate; the
loop runs `stop - start` times when `start ≤ stop` and not at all otherwise. -/
def pyRange (lim : Limits) (args : List pyObject) : Except Signal pyObject := do
  let a0 ← arg args 0
  let a1 ← arg args 1
  let (start, ok) : Int × Bool :=
    match a0 with
    | .pyInt n => (n, true)
    | _ => (0, false)
  let (stop, ok2) : Int × Bool :=
    match a1 with
    | .pyInt n => (n, true)
    | _ => (0, false)
  let (start, stop, ok2) : Int × Int × Bool :=
    match a1 with
    | .pyBool _ => (0, start, true)
    | _ => (start, stop, ok2)
  if !(ok && ok2) then
    .error (.assertion "Arguments to range() must be integers")
  else
    let ret ← makeList lim (wrapInt (stop - start))
    return .pyList (rangeFill start stop (wrapInt (stop - start)).toNat start ret)

/-- The first loop of `zip`: every argument must be a list, and each list but
the first must have the length of the one before it. The result is `lastLen`. -/
def zipCheck : List pyObject → Nat → Nat → Except Signal Nat
  | [], _, lastLen => .ok lastLen
  | seq :: rest, i, lastLen =>
    match seq with
    | .pyList si =>
      if i = 0 ∨ lastLen = si.length then zipCheck rest (i + 1) si.length
      else .error (.assertion "All arguments to zip must have the same length")
    | _ => .error (.assertion "Arguments to zip must be lists, not %s")

/-- The inner loop of `zip`: the row `i`, made of `li.(pyList)[i]` for every
argument `li`. -/
def zipRow (i : Nat) : List pyObject → Except Signal (List pyObject)
  | [] => .ok []
  | li :: rest =>
    match li with
    | .pyList l =>
      match l[i]? with
      | some x => do
        let r ← zipRow i rest
        return x :: r
      | none => .error (.runtimePanic "index out of range")
    | _ => .error (.runtimePanic "interface conversion: pyObject is not pyList")

/-- The outer loop of `zip` over the indices of the rows. -/
def zipRows (args : List pyObject) : List Nat → Except Signal (List pyObject)
  | [] => .ok []
  | i :: rest => do
    let r ← zipRow i args
    let rows ← zipRows args rest
    return .pyList r :: rows

/-- Source `zip`. -/
def zip (args : List pyObject) : Except Signal pyObject := do
  let lastLen ← zipCheck args 0 0
  let rows ← zipRows args (List.range lastLen)
  return .pyList rows

/-! ## Sorting -/

/-- The operations of the value model that `sorted` and `strFormat` call on
values; they are declared outside `builtins.go` and are parameters. -/
structure Values where
  /-- The expression `a.Operator(LessThan, b).IsTruthy()`. -/
  LessThan : pyObject → pyObject → Except Signal Bool
  /-- The method `v.String()`, the string rendering of a value. -/
  String : pyObject → GoString

/-- What Go `sort.Slice` does to the content of a slice, given the `less` of the
call as a comparison of elements. The library documents that it sorts and that
it is not guaranteed to be stable, and no more; it is a parameter. -/
abbrev SliceSorter : Type :=
  (pyObject → pyObject → Except Signal Bool) → List pyObject → Except Signal (List pyObject)

/-- On the elements of `l`, `lt` is a strict weak ordering, which is what
`sort.Slice` asks of its `less`: irreflexive, transitive, and with a transitive
"not less". -/
def StrictWeakOn (lt : pyObject → pyObject → Bool) (l : List pyObject) : Prop :=
  (∀ a ∈ l, lt a a = false) ∧
    (∀ a ∈ l, ∀ b ∈ l, ∀ c ∈ l, lt a b = true → lt b c = true → lt a c = true) ∧
    (∀ a ∈ l, ∀ b ∈ l, ∀ c ∈ l, lt a b = false → lt b c = false → lt a c = false)

/-- The documented contract of `sort.Slice`: when `less` does not panic on the
elements of the slice and is a strict weak ordering on them, the slice ends up
holding a permutation of its elements in which no element is less than one
before it. -/
def SortsSlices (sortSlice : SliceSorter) : Prop :=
  ∀ (less : pyObject → pyObject → Except Signal Bool) (lt : pyObject → pyObject → Bool)
    (l : List pyObject),
    (∀ a ∈ l, ∀ b ∈ l, less a b = .ok (lt a b)) → StrictWeakOn lt l →
    ∃ r, sortSlice less l = .ok r ∧ r.Perm l ∧ r.Pairwise (fun a b => lt b a = false)

/-- Source `sorted`. The slice expression `l[:]` shares the backing array of the
argument, so `sort.Slice` sorts the argument in place: the result is the pair of
the list returned and of the content of the argument list after the call. The
call `args[0].Type()` is a nil dereference on the nil interface value. -/
def sorted (vm : Values) (sortSlice : SliceSorter) (args : List pyObject) :
    Except Signal (pyObject × pyObject) := do
  let a ← arg args 0
  match a with
  | .nil => .error (.runtimePanic "nil pointer dereference")
  | .pyList l =>
    let r ← sortSlice vm.LessThan l
    return (.pyList r, .pyList r)
  | _ => .error (.assertion "unsortable type %s")

/-- Two elements that are equal under the ordering keep, in `r`, the relative
order they have in `l`. -/
def StableOn (lt : pyObject → pyObject → Bool) (l r : List pyObject) : Prop :=
  ∀ a b, lt a b = false → lt b a = false → List.Sublist [a, b] l → List.Sublist [a, b] r

/-- One round of an insertion sort with a `less` that may panic: `a` is put
before the first element that is not less than it. -/
def insertSlice (less : pyObject → pyObject → Except Signal Bool) (a : pyObject) :
    List pyObject → Except Signal (List pyObject)
  | [] => .ok [a]
  | b :: t => do
    if (← less b a) then
      let r ← insertSlice less a t
      return b :: r
    else return a :: b :: t

/-- A sorter that meets the contract of `sort.Slice` and is stable: insertion
sort. -/
def insertionSlice : SliceSorter := fun less l =>
  l.foldr (fun a acc => do
    let r ← acc
    insertSlice less a r) (.ok [])

/-- A sorter that meets the contract of `sort.Slice` and is not stable:
insertion sort of the reversed slice. -/
def reversingSlice : SliceSorter := fun less l => insertionSlice less l.reverse

/-- The order of Int values, for the statement of the claims on Int lists. -/
def intLess : pyObject → pyObject → Bool
  | .pyInt x, .pyInt y => decide (x < y)
  | _, _ => false

/-- An instance of the value model for closed statements: Ints compare as
numbers, a Bool compares as 0 or 1 with Ints and Bools, any other comparison
panics; a string renders as itself and any other value as the empty string. -/
def exValues : Values where
  LessThan := fun a b =>
    match a, b with
    | .pyInt x, .pyInt y => .ok (decide (x < y))
    | .pyInt x, .pyBool y => .ok (decide (x < (if y then 1 else 0)))
    | .pyBool x, .pyInt y => .ok (decide ((if x then 1 else 0) < y))
    | .pyBool x, .pyBool y => .ok (decide ((if x then (1 : Int) else 0) < (if y then 1 else 0)))
    | _, _ => .error (.runtimePanic "unsupported operand types for <")
  String := fun v =>
    match v with
    | .pyString s => s
    | _ => []

/-- The order that `exValues` gives to Ints and Bools. -/
def exLess : pyObject → pyObject → Bool
  | .pyInt x, .pyInt y => decide (x < y)
  | .pyInt x, .pyBool y => decide (x < (if y then 1 else 0))
  | .pyBool x, .pyInt y => decide ((if x then 1 else 0) < y)
  | .pyBool x, .pyBool y => decide ((if x then (1 : Int) else 0) < (if y then 1 else 0))
  | _, _ => false

/-- The number of an Int value (0 for another value), for the statement of the
claims on Int lists. -/
def intOf : pyObject → Int
  | .pyInt n => n
  | _ => 0

/-! ## Formatting -/

/-- Source `strFormat`. `locals` lists the entries of the map `s.locals` in the
order in which the `range` loop yields them, an order that Go leaves open. -/
def strFormat (vm : Values) (locals : List (GoString × pyObject)) (args : List pyObject) :
    Except Signal pyObject := do
  let self ← asString (← arg args 0)
  let self := locals.foldl
    (fun self kv => Replace self (gs "\x7b" ++ kv.1 ++ gs "\x7d") (vm.String kv.2)) self
  return .pyString (Replace (Replace self (gs "\x7b\x7b") (gs "\x7b")) (gs "\x7d\x7d") (gs "\x7d"))

/-- A piece of a receiver whose braces are not nested: a text, or a name between
an opening and a closing brace. -/
inductive Seg where
  | text (t : GoString)
  | group (name : GoString)

/-- The bytes of a piece. -/
def Seg.render : Seg → GoString
  | .text t => t
  | .group n => gs "\x7b" ++ n ++ gs "\x7d"

/-- The receiver made of a sequence of pieces. -/
def renderSegs : List Seg → GoString
  | [] => []
  | seg :: rest => seg.render ++ renderSegs rest

/-- A text holds no opening brace, and a name holds no brace. -/
def Seg.WellFormed : Seg → Prop
  | .text t => (0x7B : Fin 256) ∉ t
  | .group n => (0x7B : Fin 256) ∉ n ∧ (0x7D : Fin 256) ∉ n

/-- What the substitution of the local `k` with the rendering `v` does to a
piece. -/
def Seg.subst (k v : GoString) : Seg → Seg
  | .text t => .text t
  | .group n => if n = k then .text v else .group n

/-- What all the substitutions together do to a piece: a group whose name is a
local becomes the rendering of that local. -/
def Seg.resolve (vm : Values) (locals : List (GoString × pyObject)) : Seg → Seg
  | .text t => .text t
  | .group n =>
    match locals.lookup n with
    | some v => .text (vm.String v)
    | none => .group n

/-! ## Lists in memory -/

/-- A Go slice value: the backing array it points into (by its place in memory),
the offset of its first element in that array, and its length. -/
structure GoSlice where
  array : Nat
  off : Nat
  len : Nat

/-- The backing arrays of the lists in memory. -/
abbrev Arrays : Type := List (List pyObject)

/-- The elements seen through a slice. -/
def GoSlice.elems (mem : Arrays) (l : GoSlice) : List pyObject :=
  ((mem.getD l.array []).drop l.off).take l.len

/-- The slice expression `l[lo:hi]`: a slice value over the same backing array;
no element is copied. -/
def GoSlice.slice (l : GoSlice) (lo hi : Nat) : GoSlice :=
  ⟨l.array, l.off + lo, hi - lo⟩

/-- Assigning the elements of a slice (`l[i] = vals[i]` for every `i`): the
stores go to the backing array. -/
def GoSlice.store (mem : Arrays) (l : GoSlice) (vals : List pyObject) : Arrays :=
  mem.set l.array
    ((mem.getD l.array []).take l.off ++ vals ++ (mem.getD l.array []).drop (l.off + l.len))

/-- Source `sorted` from `l = l[:]` on, with the list `args[0]` held in memory
as the slice `l`: `l[:]` is `l[0:len(l)]`, `sort.Slice` swaps the elements of the
slice it is given in place, and the slice is returned. The result is the slice
returned and the memory after the call. -/
def sortedInPlace (vm : Values) (sortSlice : SliceSorter) (mem : Arrays) (l : GoSlice) :
    Except Signal (GoSlice × Arrays) := do
  let l := l.slice 0 l.len
  let r ← sortSlice vm.LessThan (l.elems mem)
  return (l, l.store mem r)

/-! ## Theorems -/

/-! ### The state monad of the builtins -/

@[simp] theorem Eval.bind_apply {α β : Type} (m : Eval α) (f : α → Eval β) (s : scope) :
    (m >>= f) s = match m s with
      | (.ok a, s1) => f a s1
      | (.error e, s1) => (.error e, s1) := rfl

@[simp] theorem Eval.pure_apply {α : Type} (a : α) (s : scope) :
    (pure a : Eval α) s = (.ok a, s) := rfl

@[simp] theorem Eval.liftM_apply {α : Type} (x : Except Signal α) (s : scope) :
    (liftM x : Eval α) s = (x, s) := rfl

@[simp] theorem Eval.monadLift_apply {α : Type} (x : Except Signal α) (s : scope) :
    (MonadLiftT.monadLift x : Eval α) s = (x, s) := rfl

@[simp] theorem Eval.get_apply (s : scope) : Eval.get s = (.ok s, s) := rfl

@[simp] theorem Eval.throw_apply {α : Type} (e : Signal) (s : scope) :
    (Eval.throw e : Eval α) s = (.error e, s) := rfl

@[simp] theorem Eval.modify_apply (f : scope → scope) (s : scope) :
    Eval.modify f s = (.ok (), f s) := rfl

/-! ### The shared lookup of the mutation protocol -/

theorem getTargetPost_unknown (s : scope) (name : GoString) (pkg : Package)
    (hp : s.pkg = some pkg) (hn : pkg.Target name = none) :
    getTargetPost s name = .error (.assertion "Unknown build target %s in %s") := by
  simp [getTargetPost, currentPackage, hp, hn, bind, Except.bind]

theorem getTargetPost_built (s : scope) (name : GoString) (pkg : Package) (p : Nat)
    (t : BuildTarget) (hp : s.pkg = some pkg) (hn : pkg.Target name = some p)
    (ht : s.heap[p]? = some t) (hb : Built ≤ t.state) :
    getTargetPost s name =
      .error (.assertion "Attempted to modify target %s, but it's already built") := by
  simp [getTargetPost, currentPackage, hp, hn, deref, ht, bind, Except.bind, Nat.not_lt.mpr hb]

theorem getTargetPost_ok (s : scope) (name : GoString) (pkg : Package) (p : Nat)
    (t : BuildTarget) (hp : s.pkg = some pkg) (hn : pkg.Target name = some p)
    (ht : s.heap[p]? = some t) (hb : t.state < Built) :
    getTargetPost s name = .ok p := by
  simp [getTargetPost, currentPackage, hp, hn, deref, ht, bind, Except.bind, hb, pure,
    Except.pure]

theorem addDep_fail (c : Collab) (s : scope) (args : List pyObject) (name : GoString)
    (e : Signal) (hc : s.Callback = true) (h0 : args[0]? = some (.pyString name))
    (h : getTargetPost s name = .error e) : addDep c args s = (.error e, s) := by
  simp [addDep, Assert, hc, arg, h0, asString, h]

theorem addOut_fail (s : scope) (args : List pyObject) (name : GoString) (e : Signal)
    (h0 : args[0]? = some (.pyString name)) (h : getTargetPost s name = .error e) :
    addOut args s = (.error e, s) := by
  simp [addOut, arg, h0, asString, h]

theorem addLicence_fail (s : scope) (args : List pyObject) (name : GoString) (e : Signal)
    (h0 : args[0]? = some (.pyString name)) (h : getTargetPost s name = .error e) :
    addLicence args s = (.error e, s) := by
  simp [addLicence, arg, h0, asString, h]

theorem getCommand_fail (s : scope) (args : List pyObject) (name : GoString) (e : Signal)
    (h0 : args[0]? = some (.pyString name)) (h : getTargetPost s name = .error e) :
    getCommand args s = (.error e, s) := by
  simp [getCommand, arg, h0, asString, h]

theorem setCommand_fail (s : scope) (args : List pyObject) (name : GoString) (e : Signal)
    (h0 : args[0]? = some (.pyString name)) (h : getTargetPost s name = .error e) :
    setCommand args s = (.error e, s) := by
  simp [setCommand, arg, h0, asString, h]



theorem Eval.bind_state {α β : Type} {m : Eval α} {f : α → Eval β}
    (hm : ∀ s, (m s).2 = s) (hf : ∀ a s, (f a s).2 = s) (s : scope) :
    ((m >>= f) s).2 = s := by
  have h := hm s
  rw [Eval.bind_apply]
  split
  · rename_i a s1 heq
    rw [heq] at h
    simp only at h
    rw [hf a s1, h]
  · rename_i e s1 heq
    rw [heq] at h
    exact h

theorem Lookup_state (name : GoString) (s : scope) : (Lookup name s).2 = s := by
  unfold Lookup
  split <;> rfl

/-! ### Target construction -/

theorem defaultArg_ok (c : Collab) (config : Nat) (args : List pyObject) (i : Nat)
    (name : GoString) (h : i < args.length) :
    ∃ args1, defaultArg c config args i name = .ok args1 ∧ args1.length = args.length := by
  refine ⟨args.set i (defaultFromConfig c config args[i] name), ?_, by simp⟩
  simp [defaultArg, arg, List.getElem?_eq_getElem h, bind, Except.bind, pure, Except.pure]

theorem buildRuleDefaults_ok (c : Collab) (s : scope) (args : List pyObject) (cfg : Nat)
    (hcfg : s.locals.lookup (gs "CONFIG") = some (.pyConfig cfg)) (hlen : 31 ≤ args.length) :
    ∃ args1, buildRuleDefaults c args s = (.ok args1, s) := by
  obtain ⟨a1, h1, l1⟩ := defaultArg_ok c cfg args 11 (gs "DEFAULT_VISIBILITY") (by omega)
  obtain ⟨a2, h2, l2⟩ := defaultArg_ok c cfg a1 15 (gs "DEFAULT_TESTONLY") (by omega)
  obtain ⟨a3, h3, l3⟩ := defaultArg_ok c cfg a2 30 (gs "DEFAULT_LICENCES") (by omega)
  obtain ⟨a4, h4, l4⟩ := defaultArg_ok c cfg a3 20 (gs "BUILD_SANDBOX") (by omega)
  obtain ⟨a5, h5, _⟩ := defaultArg_ok c cfg a4 21 (gs "TEST_SANDBOX") (by omega)
  exact ⟨a5, by simp [buildRuleDefaults, Lookup, hcfg, asConfig, h1, h2, h3, h4, h5]⟩

theorem buildRuleDefaults_state (c : Collab) (args : List pyObject) (s : scope) :
    (buildRuleDefaults c args s).2 = s := by
  revert s
  unfold buildRuleDefaults
  repeat (first
    | exact Lookup_state _
    | exact fun _ => rfl
    | apply Eval.bind_state
    | intro _)



theorem buildRule_eq (c : Collab) (args : List pyObject) :
    buildRule c args = (do
      let args ← buildRuleDefaults c args
      let target ← c.createTarget (← Eval.get) args
      let pkg ← currentPackage (← Eval.get)
      Assert (pkg.Target target.Label.Name).isNone "Duplicate build target in %s: %s"
      let p ← AddTarget target
      buildRuleTail c p args) := rfl

theorem UniqueNames.of_table {s s1 : scope}
    (h : s1.pkg.map (fun k => k.targets) = s.pkg.map (fun k => k.targets))
    (hu : UniqueNames s) : UniqueNames s1 := by
  intro pkg1 hp1
  rw [hp1] at h
  cases hp : s.pkg with
  | none => rw [hp] at h; simp at h
  | some pkg =>
    rw [hp] at h
    simp only [Option.map_some', Option.some.injEq] at h
    rw [h]
    exact hu pkg hp

theorem KeepsTargetTable.bind {α β : Type} {m : Eval α} {f : α → Eval β}
    (hm : KeepsTargetTable m) (hf : ∀ a, KeepsTargetTable (f a)) :
    KeepsTargetTable (m >>= f) := by
  intro s
  have h := hm s
  rw [Eval.bind_apply]
  split
  · rename_i a s1 heq
    rw [heq] at h
    rw [hf a s1]
    exact h
  · rename_i e s1 heq
    rw [heq] at h
    exact h

theorem KeepsTargetTable.of_state {α : Type} {m : Eval α} (h : ∀ s, (m s).2 = s) :
    KeepsTargetTable m := by
  intro s
  rw [h s]

theorem updateTarget_keeps (p : Nat) (f : BuildTarget → BuildTarget) :
    KeepsTargetTable (updateTarget p f) := by
  intro s
  unfold updateTarget
  split <;> rfl

theorem GraphAddTarget_keeps (p : Nat) : KeepsTargetTable (GraphAddTarget p) := by
  intro s
  unfold GraphAddTarget
  split <;> rfl

theorem MarkTargetModified_keeps (p : Nat) : KeepsTargetTable (MarkTargetModified p) := by
  intro s
  unfold MarkTargetModified updatePackage
  split
  · rename_i pk h
    simp [h]
  · rfl

theorem buildRuleTail_keeps (c : Collab) (hpop : ∀ q a, KeepsTargetTable (c.populateTarget q a))
    (p : Nat) (args : List pyObject) : KeepsTargetTable (buildRuleTail c p args) := by
  unfold buildRuleTail
  refine KeepsTargetTable.bind (hpop p args) (fun _ => ?_)
  refine KeepsTargetTable.bind (KeepsTargetTable.of_state fun _ => rfl) (fun s0 => ?_)
  have hrest : ∀ y : PUnit, KeepsTargetTable (do
      let t ← deref (← Eval.get) p
      (pure (pyObject.pyString (gs ":" ++ t.Label.Name)) : Eval pyObject)) := by
    intro _
    refine KeepsTargetTable.bind (KeepsTargetTable.of_state fun _ => rfl) (fun s1 => ?_)
    refine KeepsTargetTable.bind (KeepsTargetTable.of_state fun _ => rfl) (fun _ => ?_)
    exact KeepsTargetTable.of_state fun _ => rfl
  dsimp only
  split
  · refine KeepsTargetTable.bind (updateTarget_keeps _ _) (fun _ => ?_)
    refine KeepsTargetTable.bind (GraphAddTarget_keeps _) (fun _ => ?_)
    exact KeepsTargetTable.bind (MarkTargetModified_keeps _) hrest
  · exact KeepsTargetTable.bind (KeepsTargetTable.of_state fun _ => rfl) hrest

theorem buildRule_duplicate (c : Collab) (s : scope) (args args1 : List pyObject)
    (t : BuildTarget) (pkg : Package) (p : Nat)
    (hd : (buildRuleDefaults c args s).1 = .ok args1)
    (hc : c.createTarget s args1 = .ok t)
    (hp : s.pkg = some pkg) (hn : pkg.Target t.Label.Name = some p) :
    buildRule c args s = (.error (.assertion "Duplicate build target in %s: %s"), s) := by
  have hd2 : buildRuleDefaults c args s = (.ok args1, s) :=
    Prod.ext hd (buildRuleDefaults_state c args s)
  simp [buildRule, hd2, hc, currentPackage, hp, hn, Assert]

theorem lookup_none_not_mem {α β : Type} [BEq α] [LawfulBEq α] (a : α) (l : List (α × β))
    (h : l.lookup a = none) : a ∉ l.map Prod.fst := by
  induction l with
  | nil => simp
  | cons x xs ih =>
    obtain ⟨k, v⟩ := x
    simp only [List.lookup_cons] at h
    by_cases hk : a == k
    · simp [hk] at h
    · simp only [hk] at h
      simp only [List.map_cons, List.mem_cons, not_or]
      exact ⟨fun e => hk (by simp [e]), ih h⟩

theorem buildRule_unique (c : Collab) (hpop : ∀ q a, KeepsTargetTable (c.populateTarget q a))
    (args : List pyObject) (s : scope) (hu : UniqueNames s) :
    UniqueNames (buildRule c args s).2 := by
  rw [buildRule_eq]
  simp only [Eval.bind_apply, Eval.get_apply, Eval.monadLift_apply, Eval.liftM_apply]
  have h1 := buildRuleDefaults_state c args s
  rcases hr : buildRuleDefaults c args s with ⟨r, s1⟩
  rw [hr] at h1
  simp only at h1
  subst h1
  cases r with
  | error e => exact hu
  | ok args1 =>
    simp only
    cases hc : c.createTarget s1 args1 with
    | error e => exact hu
    | ok t =>
      simp only
      cases hp : s1.pkg with
      | none => simp [currentPackage, hp]; exact hu
      | some pkg =>
        simp only [currentPackage, hp]
        cases hn : pkg.Target t.Label.Name with
        | some q => simp [Assert]; exact hu
        | none =>
          simp only [Assert, Option.isNone_none, if_true, Eval.pure_apply, AddTarget, hp]
          refine UniqueNames.of_table (buildRuleTail_keeps c hpop _ _ _) ?_
          intro pkg1 hp1
          simp only [Option.some.injEq] at hp1
          subst hp1
          simp only [List.map_cons, List.nodup_cons]
          exact ⟨lookup_none_not_mem _ _ hn, hu pkg hp⟩



/-! ### Deferred inclusion -/

theorem subincludeLabel_label (c : Collab) (s : scope) (args : List pyObject)
    (target : GoString) (l : BuildLabel)
    (h0 : args[0]? = some (.pyString target))
    (hcolon : HasPrefix target (gs ":") = false)
    (hurl : HasPrefix target (gs "http") = false)
    (hparse : c.ParseBuildLabel target [] = .ok l) :
    subincludeLabel c args s = (.ok l, s) := by
  simp [subincludeLabel, arg, h0, asString, NAssert, hcolon, hurl, hparse]

theorem subincludeOutputs_signal (c : Collab) (l : BuildLabel)
    (hinterp : ∀ path s0, (c.Subinclude path s0).1 ≠ .error (.deferParse l))
    (p : Nat) (outs : List GoString) (s : scope) :
    (subincludeOutputs c p outs s).1 ≠ .error (.deferParse l) := by
  induction outs generalizing s with
  | nil => simp [subincludeOutputs]
  | cons out rest ih =>
    simp only [subincludeOutputs, Eval.bind_apply, Eval.get_apply, Eval.monadLift_apply,
      Eval.liftM_apply]
    cases hd : deref s p with
    | error e =>
      simp only
      intro h
      cases h
      simp [deref] at hd
      split at hd <;> simp at hd
    | ok t =>
      simp only
      have hi := hinterp (c.pathJoin t.OutDir out) s
      rcases hr : c.Subinclude (c.pathJoin t.OutDir out) s with ⟨r, s1⟩
      rw [hr] at hi
      cases r with
      | error e => simpa using hi
      | ok symbols =>
        simp only [SetAll, Eval.modify_apply]
        exact ih _

/-- C2: for an argument of `subinclude` that is neither a same-package `:`
reference nor a URL and that parses to the label `l`, the call raises the
deferred-parse signal carrying `l` exactly when the graph has no target for `l`
or that target is below Built, and when it raises it, the state is the one
before the call: no subinclude is registered and no symbol is bound. The
evaluation of the outputs is taken not to raise that signal for `l` itself. -/
theorem subinclude_defers_until_built (c : Collab) (s : scope) (args : List pyObject)
    (target : GoString) (l : BuildLabel)
    (h0 : args[0]? = some (.pyString target))
    (hcolon : HasPrefix target (gs ":") = false)
    (hurl : HasPrefix target (gs "http") = false)
    (hparse : c.ParseBuildLabel target [] = .ok l)
    (hwf : ∀ p, s.Graph.Target l = some p → p < s.heap.length)
    (hinterp : ∀ path s0, (c.Subinclude path s0).1 ≠ .error (.deferParse l)) :
    ((subinclude c args s).1 = .error (.deferParse l) ↔
      (s.Graph.Target l = none ∨
        ∃ p t, s.Graph.Target l = some p ∧ s.heap[p]? = some t ∧ t.state < Built)) ∧
    ((subinclude c args s).1 = .error (.deferParse l) → (subinclude c args s).2 = s) := by
  have hl := subincludeLabel_label c s args target l h0 hcolon hurl hparse
  cases hg : s.Graph.Target l with
  | none => simp [subinclude, hl, hg]
  | some p =>
    have hlt := hwf p hg
    have ht : s.heap[p]? = some s.heap[p] := List.getElem?_eq_getElem hlt
    by_cases hb : s.heap[p].state < Built
    · simp [subinclude, hl, hg, deref, ht, hb]
    · have hne : (subinclude c args s).1 ≠ .error (.deferParse l) := by
        simp only [subinclude, Eval.bind_apply, hl, Eval.get_apply, hg, Eval.liftM_apply,
          Eval.monadLift_apply, deref, ht, hb, if_false]
        have hout : ∀ s0, ((do
            subincludeOutputs c p s.heap[p].Outputs
            (pure pyObject.None : Eval pyObject)) s0).1 ≠ .error (.deferParse l) := by
          intro s0
          have h := subincludeOutputs_signal c l hinterp p s.heap[p].Outputs s0
          simp only [Eval.bind_apply]
          rcases hr : subincludeOutputs c p s.heap[p].Outputs s0 with ⟨r, s1⟩
          rw [hr] at h
          cases r with
          | error e => simpa using h
          | ok u => simp
        split
        · rename_i hc
          simp only [Eval.bind_apply, RegisterSubinclude, updatePackage]
          cases hp : s.pkg with
          | none => simp [hp] at hc
          | some pk => exact hout _
        · simp only [Eval.bind_apply, Eval.pure_apply]
          exact hout _
      refine ⟨⟨fun h => absurd h hne, ?_⟩, fun h => absurd h hne⟩
      rintro (h | ⟨q, t, hq, htq, hlt2⟩)
      · simp at h
      · simp only [Option.some.injEq] at hq
        subst hq
        rw [ht] at htq
        simp only [Option.some.injEq] at htq
        subst htq
        exact absurd hlt2 hb

/-- Witness of C2 on the example scope: `//pkg:x` in state Pending defers, and
in state Built it does not. -/
theorem subinclude_defers_until_built_witness :
    subinclude exCollab [.pyString (gs "//pkg:x")] (exScope false 3) =
        (.error (.deferParse ⟨gs "pkg", gs "x"⟩), exScope false 3) ∧
      (subinclude exCollab [.pyString (gs "//pkg:x")] (exScope false Built)).1 ≠
        .error (.deferParse ⟨gs "pkg", gs "x"⟩) := by
  have h3 := subinclude_defers_until_built exCollab (exScope false 3)
    [.pyString (gs "//pkg:x")] (gs "//pkg:x") ⟨gs "pkg", gs "x"⟩ rfl rfl rfl rfl
    (by intro p hp; cases hp; decide) (by intro path s0 h; cases h)
  have h6 := subinclude_defers_until_built exCollab (exScope false Built)
    [.pyString (gs "//pkg:x")] (gs "//pkg:x") ⟨gs "pkg", gs "x"⟩ rfl rfl rfl rfl
    (by intro p hp; cases hp; decide) (by intro path s0 h; cases h)
  have hr : (subinclude exCollab [.pyString (gs "//pkg:x")] (exScope false 3)).1 =
      .error (.deferParse ⟨gs "pkg", gs "x"⟩) :=
    h3.1.2 (Or.inr ⟨0, exTarget 3, rfl, rfl, by decide⟩)
  refine ⟨Prod.ext hr (h3.2 hr), fun h => ?_⟩
  rcases h6.1.1 h with h | ⟨p, t, hp, ht, hlt⟩
  · cases h
  · cases hp
    cases ht
    exact absurd hlt (by decide)

/-! ### The claims on target construction and mutation -/

/-- C1: when the current package already holds a target with the name of the
target that `build_rule` creates, the call fails with the duplicate-target
assertion and stops in the state it started in, so nothing is added to the
package or to the graph, in parse mode and in callback mode alike; and target
names that are unique within the package before a call are unique after it,
however the call ends (`populateTarget` is taken not to touch the target table
of the package). -/
theorem buildRule_rejects_duplicate (c : Collab) (s : scope) (args : List pyObject) :
    (∀ args1 t pkg p, (buildRuleDefaults c args s).1 = .ok args1 →
        c.createTarget s args1 = .ok t → s.pkg = some pkg →
        pkg.Target t.Label.Name = some p →
        buildRule c args s = (.error (.assertion "Duplicate build target in %s: %s"), s)) ∧
      ((∀ q a, KeepsTargetTable (c.populateTarget q a)) → UniqueNames s →
        UniqueNames (buildRule c args s).2) :=
  ⟨fun args1 t pkg p hd hc hp hn => buildRule_duplicate c s args args1 t pkg p hd hc hp hn,
    fun hpop hu => buildRule_unique c hpop args s hu⟩

/-- Witness of C1: a second `x` in the example package, in both modes. -/
theorem buildRule_rejects_duplicate_witness :
    buildRule exCollab exRuleArgs (exScope false 0) =
        (.error (.assertion "Duplicate build target in %s: %s"), exScope false 0) ∧
      buildRule exCollab exRuleArgs (exScope true 0) =
        (.error (.assertion "Duplicate build target in %s: %s"), exScope true 0) ∧
      UniqueNames (buildRule exCollab exRuleArgs (exScope true 0)).2 :=
  ⟨(buildRule_rejects_duplicate exCollab (exScope false 0) exRuleArgs).1 exRuleArgs
      ⟨⟨gs "pkg", gs "x"⟩, 0, [], false, [], [], [], [], [], [], [], [], false⟩
      ⟨gs "pkg", [(gs "x", 0)], [], [], []⟩ 0 rfl rfl rfl rfl,
    (buildRule_rejects_duplicate exCollab (exScope true 0) exRuleArgs).1 exRuleArgs
      ⟨⟨gs "pkg", gs "x"⟩, 0, [], false, [], [], [], [], [], [], [], [], false⟩
      ⟨gs "pkg", [(gs "x", 0)], [], [], []⟩ 0 rfl rfl rfl rfl,
    (buildRule_rejects_duplicate exCollab (exScope true 0) exRuleArgs).2
      (fun _ _ _ => rfl)
      (by intro pkg hp; cases hp; decide)⟩

/-- C3: for a name that is unknown in the current package, or that names a
target whose state is Built or later, each of `add_dep` (in callback mode),
`add_out`, `add_licence`, `get_command` and `set_command` fails with the
assertion of the shared lookup, and stops in the state it started in: the
target, the package and the graph are unchanged. -/
theorem mutation_of_built_target_fails (c : Collab) (s : scope) (args : List pyObject)
    (name : GoString) (pkg : Package)
    (h0 : args[0]? = some (.pyString name)) (hp : s.pkg = some pkg)
    (hg : pkg.Target name = none ∨
      ∃ p t, pkg.Target name = some p ∧ s.heap[p]? = some t ∧ Built ≤ t.state) :
    ∃ e : Signal,
      (pkg.Target name = none → e = .assertion "Unknown build target %s in %s") ∧
      (pkg.Target name ≠ none →
        e = .assertion "Attempted to modify target %s, but it's already built") ∧
      (s.Callback = true → addDep c args s = (.error e, s)) ∧
      addOut args s = (.error e, s) ∧
      addLicence args s = (.error e, s) ∧
      getCommand args s = (.error e, s) ∧
      setCommand args s = (.error e, s) := by
  rcases hg with hn | ⟨p, t, hn, ht, hb⟩
  · have h := getTargetPost_unknown s name pkg hp hn
    exact ⟨_, fun _ => rfl, fun hne => absurd hn hne,
      fun hc => addDep_fail c s args name _ hc h0 h, addOut_fail s args name _ h0 h,
      addLicence_fail s args name _ h0 h, getCommand_fail s args name _ h0 h,
      setCommand_fail s args name _ h0 h⟩
  · have h := getTargetPost_built s name pkg p t hp hn ht hb
    exact ⟨_, fun hnone => (by rw [hn] at hnone; cases hnone), fun _ => rfl,
      fun hc => addDep_fail c s args name _ hc h0 h, addOut_fail s args name _ h0 h,
      addLicence_fail s args name _ h0 h, getCommand_fail s args name _ h0 h,
      setCommand_fail s args name _ h0 h⟩

/-- Witness of C3: the target `x` of the example package in state Built. -/
theorem mutation_of_built_target_fails_witness :
    ∃ e : Signal,
      (addDep exCollab [.pyString (gs "x"), .pyString (gs ":y"), .pyBool false]
        (exScope true Built) = (.error e, exScope true Built)) ∧
      setCommand [.pyString (gs "x"), .pyString (gs ":y"), .pyBool false]
        (exScope true Built) = (.error e, exScope true Built) := by
  obtain ⟨e, _, _, h1, _, _, _, h5⟩ := mutation_of_built_target_fails exCollab
    (exScope true Built) [.pyString (gs "x"), .pyString (gs ":y"), .pyBool false] (gs "x")
    ⟨gs "pkg", [(gs "x", 0)], [], [], []⟩ rfl rfl
    (Or.inr ⟨0, exTarget Built, rfl, rfl, le_refl _⟩)
  exact ⟨e, h1 rfl, h5⟩

theorem addDep_outside_callback (c : Collab) (s : scope) (args : List pyObject)
    (hc : s.Callback = false) :
    addDep c args s =
      (.error (.assertion "can only be called from a pre- or post-build callback"), s) := by
  simp [addDep, Assert, hc]

theorem truthy_ok (v : pyObject) (h : v ≠ .nil) : truthy v = .ok v.IsTruthy := by
  cases v <;> first | exact absurd rfl h | rfl

theorem addDep_in_callback (c : Collab) (s : scope) (args : List pyObject)
    (name depName : GoString) (exported : pyObject) (pkg : Package) (p : Nat)
    (t : BuildTarget) (dep : BuildLabel)
    (hc : s.Callback = true) (h0 : args[0]? = some (.pyString name))
    (h1 : args[1]? = some (.pyString depName)) (h2 : args[2]? = some exported)
    (hx : exported ≠ .nil) (hp : s.pkg = some pkg) (hn : pkg.Target name = some p)
    (ht : s.heap[p]? = some t) (hb : t.state < Built)
    (hparse : c.ParseBuildLabel depName pkg.Name = .ok dep) :
    addDep c args s = (.ok .None,
      { s with
        heap := s.heap.set p { t with declared := t.declared ++ [(dep, exported.IsTruthy)] },
        Graph := { s.Graph with edges := (t.Label, dep) :: s.Graph.edges },
        pkg := some { pkg with modified := p :: pkg.modified } }) := by
  have hlt : p < s.heap.length := by
    rcases Nat.lt_or_ge p s.heap.length with h | h
    · exact h
    · rw [List.getElem?_eq_none h] at ht; cases ht
  simp [addDep, Assert, hc, arg, h0, h1, h2, asString, getTargetPost_ok s name pkg p t hp hn ht hb,
    currentPackage, hp, hparse, truthy_ok exported hx, updateTarget, ht, deref, hlt,
    GraphAddDependency, MarkTargetModified, updatePackage]

/-- C4: outside callback mode `add_dep` fails and stops in the state it started
in; in callback mode, on a known target below Built and with a dependency label
that parses, it returns None in a state in which the dependency is among the
declared dependencies of the target, the edge from the label of the target to
the dependency is registered in the graph, and the package has the target
marked modified. -/
theorem addDep_needs_callback_and_registers_edge (c : Collab) (s : scope)
    (args : List pyObject) :
    (s.Callback = false →
      addDep c args s =
        (.error (.assertion "can only be called from a pre- or post-build callback"), s)) ∧
    (∀ name depName exported pkg p t dep,
      s.Callback = true → args[0]? = some (.pyString name) →
      args[1]? = some (.pyString depName) → args[2]? = some exported → exported ≠ .nil →
      s.pkg = some pkg → pkg.Target name = some p → s.heap[p]? = some t → t.state < Built →
      c.ParseBuildLabel depName pkg.Name = .ok dep →
      ∃ s1 pkg1 t1, addDep c args s = (.ok .None, s1) ∧
        s1.heap[p]? = some t1 ∧ (dep, exported.IsTruthy) ∈ t1.declared ∧
        t1 = { t with declared := t.declared ++ [(dep, exported.IsTruthy)] } ∧
        (t.Label, dep) ∈ s1.Graph.edges ∧
        s1.pkg = some pkg1 ∧ p ∈ pkg1.modified ∧ pkg1.targets = pkg.targets) := by
  refine ⟨addDep_outside_callback c s args, ?_⟩
  intro name depName exported pkg p t dep hc h0 h1 h2 hx hp hn ht hb hparse
  have hlt : p < s.heap.length := by
    rcases Nat.lt_or_ge p s.heap.length with h | h
    · exact h
    · rw [List.getElem?_eq_none h] at ht; cases ht
  refine ⟨_, _, _, addDep_in_callback c s args name depName exported pkg p t dep hc h0 h1 h2 hx
    hp hn ht hb hparse, ?_, ?_, rfl, ?_, rfl, ?_, rfl⟩
  · simp [hlt]
  · simp
  · simp
  · simp

/-- Witness of C4 on the example scope: `add_dep("x", ":y")` in parse mode and
in callback mode. -/
theorem addDep_needs_callback_and_registers_edge_witness :
    addDep exCollab [.pyString (gs "x"), .pyString (gs ":y"), .pyBool false] (exScope false 0) =
        (.error (.assertion "can only be called from a pre- or post-build callback"),
          exScope false 0) ∧
      ∃ s1, addDep exCollab [.pyString (gs "x"), .pyString (gs ":y"), .pyBool false]
          (exScope true 0) = (.ok .None, s1) ∧
        ((⟨gs "pkg", gs "x"⟩, ⟨gs "pkg", gs "y"⟩) : BuildLabel × BuildLabel) ∈ s1.Graph.edges := by
  refine ⟨(addDep_needs_callback_and_registers_edge exCollab (exScope false 0) _).1 rfl, ?_⟩
  obtain ⟨s1, pkg1, t1, h, _, _, _, he, _⟩ :=
    (addDep_needs_callback_and_registers_edge exCollab (exScope true 0)
      [.pyString (gs "x"), .pyString (gs ":y"), .pyBool false]).2 (gs "x") (gs ":y")
      (.pyBool false) ⟨gs "pkg", [(gs "x", 0)], [], [], []⟩ 0 (exTarget 0)
      ⟨gs "pkg", gs "y"⟩ rfl rfl rfl rfl (by intro h; cases h) rfl rfl rfl (by decide) rfl
  exact ⟨s1, h, he⟩

/-! ### Labels of a target and of its dependencies -/



theorem addLabels_mem (pfx : GoString) (ls labels : List GoString) (x : GoString) :
    x ∈ addLabels pfx labels ls ↔
      x ∈ labels ∨ ∃ label ∈ ls, HasPrefix label pfx = true ∧
        x = TrimSpace (TrimPrefix label pfx) := by
  induction ls generalizing labels with
  | nil => simp [addLabels]
  | cons l rest ih =>
    unfold addLabels
    split
    · rename_i h
      rw [ih]
      simp only [List.mem_insert_iff, List.mem_cons, exists_eq_or_imp, h, true_and]
      tauto
    · rename_i h
      rw [ih]
      simp only [List.mem_cons, exists_eq_or_imp, h, false_and, false_or]
      simp

theorem addLabels_nodup (pfx : GoString) (ls labels : List GoString) (h : labels.Nodup) :
    (addLabels pfx labels ls).Nodup := by
  induction ls generalizing labels with
  | nil => simpa [addLabels] using h
  | cons l rest ih =>
    unfold addLabels
    split
    · refine ih _ ?_
      by_cases hm : TrimSpace (TrimPrefix l pfx) ∈ labels
      · rw [List.insert_of_mem hm]
        exact h
      · rw [List.insert_of_not_mem hm]
        exact List.nodup_cons.mpr ⟨hm, h⟩
    · exact ih _ h

theorem done_length_lt (n : Nat) (done : List Nat) (t : Nat) (hn : done.Nodup)
    (hb : ∀ u ∈ done, u < n) (ht : t < n) (hnot : t ∉ done) : done.length < n := by
  have hnd : (t :: done).Nodup := List.nodup_cons.mpr ⟨hnot, hn⟩
  have hsub : (t :: done).toFinset ⊆ Finset.range n := by
    intro u hu
    simp only [List.toFinset_cons, Finset.mem_insert, List.mem_toFinset] at hu
    rcases hu with rfl | hu
    · simpa using ht
    · simpa using hb u hu
  have hc := Finset.card_le_card hsub
  rw [List.toFinset_card_of_nodup hnd, Finset.card_range] at hc
  simpa using hc

theorem getLabelsVisit_spec (heap : List BuildTarget) (pfx : GoString) (root : Nat)
    (hwf : HeapClosed heap) (fuel : Nat) :
    ∀ (t : Nat) (st : List GoString × List Nat),
      VisitInv heap pfx root st → t < heap.length → t ∉ st.2 → Reaches heap root t →
      heap.length - st.2.length ≤ fuel →
      ∃ st1, getLabelsVisit heap pfx root fuel t st = .ok st1 ∧ VisitInv heap pfx root st1 ∧
        st.2 ⊆ st1.2 ∧ st.2.length ≤ st1.2.length ∧ t ∈ st1.2 ∧
        ∀ u ∈ st1.2, u ∉ st.2 → DepsDone heap root u st1.2 := by
  induction fuel with
  | zero =>
    intro t st hinv ht hnot _ hfuel
    have := done_length_lt heap.length st.2 t hinv.1 hinv.2.1 ht hnot
    omega
  | succ fuel ih =>
    intro t st hinv ht hnot hreach hfuel
    obtain ⟨labels, done⟩ := st
    obtain ⟨hnd, hbound, hsound, hlnd, hlab⟩ := hinv
    simp only at hnd hbound hsound hlnd hlab hnot hfuel
    have hget : heap[t]? = some heap[t] := List.getElem?_eq_getElem ht
    -- the state after the first loop and the marking of `t`
    have hinv1 : VisitInv heap pfx root (addLabels pfx labels heap[t].Labels, t :: done) := by
      refine ⟨List.nodup_cons.mpr ⟨hnot, hnd⟩, ?_, ?_, addLabels_nodup _ _ _ hlnd, ?_⟩
      · intro u hu
        rcases List.mem_cons.mp hu with rfl | hu
        · exact ht
        · exact hbound u hu
      · intro u hu
        rcases List.mem_cons.mp hu with rfl | hu
        · exact hreach
        · exact hsound u hu
      · intro x
        rw [addLabels_mem, hlab]
        constructor
        · rintro (⟨u, hu, hc⟩ | ⟨label, hl, hp, hx⟩)
          · exact ⟨u, List.mem_cons_of_mem _ hu, hc⟩
          · exact ⟨t, List.mem_cons_self _ _, heap[t], label, hget, hl, hp, hx⟩
        · rintro ⟨u, hu, hc⟩
          rcases List.mem_cons.mp hu with rfl | hu
          · obtain ⟨tu, label, htu, hl, hp, hx⟩ := hc
            rw [hget] at htu
            cases htu
            exact Or.inr ⟨label, hl, hp, hx⟩
          · exact Or.inl ⟨u, hu, hc⟩
    -- the loop over the dependencies
    have hloop : ∀ (ds : List Nat) (st : List GoString × List Nat),
        VisitInv heap pfx root st → (∀ d ∈ ds, d < heap.length ∧ Reaches heap root d) →
        heap.length - st.2.length ≤ fuel →
        ∃ st1, ds.foldlM (fun st dep =>
            if dep ∈ st.2 then pure st else getLabelsVisit heap pfx root fuel dep st) st
              = .ok st1 ∧ VisitInv heap pfx root st1 ∧
          st.2 ⊆ st1.2 ∧ st.2.length ≤ st1.2.length ∧ (∀ d ∈ ds, d ∈ st1.2) ∧
          ∀ u ∈ st1.2, u ∉ st.2 → DepsDone heap root u st1.2 := by
      intro ds
      induction ds with
      | nil =>
        intro st hst _ _
        exact ⟨st, rfl, hst, List.Subset.refl _, le_refl _, by simp,
          fun u hu hnu => absurd hu hnu⟩
      | cons d rest ihr =>
        intro st hst hds hf
        have hd := hds d (List.mem_cons_self _ _)
        have hrest : ∀ d1 ∈ rest, d1 < heap.length ∧ Reaches heap root d1 :=
          fun d1 h1 => hds d1 (List.mem_cons_of_mem _ h1)
        simp only [List.foldlM_cons]
        by_cases hmem : d ∈ st.2
        · obtain ⟨st1, he, hi, hs, hl, hm, hc⟩ := ihr st hst hrest hf
          refine ⟨st1, ?_, hi, hs, hl, ?_, hc⟩
          · simp only [hmem, if_true]
            exact he
          · intro d1 h1
            rcases List.mem_cons.mp h1 with rfl | h1
            · exact hs hmem
            · exact hm d1 h1
        · obtain ⟨st1, he1, hi1, hs1, hl1, ht1, hc1⟩ := ih d st hst hd.1 hmem hd.2 hf
          obtain ⟨st2, he2, hi2, hs2, hl2, hm2, hc2⟩ :=
            ihr st1 hi1 hrest (by omega)
          refine ⟨st2, ?_, hi2, hs1.trans hs2, hl1.trans hl2, ?_, ?_⟩
          · simp only [hmem, if_false, he1]
            exact he2
          · intro d1 h1
            rcases List.mem_cons.mp h1 with rfl | h1
            · exact hs2 ht1
            · exact hm2 d1 h1
          · intro u hu hnu
            by_cases hu1 : u ∈ st1.2
            · intro tu htu hex d1 hd1
              exact hs2 (hc1 u hu1 hnu tu htu hex d1 hd1)
            · exact hc2 u hu hu1
    unfold getLabelsVisit
    simp only [hget]
    by_cases hex : (!heap[t].OutputIsComplete || decide (t = root)) = true
    · simp only [hex, if_true]
      have hdeps : ∀ d ∈ heap[t].Dependencies, d < heap.length ∧ Reaches heap root d := by
        intro d hd
        refine ⟨hwf t heap[t] hget d hd, Reaches.step hreach hget ?_ hd⟩
        simp only [Bool.or_eq_true, Bool.not_eq_true', decide_eq_true_eq] at hex
        exact hex
      obtain ⟨st1, he, hi, hs, hl, hm, hc⟩ := hloop heap[t].Dependencies _ hinv1 hdeps
        (by simp only [List.length_cons]; omega)
      refine ⟨st1, he, hi, fun u hu => hs (List.mem_cons_of_mem _ hu), ?_,
        hs (List.mem_cons_self _ _), ?_⟩
      · simp only [List.length_cons] at hl
        omega
      · intro u hu hnu
        by_cases hut : u = t
        · subst hut
          intro tu htu _ d hd
          rw [hget] at htu
          cases htu
          exact hm d hd
        · exact hc u hu (by simp [hut, hnu])
    · simp only [hex]
      refine ⟨_, rfl, hinv1, fun u hu => List.mem_cons_of_mem _ hu, by simp,
        List.mem_cons_self _ _, ?_⟩
      intro u hu hnu
      rcases List.mem_cons.mp hu with rfl | hu
      · intro tu htu hopen
        rw [hget] at htu
        cases htu
        simp only [Bool.or_eq_true, Bool.not_eq_true', decide_eq_true_eq] at hex
        exact absurd hopen hex
      · exact absurd hu hnu

theorem sortStrings_sorted (l : List GoString) (h : l.Nodup) :
    (sortStrings l).Sorted (fun a b => a < b) := by
  have hs : (sortStrings l).Sorted (fun a b => a ≤ b) :=
    List.sorted_insertionSort (fun a b : GoString => a ≤ b) l
  exact hs.lt_of_le ((List.perm_insertionSort _ l).nodup_iff.mpr h)

theorem sortStrings_mem (l : List GoString) (x : GoString) : x ∈ sortStrings l ↔ x ∈ l :=
  (List.perm_insertionSort _ l).mem_iff

theorem getLabelsInternal_fatal (heap : List BuildTarget) (root : Nat) (pfx : GoString)
    (minState : BuildTargetState) (r : BuildTarget) (hr : heap[root]? = some r)
    (hs : r.state < minState) :
    getLabelsInternal heap root pfx minState =
      .error (.fatal "get_labels called on a target that is not yet built: %s") := by
  simp [getLabelsInternal, hr, hs]

theorem getLabelsInternal_ok (heap : List BuildTarget) (root : Nat) (pfx : GoString)
    (minState : BuildTargetState) (r : BuildTarget) (hwf : HeapClosed heap)
    (hr : heap[root]? = some r) (hs : minState ≤ r.state) :
    ∃ l, getLabelsInternal heap root pfx minState = .ok (fromStringList l) ∧
      LabelsFrom heap root pfx l := by
  have hlt : root < heap.length := by
    rcases Nat.lt_or_ge root heap.length with h | h
    · exact h
    · rw [List.getElem?_eq_none h] at hr; cases hr
  have hinv0 : VisitInv heap pfx root ([], []) :=
    ⟨List.nodup_nil, by simp, by simp, List.nodup_nil, by simp⟩
  obtain ⟨st1, he, hi, _, _, hroot, hclosed⟩ :=
    getLabelsVisit_spec heap pfx root hwf heap.length root ([], []) hinv0 hlt (by simp)
      Reaches.root (by simp)
  obtain ⟨labels, done⟩ := st1
  obtain ⟨_, _, hsound, hlnd, hlab⟩ := hi
  simp only at hsound hlnd hlab hroot hclosed
  have hcomplete : ∀ v, Reaches heap root v → v ∈ done := by
    intro v hv
    induction hv with
    | root => exact hroot
    | step _ htu hopen hd ihu => exact hclosed _ ihu (by simp) _ htu hopen _ hd
  refine ⟨sortStrings labels, ?_, sortStrings_sorted _ hlnd, ?_⟩
  · simp [getLabelsInternal, hr, Nat.not_lt.mpr hs, he]
  · intro x
    rw [sortStrings_mem, hlab]
    constructor
    · rintro ⟨u, hu, hc⟩
      exact ⟨u, hsound u hu, hc⟩
    · rintro ⟨u, hu, hc⟩
      exact ⟨u, hcomplete u hu, hc⟩


theorem exHeap_closed : HeapClosed exHeap := by
  intro p t h d hd
  rcases p with _ | _ | _ | p <;> simp [exHeap] at h <;> subst h <;> simp at hd <;>
    subst hd <;> decide

/-- C5, as amended: on a heap without dangling pointers, cycles and diamonds
included, `getLabelsInternal` ends with the fatal error when the state of the
root is below `minState`, and otherwise returns, as a list of strings, the
strictly ascending list of exactly the strings obtained from the labels that
start with the prefix by stripping the prefix and trimming the white space
around the rest, over exactly the targets reachable from the root by a path
whose intermediate targets other than the root have `OutputIsComplete` unset. -/
theorem getLabelsInternal_returns_reachable_labels (heap : List BuildTarget) (root : Nat)
    (pfx : GoString) (minState : BuildTargetState) (r : BuildTarget)
    (hwf : HeapClosed heap) (hr : heap[root]? = some r) :
    (r.state < minState →
      getLabelsInternal heap root pfx minState =
        .error (.fatal "get_labels called on a target that is not yet built: %s")) ∧
    (minState ≤ r.state →
      ∃ l, getLabelsInternal heap root pfx minState = .ok (fromStringList l) ∧
        LabelsFrom heap root pfx l) :=
  ⟨getLabelsInternal_fatal heap root pfx minState r hr,
    getLabelsInternal_ok heap root pfx minState r hwf hr⟩

/-- Witness of C5 on the example heap: from `x` the label of the dependency `d`,
whose output is complete, is included and the label of `e` behind it is not. -/
theorem getLabelsInternal_returns_reachable_labels_witness :
    (∃ l, getLabelsInternal exHeap 0 (gs "py:") 0 = .ok (fromStringList l) ∧
        LabelsFrom exHeap 0 (gs "py:") l) ∧
      getLabelsInternal exHeap 0 (gs "py:") 0 = .ok (fromStringList [gs "a", gs "z"]) :=
  ⟨(getLabelsInternal_returns_reachable_labels exHeap 0 (gs "py:") 0 _ exHeap_closed rfl).2
      (Nat.zero_le _), rfl⟩

/-- Counterexample to C5 as stated: the label `py: z` of the root starts with the
prefix `py:`, and stripping the prefix leaves ` z`, which is not in the list
returned (it holds `z`); and with a `minState` above the state of the root the
function does not return a list. -/
theorem getLabelsInternal_strip_only_counterexample :
    getLabelsInternal exHeap 0 (gs "py:") 0 = .ok (fromStringList [gs "a", gs "z"]) ∧
      HasPrefix (gs "py: z") (gs "py:") = true ∧
      TrimPrefix (gs "py: z") (gs "py:") = gs " z" ∧
      gs " z" ∉ [gs "a", gs "z"] ∧
      getLabelsInternal exHeap 0 (gs "py:") 1 =
        .error (.fatal "get_labels called on a target that is not yet built: %s") :=
  ⟨rfl, rfl, rfl, by decide, rfl⟩



theorem getLabels_bare (c : Collab) (s : scope) (args : List pyObject) (name pfx : GoString)
    (h0 : args[0]? = some (.pyString name)) (h1 : args[1]? = some (.pyString pfx))
    (hbare : c.LooksLikeABuildLabel name = false) :
    getLabels c s args =
      (getTargetPost s name).bind (fun p => getLabelsInternal s.heap p pfx Building) := by
  simp [getLabels, arg, h0, h1, asString, hbare, bind, Except.bind]

theorem getLabels_label (c : Collab) (s : scope) (args : List pyObject) (name pfx : GoString)
    (pkg : Package) (label : BuildLabel)
    (h0 : args[0]? = some (.pyString name)) (h1 : args[1]? = some (.pyString pfx))
    (hlooks : c.LooksLikeABuildLabel name = true) (hp : s.pkg = some pkg)
    (hparse : c.ParseBuildLabel name pkg.Name = .ok label) :
    getLabels c s args =
      match s.Graph.Target label with
      | none => .error (.fatal "Target %s not found in build graph")
      | some p => getLabelsInternal s.heap p pfx Built := by
  simp [getLabels, arg, h0, h1, asString, hlooks, currentPackage, hp, hparse, bind, Except.bind]

/-- C6, as amended: with a bare name of a target of the current package,
`get_labels` returns the labels of the target when its state is at least
Building and below Built, ends with the fatal error when the state is below
Building, and fails with the assertion of the shared lookup when the state is
Built or later; with a label, it returns the labels when the state of the
target in the graph is at least Built and is fatal otherwise, also when the
graph has no such target. -/
theorem getLabels_entry_modes (c : Collab) (s : scope) (args : List pyObject)
    (name pfx : GoString) (pkg : Package)
    (h0 : args[0]? = some (.pyString name)) (h1 : args[1]? = some (.pyString pfx))
    (hp : s.pkg = some pkg) (hwf : HeapClosed s.heap) :
    (∀ p t, c.LooksLikeABuildLabel name = false → pkg.Target name = some p →
      s.heap[p]? = some t →
      (t.state < Building → getLabels c s args =
        .error (.fatal "get_labels called on a target that is not yet built: %s")) ∧
      (Building ≤ t.state → t.state < Built →
        ∃ l, getLabels c s args = .ok (fromStringList l) ∧ LabelsFrom s.heap p pfx l) ∧
      (Built ≤ t.state → getLabels c s args =
        .error (.assertion "Attempted to modify target %s, but it's already built"))) ∧
    (∀ label, c.LooksLikeABuildLabel name = true → c.ParseBuildLabel name pkg.Name = .ok label →
      (s.Graph.Target label = none → getLabels c s args =
        .error (.fatal "Target %s not found in build graph")) ∧
      (∀ p t, s.Graph.Target label = some p → s.heap[p]? = some t →
        (Built ≤ t.state →
          ∃ l, getLabels c s args = .ok (fromStringList l) ∧ LabelsFrom s.heap p pfx l) ∧
        (t.state < Built → getLabels c s args =
          .error (.fatal "get_labels called on a target that is not yet built: %s")))) := by
  constructor
  · intro p t hbare hn ht
    have hg := getLabels_bare c s args name pfx h0 h1 hbare
    refine ⟨fun hlow => ?_, fun hge hlt => ?_, fun hbuilt => ?_⟩
    · have hlt : t.state < Built := Nat.lt_trans hlow (by decide)
      rw [hg, getTargetPost_ok s name pkg p t hp hn ht hlt]
      exact getLabelsInternal_fatal s.heap p pfx Building t ht hlow
    · rw [hg, getTargetPost_ok s name pkg p t hp hn ht hlt]
      exact getLabelsInternal_ok s.heap p pfx Building t hwf ht hge
    · rw [hg, getTargetPost_built s name pkg p t hp hn ht hbuilt]
      rfl
  · intro label hlooks hparse
    have hg := getLabels_label c s args name pfx pkg label h0 h1 hlooks hp hparse
    refine ⟨fun hnone => ?_, fun p t hsome ht => ⟨fun hge => ?_, fun hlt => ?_⟩⟩
    · rw [hg, hnone]
    · rw [hg, hsome]
      exact getLabelsInternal_ok s.heap p pfx Built t hwf ht hge
    · rw [hg, hsome]
      exact getLabelsInternal_fatal s.heap p pfx Built t ht hlt

theorem exScope_closed (b : Bool) (st : BuildTargetState) : HeapClosed (exScope b st).heap := by
  intro p t h d hd
  rcases p with _ | p
  · simp only [exScope, exTarget, List.getElem?_cons_zero, Option.some.injEq] at h
    subst h
    simp at hd
  · simp [exScope] at h

/-- Witness of C6 on the example scope: the bare name `x` in state Building, and
the label `//pkg:x` in state Built. -/
theorem getLabels_entry_modes_witness :
    (∃ l, getLabels exCollab (exScope false Building) [.pyString (gs "x"), .pyString (gs "py:")] =
        .ok (fromStringList l) ∧ LabelsFrom (exScope false Building).heap 0 (gs "py:") l) ∧
      (∃ l, getLabels exCollab (exScope false Built)
          [.pyString (gs "//pkg:x"), .pyString (gs "py:")] =
        .ok (fromStringList l) ∧ LabelsFrom (exScope false Built).heap 0 (gs "py:") l) :=
  ⟨((getLabels_entry_modes exCollab (exScope false Building)
      [.pyString (gs "x"), .pyString (gs "py:")] (gs "x") (gs "py:")
      ⟨gs "pkg", [(gs "x", 0)], [], [], []⟩ rfl rfl rfl (exScope_closed _ _)).1 0
      (exTarget Building) rfl rfl rfl).2.1 (le_refl _) (by decide),
    (((getLabels_entry_modes exCollab (exScope false Built)
      [.pyString (gs "//pkg:x"), .pyString (gs "py:")] (gs "//pkg:x") (gs "py:")
      ⟨gs "pkg", [(gs "x", 0)], [], [], []⟩ rfl rfl rfl (exScope_closed _ _)).2
      ⟨gs "pkg", gs "x"⟩ rfl rfl).2 0 (exTarget Built) rfl rfl).1 (le_refl _)⟩

/-- Counterexample to C6 as stated: with the bare name of a target of the
current package whose state is Built, `get_labels` does not return the labels;
it fails with the assertion of the shared lookup. -/
theorem getLabels_bare_name_built_counterexample :
    (exScope false Built).heap[0]? = some (exTarget Built) ∧
      Building ≤ (exTarget Built).state ∧
      exCollab.LooksLikeABuildLabel (gs "x") = false ∧
      getLabels exCollab (exScope false Built) [.pyString (gs "x"), .pyString (gs "py:")] =
        .error (.assertion "Attempted to modify target %s, but it's already built") :=
  ⟨rfl, by decide, rfl, rfl⟩



/-! ### String methods -/

theorem HasPrefix_iff (s p : GoString) : HasPrefix s p = true ↔ p <+: s := by
  unfold HasPrefix
  exact List.isPrefixOf_iff_prefix

theorem indexFrom_spec (sep : GoString) (s : GoString) (i : Nat) :
    indexFrom sep s i = -1 ∨
      ∃ k : Nat, indexFrom sep s i = ((i + k : Nat) : Int) ∧ k + sep.length ≤ s.length ∧
        HasPrefix (s.drop k) sep = true := by
  induction s generalizing i with
  | nil =>
    unfold indexFrom
    by_cases h : HasPrefix [] sep = true
    · refine Or.inr ⟨0, by simp [h], ?_, by simpa using h⟩
      have := ((HasPrefix_iff _ _).mp h).length_le
      simpa using this
    · exact Or.inl (by simp [h])
  | cons c t ih =>
    unfold indexFrom
    by_cases h : HasPrefix (c :: t) sep = true
    · refine Or.inr ⟨0, by simp [h], ?_, by simpa using h⟩
      have := ((HasPrefix_iff _ _).mp h).length_le
      simpa using this
    · simp only [h]
      rcases ih (i + 1) with hneg | ⟨k, hk, hlen, hpre⟩
      · exact Or.inl (by simpa using hneg)
      · refine Or.inr ⟨k + 1, ?_, ?_, by simpa using hpre⟩
        · simp only [Bool.false_eq_true, if_false, hk]
          push_cast
          ring
        · simp only [List.length_cons]
          omega

theorem Index_spec (s sep : GoString) :
    Index s sep = -1 ∨
      ∃ k : Nat, Index s sep = (k : Int) ∧ k + sep.length ≤ s.length ∧
        HasPrefix (s.drop k) sep = true := by
  rcases indexFrom_spec sep s 0 with h | ⟨k, hk, hlen, hpre⟩
  · exact Or.inl h
  · exact Or.inr ⟨k, by simpa [Index] using hk, hlen, hpre⟩

theorem strPartition_concat (s sep : GoString) (hfound : Index s sep ≠ -1)
    (hne : s ≠ [] ∨ sep ≠ []) :
    ∃ a b c, strPartition [.pyString s, .pyString sep] =
        .ok (.pyList [.pyString a, .pyString b, .pyString c]) ∧ a ++ b ++ c = s := by
  rcases Index_spec s sep with h | ⟨k, hk, hlen, hpre⟩
  · exact absurd h hfound
  · have hlt : k + 1 ≤ s.length := by
      rcases hne with hs | hsep
      · by_cases hz : sep = []
        · subst hz
          have h0 : Index s [] = 0 := by
            cases s with
            | nil => exact absurd rfl hs
            | cons c t => simp [Index, indexFrom, HasPrefix]
          have : k = 0 := by
            rw [h0] at hk
            exact_mod_cast hk.symm
          subst this
          have := List.length_pos.mpr hs
          omega
        · have := List.length_pos.mpr hz
          omega
      · have := List.length_pos.mpr hsep
        omega
    refine ⟨s.take k, (s.take (k + 1)).drop k, s.drop (k + 1), ?_, ?_⟩
    · have hkk : (k : Int) ≠ -1 := by omega
      have hle : k ≤ s.length := by omega
      simp [strPartition, arg, asString, hk, hkk, slice, bind, Except.bind, pure, Except.pure,
        hlt, hle]
    · have h1 : s.take k ++ (s.take (k + 1)).drop k = s.take (k + 1) := by
        have := List.take_append_drop k (s.take (k + 1))
        rw [List.take_take] at this
        simpa using this
      rw [h1, List.take_append_drop]

/-- C7: after `registerBuiltins` on a root scope in which every prelude name has
a function object of its own, the string method `find` runs `strRFind`, as
`rfind` does, because the entry `rfind` is built by a second
`setNativeCode(s, "find", ...)`; on `aXbXc` with the needle `X` it returns the
last index 3, while the first index is 1. -/
theorem registered_find_runs_strRFind :
    registeredStringMethod preludeScope (gs "find") = .ok (some .strRFind) ∧
      registeredStringMethod preludeScope (gs "rfind") = .ok (some .strRFind) ∧
      strRFind [.pyString (gs "aXbXc"), .pyString (gs "X")] = .ok (.pyInt 3) ∧
      Index (gs "aXbXc") (gs "X") = 1 ∧
      strFind [.pyString (gs "aXbXc"), .pyString (gs "X")] = .ok (.pyInt 1) :=
  ⟨rfl, rfl, rfl, rfl, rfl⟩

/-- C8: on `a::b` with the separator `::`, which occurs at index 1,
`strPartition` returns `a`, `:` and `:b`: the middle element is the first byte of
the separator and the last element starts with its second byte. -/
theorem strPartition_long_separator :
    Index (gs "a::b") (gs "::") = 1 ∧
      strPartition [.pyString (gs "a::b"), .pyString (gs "::")] =
        .ok (.pyList [.pyString (gs "a"), .pyString (gs ":"), .pyString (gs ":b")]) ∧
      gs ":" ≠ gs "::" ∧ gs ":b" ≠ gs "b" :=
  ⟨rfl, rfl, by decide, by decide⟩

/-- C9: on the empty string with the empty separator, which occurs at index 0,
`strPartition` does not return: the slice `self[0:1]` is out of range. -/
theorem strPartition_empty_panics :
    Index (gs "") (gs "") = 0 ∧
      strPartition [.pyString (gs ""), .pyString (gs "")] =
        .error (.runtimePanic "slice bounds out of range") :=
  ⟨rfl, rfl⟩

/-- C10: on `a::b` with the separator `::`, whose last occurrence is at index
1, `strRPartition` returns `a`, `:` and `:b`, and on `ab` with the empty
separator it does not return. -/
theorem strRPartition_long_separator :
    LastIndex (gs "a::b") (gs "::") = 1 ∧
      strRPartition [.pyString (gs "a::b"), .pyString (gs "::")] =
        .ok (.pyList [.pyString (gs "a"), .pyString (gs ":"), .pyString (gs ":b")]) ∧
      gs ":" ≠ gs "::" ∧ gs ":b" ≠ gs "b" ∧
      LastIndex (gs "ab") (gs "") = 2 ∧
      strRPartition [.pyString (gs "ab"), .pyString (gs "")] =
        .error (.runtimePanic "slice bounds out of range") :=
  ⟨rfl, rfl, by decide, by decide, rfl, rfl⟩



/-! ### Registration of the natives -/

theorem updateFunc_locals (f : Nat) (g : pyFunc → pyFunc) (s s1 : scope) (r : Except Signal Unit)
    (h : updateFunc f g s = (r, s1)) : s1.locals = s.locals := by
  unfold updateFunc at h
  split at h <;> cases h <;> rfl

theorem setNativeCode_lookup (name : GoString) (code : nativeFunc) (s s1 : scope) (f : Nat)
    (h : setNativeCode name code s = (.ok f, s1)) :
    s.locals.lookup name = some (.pyFunc f) ∧ s1.locals = s.locals := by
  simp only [setNativeCode, Eval.bind_apply, Lookup, Eval.liftM_apply, Eval.monadLift_apply,
    Eval.pure_apply] at h
  cases hl : s.locals.lookup name with
  | none => simp [hl] at h
  | some v =>
    simp only [hl] at h
    cases v <;> simp only [asFunc] at h <;> try cases h
    rename_i r
    rcases h1 : updateFunc r (fun fn => { fn with nativeCode := some code }) s with ⟨r1, sa⟩
    rw [h1] at h
    cases r1 with
    | error e => simp at h
    | ok u =>
      simp only at h
      rcases h2 : updateFunc r (fun fn => { fn with code := false }) sa with ⟨r2, sb⟩
      rw [h2] at h
      cases r2 with
      | error e => simp at h
      | ok u2 =>
        simp only [Prod.mk.injEq, Except.ok.injEq] at h
        obtain ⟨hf, hs⟩ := h
        subst hf hs
        exact ⟨rfl, (updateFunc_locals _ _ _ _ _ h2).trans (updateFunc_locals _ _ _ _ _ h1)⟩

/-- Whatever the root scope binds, when `registerBuiltins` succeeds the entries
`find` and `rfind` of the string method table are one and the same function
object, so the two methods cannot differ. -/
theorem registerBuiltins_find_alias (s s1 : scope) (tables : MethodTables)
    (h : registerBuiltins s = (.ok tables, s1)) :
    ∃ f, tables.stringMethods.lookup (gs "find") = some f ∧
      tables.stringMethods.lookup (gs "rfind") = some f := by
  simp only [registerBuiltins, Eval.bind_apply] at h
  repeat' split at h
  all_goals cases h
  have hF := setNativeCode_lookup _ _ _ _ _ ‹setNativeCode (gs "find") nativeFunc.strFind _ = _›
  have hR := setNativeCode_lookup _ _ _ _ _ ‹setNativeCode (gs "find") nativeFunc.strRFind _ = _›
  rw [hF.2, hF.1] at hR
  have hsame := hR.1
  simp only [Option.some.injEq, pyObject.pyFunc.injEq] at hsame
  exact ⟨_, rfl, congrArg some hsame.symm⟩

/-! ### Absent separators -/

theorem indexFrom_eq_neg_one_iff (sep s : GoString) (i : Nat) :
    indexFrom sep s i = -1 ↔ ¬ sep <:+: s := by
  induction s generalizing i with
  | nil =>
    unfold indexFrom
    by_cases h : HasPrefix [] sep = true
    · have hp := (HasPrefix_iff _ _).mp h
      simp only [h, if_true]
      constructor
      · intro hi
        omega
      · intro hn
        exact absurd hp.isInfix hn
    · simp only [h]
      constructor
      · intro _ hinf
        have : sep = [] := List.eq_nil_of_infix_nil hinf
        subst this
        exact h (by simp [HasPrefix])
      · intro _
        rfl
  | cons c t ih =>
    unfold indexFrom
    by_cases h : HasPrefix (c :: t) sep = true
    · have hp := (HasPrefix_iff _ _).mp h
      simp only [h, if_true]
      constructor
      · intro hi
        omega
      · intro hn
        exact absurd hp.isInfix hn
    · simp only [h, Bool.false_eq_true, if_false]
      rw [ih (i + 1), List.infix_cons_iff]
      constructor
      · rintro hn (hp | hi)
        · exact h ((HasPrefix_iff _ _).mpr hp)
        · exact hn hi
      · intro hn hi
        exact hn (Or.inr hi)

theorem Index_eq_neg_one_iff (s sep : GoString) : Index s sep = -1 ↔ ¬ sep <:+: s :=
  indexFrom_eq_neg_one_iff sep s 0

theorem lastIndexFrom_eq_neg_one_iff (sep s : GoString) (i : Nat) :
    lastIndexFrom sep s i = -1 ↔ ¬ sep <:+: s := by
  induction s generalizing i with
  | nil =>
    unfold lastIndexFrom
    by_cases h : HasPrefix [] sep = true
    · have hp := (HasPrefix_iff _ _).mp h
      simp only [h, if_true]
      constructor
      · intro hi
        omega
      · intro hn
        exact absurd hp.isInfix hn
    · simp only [h]
      constructor
      · intro _ hinf
        have : sep = [] := List.eq_nil_of_infix_nil hinf
        subst this
        exact h (by simp [HasPrefix])
      · intro _
        rfl
  | cons c t ih =>
    unfold lastIndexFrom
    simp only
    by_cases hr : lastIndexFrom sep t (i + 1) = -1
    · have hnt := (ih (i + 1)).mp hr
      simp only [hr, ne_eq, not_true_eq_false, if_false]
      by_cases h : HasPrefix (c :: t) sep = true
      · have hp := (HasPrefix_iff _ _).mp h
        simp only [h, if_true]
        constructor
        · intro hi
          omega
        · intro hn
          exact absurd hp.isInfix hn
      · simp only [h]
        rw [List.infix_cons_iff]
        constructor
        · rintro _ (hp | hi)
          · exact h ((HasPrefix_iff _ _).mpr hp)
          · exact hnt hi
        · intro _
          simp
    · have hnt : sep <:+: t := by
        by_contra hc
        exact hr ((ih (i + 1)).mpr hc)
      simp only [ne_eq, hr, not_false_eq_true, if_true]
      constructor
      · intro h
        exact h.elim
      · intro hn
        exact absurd (List.infix_cons_iff.mpr (Or.inr hnt)) hn

theorem LastIndex_eq_neg_one_iff (s sep : GoString) : LastIndex s sep = -1 ↔ ¬ sep <:+: s :=
  lastIndexFrom_eq_neg_one_iff sep s 0

/-- C11: when the separator does not occur in the string, `partition` returns
the string followed by two empty strings and `rpartition` returns two empty
strings followed by the string. -/
theorem partition_absent_separator (s sep : GoString) (h : ¬ sep <:+: s) :
    strPartition [.pyString s, .pyString sep] =
        .ok (.pyList [.pyString s, .pyString [], .pyString []]) ∧
      strRPartition [.pyString s, .pyString sep] =
        .ok (.pyList [.pyString [], .pyString [], .pyString s]) := by
  have h1 := (Index_eq_neg_one_iff s sep).mpr h
  have h2 := (LastIndex_eq_neg_one_iff s sep).mpr h
  constructor
  · simp [strPartition, arg, asString, h1, bind, Except.bind, pure, Except.pure]
  · simp [strRPartition, arg, asString, h2, bind, Except.bind, pure, Except.pure]

/-- Witness of C11: `abc` does not hold `::`. -/
theorem partition_absent_separator_witness :
    strPartition [.pyString (gs "abc"), .pyString (gs "::")] =
        .ok (.pyList [.pyString (gs "abc"), .pyString [], .pyString []]) ∧
      strRPartition [.pyString (gs "abc"), .pyString (gs "::")] =
        .ok (.pyList [.pyString [], .pyString [], .pyString (gs "abc")]) :=
  partition_absent_separator (gs "abc") (gs "::")
    (fun h => absurd ((Index_eq_neg_one_iff (gs "abc") (gs "::")).mp rfl) (not_not.mpr h))

/-! ### Splitting and joining -/

theorem splitLoop_ne_nil (sep : GoString) (n : Nat) (s : GoString) : splitLoop sep n s ≠ [] := by
  cases n with
  | zero => simp [splitLoop]
  | succ n =>
    unfold splitLoop
    simp only
    split <;> simp

theorem Join_cons (a : GoString) (l : List GoString) (sep : GoString) (h : l ≠ []) :
    Join (a :: l) sep = a ++ sep ++ Join l sep := by
  cases l with
  | nil => exact absurd rfl h
  | cons b rest => rfl

theorem Join_splitLoop (sep : GoString) (n : Nat) (s : GoString) :
    Join (splitLoop sep n s) sep = s := by
  induction n generalizing s with
  | zero => rfl
  | succ n ih =>
    unfold splitLoop
    simp only
    rcases Index_spec s sep with h | ⟨k, hk, hlen, hpre⟩
    · simp [h, Join]
    · have hnn : ¬ ((k : Int) < 0) := by omega
      simp only [hk, hnn, if_false, Int.toNat_ofNat]
      rw [Join_cons _ _ _ (splitLoop_ne_nil _ _ _), ih]
      obtain ⟨r, hr⟩ := (HasPrefix_iff _ _).mp hpre
      have hd : s.drop (k + sep.length) = r := by
        have h2 : s.drop (k + sep.length) = (s.drop k).drop sep.length := by
          rw [List.drop_drop]
        rw [h2, ← hr]
        simp
      rw [hd, List.append_assoc, hr, List.take_append_drop]

theorem Join_Split (s sep : GoString) (h : sep ≠ []) : Join (Split s sep) sep = s := by
  simp only [Split, h, if_false]
  exact Join_splitLoop sep _ s

theorem stringsOf_map (l : List GoString) : stringsOf (l.map .pyString) = .ok l := by
  induction l with
  | nil => rfl
  | cons a rest ih => simp [stringsOf, ih, bind, Except.bind, pure, Except.pure]

/-- C12: for a non-empty separator, `split` returns a list that `join`, called
on the separator, turns back into the string that was split. -/
theorem join_of_split (s sep : GoString) (h : sep ≠ []) :
    ∃ parts, strSplit [.pyString s, .pyString sep] = .ok parts ∧
      strJoin [.pyString sep, parts] = .ok (.pyString s) := by
  refine ⟨fromStringList (Split s sep), ?_, ?_⟩
  · simp [strSplit, arg, asString, bind, Except.bind, pure, Except.pure]
  · simp [strJoin, arg, asString, asStringList, fromStringList, stringsOf_map, Join_Split s sep h,
      bind, Except.bind, pure, Except.pure]

/-- Witness of C12: `a::b::c` split on `::` and joined again. -/
theorem join_of_split_witness :
    strSplit [.pyString (gs "a::b::c"), .pyString (gs "::")] =
        .ok (fromStringList [gs "a", gs "b", gs "c"]) ∧
      ∃ parts, strSplit [.pyString (gs "a::b::c"), .pyString (gs "::")] = .ok parts ∧
        strJoin [.pyString (gs "::"), parts] = .ok (.pyString (gs "a::b::c")) :=
  ⟨rfl, join_of_split (gs "a::b::c") (gs "::") (by decide)⟩


/-! ### Type tests -/

theorem isinstanceLoop_true_iff (s : scope) (obj : pyObject) (ts : List pyObject)
    (hwf : ∀ f, .pyFunc f ∈ ts → ∃ fn, s.funcs[f]? = some fn) :
    ∃ b, isinstanceLoop s obj ts = .ok b ∧ (b = true ↔ ∃ li ∈ ts, Designates s obj li) := by
  induction ts with
  | nil => exact ⟨false, rfl, by simp⟩
  | cons li rest ih =>
    obtain ⟨b, hb, hiff⟩ := ih (fun f hf => hwf f (List.mem_cons_of_mem _ hf))
    by_cases hd : Designates s obj li
    · refine ⟨true, ?_, by simpa using Or.inl hd⟩
      rcases hd with ⟨f, fn, rfl, hfn, hty⟩ | hty
      · simp [isinstanceLoop, funcName, hfn, hty, bind, Except.bind, pure, Except.pure]
      · cases li with
        | pyFunc f =>
          obtain ⟨fn, hfn⟩ := hwf f (List.mem_cons_self _ _)
          simp [isinstanceLoop, funcName, hfn, hty, bind, Except.bind, pure, Except.pure]
        | _ => simp [isinstanceLoop, hty, bind, Except.bind, pure, Except.pure]
    · refine ⟨b, ?_, ?_⟩
      · have hty : ¬ TypeOf obj = TypeOf li := fun h => hd (Or.inr h)
        cases li with
        | pyFunc f =>
          obtain ⟨fn, hfn⟩ := hwf f (List.mem_cons_self _ _)
          have hnt : isType obj fn.name = false := by
            cases hx : isType obj fn.name with
            | false => rfl
            | true => exact absurd (Or.inl ⟨f, fn, rfl, hfn, hx⟩) hd
          simp [isinstanceLoop, funcName, hfn, hnt, hty, hb, bind, Except.bind, pure,
            Except.pure]
        | _ => simp [isinstanceLoop, hty, hb, bind, Except.bind, pure, Except.pure]
      · rw [hiff]
        simp [hd]

/-- For a value that is not a list, `isinstance` with a list of designators is
True exactly when an element of the list matches the value. -/
theorem isinstance_list_of_types (s : scope) (obj : pyObject) (ts : List pyObject)
    (hwf : ∀ f, .pyFunc f ∈ ts → ∃ fn, s.funcs[f]? = some fn)
    (hobj : TypeOf obj ≠ .list) :
    ∃ b, isinstance s [obj, .pyList ts] = .ok (.pyBool b) ∧
      (b = true ↔ ∃ li ∈ ts, Designates s obj li) := by
  obtain ⟨b, hb, hiff⟩ := isinstanceLoop_true_iff s obj ts hwf
  refine ⟨b, ?_, hiff⟩
  cases b with
  | true => simp [isinstance, arg, hb, bind, Except.bind, pure, Except.pure]
  | false =>
    have hl : TypeOf (.pyList ts) = .list := rfl
    simp [isinstance, arg, hb, bind, Except.bind, pure, Except.pure, hl, hobj]

/-- For a list value, `isinstance` with a list of designators is True whatever
the designators are: when none matches, the final comparison of the value with
the list of designators itself decides, and both are lists. -/
theorem isinstance_list_value (s : scope) (l ts : List pyObject)
    (hwf : ∀ f, .pyFunc f ∈ ts → ∃ fn, s.funcs[f]? = some fn) :
    isinstance s [.pyList l, .pyList ts] = .ok (.pyBool true) := by
  obtain ⟨b, hb, _⟩ := isinstanceLoop_true_iff s (.pyList l) ts hwf
  cases b with
  | true => simp [isinstance, arg, hb, bind, Except.bind, pure, Except.pure]
  | false => simp [isinstance, arg, hb, bind, Except.bind, pure, Except.pure, TypeOf]

/-- C13: a list value tested against the list of the designators `int` and
`str`, neither of which matches it, gives True: after the loop the code compares
the value with the list of designators itself, and both are lists. -/
theorem isinstance_list_against_list :
    isinstance typeScope [.pyList [.pyInt 1], .pyList [.pyFunc 0, .pyFunc 1]] =
        .ok (.pyBool true) ∧
      isType (.pyList [.pyInt 1]) (gs "int") = false ∧
      isType (.pyList [.pyInt 1]) (gs "str") = false ∧
      TypeOf (.pyList [.pyInt 1]) ≠ TypeOf (.pyFunc 0) ∧
      isinstance typeScope [.pyInt 1, .pyList [.pyFunc 1, .pyFunc 4]] = .ok (.pyBool false) :=
  ⟨rfl, rfl, rfl, by decide, rfl⟩

/-- C14: a Bool value is an instance of `int` and of `bool`; an Int value is an
instance of `int` and not of `bool`. -/
theorem isinstance_bool_int_asymmetry (s : scope) (fi fb : Nat) (fni fnb : pyFunc)
    (hi : s.funcs[fi]? = some fni) (hni : fni.name = gs "int")
    (hb : s.funcs[fb]? = some fnb) (hnb : fnb.name = gs "bool") (b : Bool) (n : Int) :
    isinstance s [.pyBool b, .pyFunc fi] = .ok (.pyBool true) ∧
      isinstance s [.pyBool b, .pyFunc fb] = .ok (.pyBool true) ∧
      isinstance s [.pyInt n, .pyFunc fi] = .ok (.pyBool true) ∧
      isinstance s [.pyInt n, .pyFunc fb] = .ok (.pyBool false) := by
  have e1 : (gs "int" = gs "bool") = False := by simp; decide
  have e2 : (gs "bool" = gs "int") = False := by simp; decide
  refine ⟨?_, ?_, ?_, ?_⟩ <;>
    simp [isinstance, arg, funcName, hi, hb, hni, hnb, isType, TypeOf, e1, e2, bind,
      Except.bind, pure, Except.pure]

/-- Witness of C14 in the scope of the builtin type functions. -/
theorem isinstance_bool_int_asymmetry_witness :
    isinstance typeScope [.pyBool true, .pyFunc 0] = .ok (.pyBool true) ∧
      isinstance typeScope [.pyBool true, .pyFunc 2] = .ok (.pyBool true) ∧
      isinstance typeScope [.pyInt 7, .pyFunc 0] = .ok (.pyBool true) ∧
      isinstance typeScope [.pyInt 7, .pyFunc 2] = .ok (.pyBool false) :=
  isinstance_bool_int_asymmetry typeScope 0 2 ⟨gs "int", none, true, false, false⟩
    ⟨gs "bool", none, true, false, false⟩ rfl rfl rfl rfl true 7

/-! ### Ranges -/

theorem wrapInt_of_fits (x : Int) (h : fitsInt x) : wrapInt x = x := by
  obtain ⟨h1, h2⟩ := h
  unfold wrapInt
  omega

theorem rangeFill_spec (start stop : Int) (n : Nat) (hn : (n : Int) = stop - start)
    (hlo : -(2 : Int) ^ 63 ≤ start) (hhi : stop < 2 ^ 63) (hlen : stop - start < 2 ^ 63) :
    ∀ (m j : Nat), j + m = n →
      rangeFill start stop m (start + j)
          ((List.range j).map (fun (k : Nat) => pyObject.pyInt (start + (k : Int))) ++
            List.replicate m pyObject.nil) =
        (List.range n).map (fun (k : Nat) => pyObject.pyInt (start + (k : Int))) := by
  intro m
  induction m with
  | zero =>
    intro j hj
    simp only [Nat.add_zero] at hj
    subst hj
    simp [rangeFill]
  | succ m ih =>
    intro j hj
    unfold rangeFill
    have hlt : start + (j : Int) < stop := by omega
    simp only [hlt, if_true]
    have hnext : wrapInt (start + (j : Int) + 1) = start + ((j + 1 : Nat) : Int) := by
      rw [wrapInt_of_fits _ ⟨by omega, by omega⟩]
      push_cast
      ring
    have hidx : (wrapInt (start + (j : Int) - start)).toNat = j := by
      have : start + (j : Int) - start = (j : Int) := by ring
      rw [this, wrapInt_of_fits _ ⟨by omega, by omega⟩]
      simp
    rw [hidx, hnext]
    have hset : (((List.range j).map (fun (k : Nat) => pyObject.pyInt (start + (k : Int))) ++
          List.replicate (m + 1) pyObject.nil).set j (.pyInt (start + j))) =
        (List.range (j + 1)).map (fun (k : Nat) => pyObject.pyInt (start + (k : Int))) ++
          List.replicate m pyObject.nil := by
      rw [List.set_append_right _ _ (by simp)]
      simp [List.range_succ, List.replicate_succ]
    rw [hset]
    exact ih (j + 1) (by omega)

theorem makeList_ok (lim : Limits) (n : Int) (h0 : 0 ≤ n) (hmax : n ≤ lim.maxLen)
    (hmem : n ≤ lim.memLen) : makeList lim n = .ok (List.replicate n.toNat pyObject.nil) := by
  have h1 : ¬ (n < 0 ∨ (lim.maxLen : Int) < n) := by omega
  have h2 : ¬ ((lim.memLen : Int) < n) := by omega
  simp only [makeList, h1, h2, if_false]

theorem makeList_negative (lim : Limits) (n : Int) (h : n < 0) :
    makeList lim n = .error (.runtimePanic "makeslice: len out of range") := by
  simp only [makeList, h, true_or, if_true]

theorem pyRange_ints (lim : Limits) (start stop : Int) :
    pyRange lim [.pyInt start, .pyInt stop] =
      (makeList lim (wrapInt (stop - start))).map (fun ret =>
        pyObject.pyList (rangeFill start stop (wrapInt (stop - start)).toNat start ret)) := by
  cases h : makeList lim (wrapInt (stop - start)) <;>
    simp [pyRange, arg, bind, Except.bind, pure, Except.pure, Except.map, h]

theorem pyRange_int_bool (lim : Limits) (n : Int) (b : Bool) :
    pyRange lim [.pyInt n, .pyBool b] =
      (makeList lim (wrapInt (n - 0))).map (fun ret =>
        pyObject.pyList (rangeFill 0 n (wrapInt (n - 0)).toNat 0 ret)) := by
  cases h : makeList lim (wrapInt (n - 0)) <;>
    simp [pyRange, arg, bind, Except.bind, pure, Except.pure, Except.map] <;>
    simp [Int.sub_zero] at h <;> simp [h]

theorem pyRange_two (lim : Limits) (start stop : Int) (hlo : -(2 : Int) ^ 63 ≤ start)
    (hhi : stop < 2 ^ 63) (h : start ≤ stop) (hmax : stop - start ≤ lim.maxLen)
    (hmem : stop - start ≤ lim.memLen) :
    pyRange lim [.pyInt start, .pyInt stop] =
      .ok (.pyList ((List.range (stop - start).toNat).map
        (fun (k : Nat) => pyObject.pyInt (start + (k : Int))))) := by
  have hlt := lim.maxLen_lt
  have hlen : stop - start < 2 ^ 63 := by omega
  have hw : wrapInt (stop - start) = stop - start := wrapInt_of_fits _ ⟨by omega, hlen⟩
  have hn : (((stop - start).toNat : Nat) : Int) = stop - start := Int.toNat_of_nonneg (by omega)
  have hfill := rangeFill_spec start stop (stop - start).toNat hn hlo hhi hlen
    (stop - start).toNat 0 (by simp)
  simp only [List.range_zero, List.map_nil, List.nil_append, Nat.cast_zero, Int.add_zero]
    at hfill
  rw [pyRange_ints, hw, makeList_ok lim (stop - start) (by omega) hmax hmem]
  simp only [Except.map, hfill]

theorem pyRange_one (lim : Limits) (n : Int) (b : Bool) (h : 0 ≤ n)
    (hmax : n ≤ lim.maxLen) (hmem : n ≤ lim.memLen) :
    pyRange lim [.pyInt n, .pyBool b] =
      .ok (.pyList ((List.range n.toNat).map (fun (k : Nat) => pyObject.pyInt (k : Int)))) := by
  have hlt := lim.maxLen_lt
  have hlen : n - 0 < 2 ^ 63 := by omega
  have hw : wrapInt (n - 0) = n := by
    rw [Int.sub_zero]
    exact wrapInt_of_fits _ ⟨by omega, by omega⟩
  have hn : ((n.toNat : Nat) : Int) = n - 0 := by
    rw [Int.sub_zero]
    exact Int.toNat_of_nonneg h
  have hfill := rangeFill_spec 0 n n.toNat hn (by omega) (by omega) hlen n.toNat 0 (by simp)
  simp only [List.range_zero, List.map_nil, List.nil_append, Nat.cast_zero, Int.add_zero,
    Int.zero_add] at hfill
  rw [pyRange_int_bool, hw, makeList_ok lim n h hmax hmem]
  simp only [Except.map, hfill]

/-- C17, as amended: for Go `int`s `start ≤ stop` whose difference is a length
that `make` allocates, `range(start, stop)` returns the list of length
`stop - start` whose element at index `i` is the Int `start + i`; for such an
`n ≥ 0` and any Bool in the second slot, the default or one the caller passed,
`range` returns the list of the Ints from `0` to `n - 1`; and `range` fails with
its assertion when the first argument is not an Int, or the second is neither an
Int nor a Bool. -/
theorem pyRange_lists_the_integers (lim : Limits) :
    (∀ start stop : Int, fitsInt start → fitsInt stop → start ≤ stop →
      stop - start ≤ lim.maxLen → stop - start ≤ lim.memLen →
      ∃ l, pyRange lim [.pyInt start, .pyInt stop] = .ok (.pyList l) ∧
        (l.length : Int) = stop - start ∧
        ∀ i : Nat, i < l.length → l[i]? = some (.pyInt (start + i))) ∧
    (∀ (n : Int) (b : Bool), 0 ≤ n → n ≤ lim.maxLen → n ≤ lim.memLen →
      ∃ l, pyRange lim [.pyInt n, .pyBool b] = .ok (.pyList l) ∧
        (l.length : Int) = n ∧
        ∀ i : Nat, i < l.length → l[i]? = some (.pyInt i)) ∧
    (∀ a0 a1 : pyObject, (∀ n, a0 ≠ .pyInt n) →
      pyRange lim [a0, a1] = .error (.assertion "Arguments to range() must be integers")) ∧
    (∀ a0 a1 : pyObject, (∀ n, a1 ≠ .pyInt n) → (∀ b, a1 ≠ .pyBool b) →
      pyRange lim [a0, a1] = .error (.assertion "Arguments to range() must be integers")) := by
  refine ⟨?_, ?_, ?_, ?_⟩
  · intro start stop hs ht h hmax hmem
    refine ⟨_, pyRange_two lim start stop hs.1 ht.2 h hmax hmem, ?_, ?_⟩
    · simp only [List.length_map, List.length_range]
      exact Int.toNat_of_nonneg (by omega)
    · intro i hi
      simp only [List.length_map, List.length_range] at hi
      simp [hi]
  · intro n b h hmax hmem
    refine ⟨_, pyRange_one lim n b h hmax hmem, ?_, ?_⟩
    · simp only [List.length_map, List.length_range]
      exact Int.toNat_of_nonneg h
    · intro i hi
      simp only [List.length_map, List.length_range] at hi
      simp [hi]
  · intro a0 a1 h0
    cases a0 with
    | pyInt n => exact absurd rfl (h0 n)
    | _ => cases a1 <;> simp [pyRange, arg, bind, Except.bind]
  · intro a0 a1 h1 hb
    cases a1 with
    | pyInt n => exact absurd rfl (h1 n)
    | pyBool b => exact absurd rfl (hb b)
    | _ => cases a0 <;> simp [pyRange, arg, bind, Except.bind]

/-- Witness of C17: `range(2, 5)`, `range(5)` and `range("a", 5)`. -/
theorem pyRange_lists_the_integers_witness :
    pyRange exLimits [.pyInt 2, .pyInt 5] = .ok (.pyList [.pyInt 2, .pyInt 3, .pyInt 4]) ∧
      pyRange exLimits [.pyInt 5, .pyBool false] =
        .ok (.pyList [.pyInt 0, .pyInt 1, .pyInt 2, .pyInt 3, .pyInt 4]) ∧
      (∃ l, pyRange exLimits [.pyInt 2, .pyInt 5] = .ok (.pyList l) ∧
        (l.length : Int) = 5 - 2 ∧
        ∀ i : Nat, i < l.length → l[i]? = some (.pyInt (2 + i))) ∧
      pyRange exLimits [.pyString (gs "a"), .pyInt 5] =
        .error (.assertion "Arguments to range() must be integers") :=
  ⟨rfl, rfl,
    (pyRange_lists_the_integers exLimits).1 2 5 (by decide) (by decide) (by decide)
      (by decide) (by decide),
    (pyRange_lists_the_integers exLimits).2.2.1 (.pyString (gs "a")) (.pyInt 5)
      (fun n h => by cases h)⟩

theorem pyRange_ints_error (lim : Limits) (start stop : Int) (e : Signal)
    (h : makeList lim (wrapInt (stop - start)) = .error e) :
    pyRange lim [.pyInt start, .pyInt stop] = .error e := by
  rw [pyRange_ints, h]
  rfl

theorem makeList_too_long (lim : Limits) (n : Int) (h : (lim.maxLen : Int) < n) :
    makeList lim n = .error (.runtimePanic "makeslice: len out of range") := by
  simp only [makeList, h, or_true, if_true]

/-- Counterexample to C17 as stated. The Go `int`s `-2^63 ≤ 2^63 - 1` have a
difference that wraps to `-1`: `range` panics on them, whatever the limits of
the machine, where the claim has a list of length `stop - start`. With 48
address bits `range(0, 2^62)` panics as well, its length being more than `make`
accepts. And `range(3, True)`, whose second argument is a Bool and not an
integer, does not fail: it returns `[0, 1, 2]`. -/
theorem pyRange_wraps_counterexample :
    fitsInt (-(2 : Int) ^ 63) ∧ fitsInt (2 ^ 63 - 1) ∧ -(2 : Int) ^ 63 ≤ 2 ^ 63 - 1 ∧
      (∀ lim : Limits, pyRange lim [.pyInt (-(2 : Int) ^ 63), .pyInt (2 ^ 63 - 1)] =
        .error (.runtimePanic "makeslice: len out of range")) ∧
      fitsInt (2 ^ 62) ∧
      pyRange exLimits [.pyInt 0, .pyInt (2 ^ 62)] =
        .error (.runtimePanic "makeslice: len out of range") ∧
      pyRange exLimits [.pyInt 3, .pyBool true] =
        .ok (.pyList [.pyInt 0, .pyInt 1, .pyInt 2]) := by
  refine ⟨by decide, by decide, by decide, ?_, by decide, ?_, rfl⟩
  · intro lim
    have hw : wrapInt (2 ^ 63 - 1 - -(2 : Int) ^ 63) = -1 := by decide
    exact pyRange_ints_error lim _ _ _ (by rw [hw]; exact makeList_negative lim (-1) (by decide))
  · have hw : wrapInt (2 ^ 62 - 0) = 2 ^ 62 := by decide
    exact pyRange_ints_error exLimits 0 (2 ^ 62) _
      (by rw [hw]; exact makeList_too_long exLimits _ (by decide))

/-! ### Zipping -/

theorem zipCheck_same_length (n : Nat) (ls : List (List pyObject))
    (hl : ∀ a ∈ ls, a.length = n) (i last : Nat) (hi : i = 0 ∨ last = n) :
    zipCheck (ls.map .pyList) i last = .ok (if ls.isEmpty then last else n) := by
  induction ls generalizing i last with
  | nil => rfl
  | cons a rest ih =>
    have ha : a.length = n := hl a (List.mem_cons_self _ _)
    have hrest := ih (fun b hb => hl b (List.mem_cons_of_mem _ hb)) (i + 1) a.length
      (Or.inr ha)
    have hc : i = 0 ∨ last = a.length := by
      rcases hi with h | h
      · exact Or.inl h
      · exact Or.inr (h.trans ha.symm)
    simp only [List.map_cons, zipCheck, hc, if_true, hrest]
    cases rest with
    | nil => simp [ha]
    | cons b rest2 => simp

theorem zipCheck_ok_lists (args : List pyObject) (i last r : Nat)
    (h : zipCheck args i last = .ok r) :
    (∀ a ∈ args, ∃ l, a = .pyList l ∧ l.length = r) ∧ (i ≠ 0 → last = r) ∧
      (args = [] → last = r) := by
  induction args generalizing i last with
  | nil =>
    simp only [zipCheck, Except.ok.injEq] at h
    exact ⟨by simp, fun _ => h, fun _ => h⟩
  | cons seq rest ih =>
    cases seq with
    | pyList si =>
      simp only [zipCheck] at h
      by_cases hc : i = 0 ∨ last = si.length
      · simp only [hc, if_true] at h
        obtain ⟨hall, hlast, _⟩ := ih (i + 1) si.length h
        have hsi : si.length = r := hlast (by omega)
        refine ⟨?_, ?_, by simp⟩
        · intro a ha
          rcases List.mem_cons.mp ha with rfl | ha
          · exact ⟨si, rfl, hsi⟩
          · exact hall a ha
        · intro hne
          rcases hc with h0 | hl
          · exact absurd h0 hne
          · exact hl.trans hsi
      · simp [hc] at h
    | _ => simp [zipCheck] at h

theorem zipRow_ok (i : Nat) (ls : List (List pyObject)) (hl : ∀ a ∈ ls, i < a.length) :
    zipRow i (ls.map .pyList) = .ok (ls.map (fun a => a.getD i .nil)) := by
  induction ls with
  | nil => rfl
  | cons a rest ih =>
    have ha : i < a.length := hl a (List.mem_cons_self _ _)
    have hrest := ih (fun b hb => hl b (List.mem_cons_of_mem _ hb))
    simp [zipRow, List.getElem?_eq_getElem ha, hrest, bind, Except.bind, pure, Except.pure,
      List.getD_eq_getElem _ _ ha]

theorem zipRows_ok (n : Nat) (ls : List (List pyObject)) (hl : ∀ a ∈ ls, a.length = n)
    (idx : List Nat) (hidx : ∀ i ∈ idx, i < n) :
    zipRows (ls.map .pyList) idx =
      .ok (idx.map (fun i => .pyList (ls.map (fun a => a.getD i .nil)))) := by
  induction idx with
  | nil => rfl
  | cons i rest ih =>
    have hi : i < n := hidx i (List.mem_cons_self _ _)
    have hrow := zipRow_ok i ls (fun a ha => by rw [hl a ha]; exact hi)
    have hrest := ih (fun j hj => hidx j (List.mem_cons_of_mem _ hj))
    simp [zipRows, hrow, hrest, bind, Except.bind, pure, Except.pure]

theorem zip_same_length (n : Nat) (ls : List (List pyObject)) (hl : ∀ a ∈ ls, a.length = n) :
    zip (ls.map .pyList) =
      .ok (.pyList ((List.range (if ls.isEmpty then 0 else n)).map
        (fun i => .pyList (ls.map (fun a => a.getD i .nil))))) := by
  have hc := zipCheck_same_length n ls hl 0 0 (Or.inl rfl)
  cases ls with
  | nil => rfl
  | cons a rest =>
    simp only [List.isEmpty_cons, Bool.false_eq_true, if_false] at hc ⊢
    have hrows := zipRows_ok n (a :: rest) hl (List.range n)
      (fun i hi => List.mem_range.mp hi)
    simp only [zip, hc, hrows, bind, Except.bind, pure, Except.pure]

theorem lists_of_args (args : List pyObject) (r : Nat)
    (h : ∀ a ∈ args, ∃ l, a = pyObject.pyList l ∧ l.length = r) :
    ∃ ls : List (List pyObject), args = ls.map .pyList ∧ ∀ l ∈ ls, l.length = r := by
  induction args with
  | nil => exact ⟨[], rfl, by simp⟩
  | cons a rest ih =>
    obtain ⟨l, rfl, hl⟩ := h a (List.mem_cons_self _ _)
    obtain ⟨ls, hls, hall⟩ := ih (fun b hb => h b (List.mem_cons_of_mem _ hb))
    refine ⟨l :: ls, by simp [hls], ?_⟩
    intro x hx
    rcases List.mem_cons.mp hx with rfl | hx
    · exact hl
    · exact hall x hx

theorem zipCheck_error (args : List pyObject) (i last : Nat) (e : Signal)
    (h : zipCheck args i last = .error e) :
    e = .assertion "Arguments to zip must be lists, not %s" ∨
      e = .assertion "All arguments to zip must have the same length" := by
  induction args generalizing i last with
  | nil => simp [zipCheck] at h
  | cons seq rest ih =>
    cases seq with
    | pyList si =>
      simp only [zipCheck] at h
      by_cases hc : i = 0 ∨ last = si.length
      · simp only [hc, if_true] at h
        exact ih _ _ h
      · simp only [hc, if_false, Except.error.injEq] at h
        exact Or.inr h.symm
    | _ =>
      simp only [zipCheck, Except.error.injEq] at h
      exact Or.inl h.symm

theorem zip_of_check (args : List pyObject) (r : Nat) (h : zipCheck args 0 0 = .ok r) :
    ∃ v, zip args = .ok v := by
  obtain ⟨hall, _, _⟩ := zipCheck_ok_lists args 0 0 r h
  obtain ⟨ls, rfl, hls⟩ := lists_of_args args r hall
  exact ⟨_, zip_same_length r ls hls⟩

theorem zip_error_of_check (args : List pyObject) (e : Signal) (h : zip args = .error e) :
    zipCheck args 0 0 = .error e := by
  cases hc : zipCheck args 0 0 with
  | error e1 =>
    simp only [zip, hc, bind, Except.bind, Except.error.injEq] at h
    rw [h]
  | ok r =>
    obtain ⟨v, hv⟩ := zip_of_check args r hc
    rw [hv] at h
    cases h

/-- C18: for one or more lists of one common length `n`, `zip` returns `n` rows,
each as long as the number of arguments, and row `i` holds at position `j` the
element `i` of argument `j`. -/
theorem zip_transposes (ls : List (List pyObject)) (n : Nat) (hk : ls ≠ [])
    (hl : ∀ a ∈ ls, a.length = n) :
    ∃ rows, zip (ls.map .pyList) = .ok (.pyList rows) ∧ rows.length = n ∧
      ∀ i, i < n → ∃ row, rows[i]? = some (.pyList row) ∧ row.length = ls.length ∧
        ∀ (j : Nat) (a : List pyObject), ls[j]? = some a → row[j]? = a[i]? := by
  have hz := zip_same_length n ls hl
  have he : ls.isEmpty = false := by
    cases ls with
    | nil => exact absurd rfl hk
    | cons a rest => rfl
  simp only [he, Bool.false_eq_true, if_false] at hz
  refine ⟨_, hz, by simp, ?_⟩
  intro i hi
  refine ⟨ls.map (fun a => a.getD i .nil), by simp [hi], by simp, ?_⟩
  intro j a hja
  have hmem : a ∈ ls := List.getElem?_mem hja
  have hai : i < a.length := by rw [hl a hmem]; exact hi
  simp [hja, List.getElem?_eq_getElem hai]

/-- Witness of C18: `zip([1,2],[3,4])`. -/
theorem zip_transposes_witness :
    zip [.pyList [.pyInt 1, .pyInt 2], .pyList [.pyInt 3, .pyInt 4]] =
        .ok (.pyList [.pyList [.pyInt 1, .pyInt 3], .pyList [.pyInt 2, .pyInt 4]]) ∧
      ∃ rows, zip ([[.pyInt 1, .pyInt 2], [.pyInt 3, .pyInt 4]].map .pyList) =
          .ok (.pyList rows) ∧ rows.length = 2 ∧
        ∀ i, i < 2 → ∃ row, rows[i]? = some (.pyList row) ∧
          row.length = [[pyObject.pyInt 1, .pyInt 2], [.pyInt 3, .pyInt 4]].length ∧
          ∀ (j : Nat) (a : List pyObject),
            [[pyObject.pyInt 1, .pyInt 2], [.pyInt 3, .pyInt 4]][j]? = some a →
              row[j]? = a[i]? :=
  ⟨rfl, zip_transposes [[.pyInt 1, .pyInt 2], [.pyInt 3, .pyInt 4]] 2 (by simp)
    (by
      intro a ha
      simp only [List.mem_cons, List.mem_singleton, List.not_mem_nil, or_false] at ha
      rcases ha with rfl | rfl <;> rfl)⟩

/-- C19: `zip` fails exactly when some argument is not a list or two of its
argument lists, adjacent or not, differ in length; it then fails with one of its
two assertions, so a call that passes the checks of the first loop never indexes
past the end of an argument; and `zip([1],[1,2])` fails. -/
theorem zip_fails_iff (args : List pyObject) :
    ((∃ e, zip args = .error e) ↔
      ((∃ a ∈ args, ∀ l, a ≠ .pyList l) ∨
        ∃ la lb, pyObject.pyList la ∈ args ∧ pyObject.pyList lb ∈ args ∧
          la.length ≠ lb.length)) ∧
    (∀ e, zip args = .error e →
      e = .assertion "Arguments to zip must be lists, not %s" ∨
        e = .assertion "All arguments to zip must have the same length") ∧
    (∀ r, zipCheck args 0 0 = .ok r → ∃ v, zip args = .ok v) ∧
    zip [.pyList [.pyInt 1], .pyList [.pyInt 1, .pyInt 2]] =
      .error (.assertion "All arguments to zip must have the same length") := by
  refine ⟨⟨?_, ?_⟩, ?_, zip_of_check args, rfl⟩
  · rintro ⟨e, he⟩
    by_contra hcon
    simp only [not_or, not_exists, not_and, not_forall, not_not] at hcon
    obtain ⟨hlists, hlen⟩ := hcon
    -- every argument is a list, and all have the length of the first
    have hall : ∀ a ∈ args, ∃ l, a = pyObject.pyList l ∧
        l.length = (match args.head? with
          | some (.pyList l0) => l0.length
          | _ => 0) := by
      intro a ha
      obtain ⟨l, hl⟩ := hlists a ha
      refine ⟨l, hl, ?_⟩
      cases args with
      | nil => cases ha
      | cons b rest =>
        obtain ⟨l0, hl0⟩ := hlists b (List.mem_cons_self _ _)
        subst hl0
        simp only [List.head?_cons]
        exact hlen l l0 (hl ▸ ha) (List.mem_cons_self _ _)
    obtain ⟨ls, hls, hcommon⟩ := lists_of_args args _ hall
    have hz := zip_same_length _ ls hcommon
    rw [← hls, he] at hz
    cases hz
  · intro hcond
    cases hz : zip args with
    | error e => exact ⟨e, rfl⟩
    | ok v =>
      exfalso
      cases hc : zipCheck args 0 0 with
      | error e1 => simp [zip, hc, bind, Except.bind] at hz
      | ok r =>
        obtain ⟨hall, _, _⟩ := zipCheck_ok_lists args 0 0 r hc
        rcases hcond with ⟨a, ha, hna⟩ | ⟨la, lb, ha, hb, hne⟩
        · obtain ⟨l, hl, _⟩ := hall a ha
          exact hna l hl
        · obtain ⟨l1, h1, hr1⟩ := hall _ ha
          obtain ⟨l2, h2, hr2⟩ := hall _ hb
          cases h1
          cases h2
          exact hne (hr1.trans hr2.symm)
  · intro e he
    exact zipCheck_error args 0 0 e (zip_error_of_check args e he)

/-- Witness of C19: the lists `[1]` and `[1, 2]` differ in length. -/
theorem zip_fails_iff_witness :
    ∃ e, zip [.pyList [.pyInt 1], .pyList [.pyInt 1, .pyInt 2]] = .error e :=
  (zip_fails_iff [.pyList [.pyInt 1], .pyList [.pyInt 1, .pyInt 2]]).1.mpr
    (Or.inr ⟨[.pyInt 1], [.pyInt 1, .pyInt 2], by simp, by simp, by decide⟩)

/-! ### Sorting -/

theorem StrictWeakOn.asymm {lt : pyObject → pyObject → Bool} {S : List pyObject}
    (h : StrictWeakOn lt S) {a b : pyObject} (ha : a ∈ S) (hb : b ∈ S)
    (hab : lt a b = true) : lt b a = false := by
  cases hba : lt b a with
  | false => rfl
  | true =>
    have := h.2.1 a ha b hb a ha hab hba
    rw [h.1 a ha] at this
    cases this

theorem insertSlice_spec (less : pyObject → pyObject → Except Signal Bool)
    (lt : pyObject → pyObject → Bool) (S : List pyObject)
    (hagree : ∀ a ∈ S, ∀ b ∈ S, less a b = .ok (lt a b)) (hsw : StrictWeakOn lt S)
    (a : pyObject) (ha : a ∈ S) (t : List pyObject) (ht : ∀ x ∈ t, x ∈ S)
    (hsorted : t.Pairwise (fun x y => lt y x = false)) :
    ∃ r, insertSlice less a t = .ok r ∧ r.Perm (a :: t) ∧
      r.Pairwise (fun x y => lt y x = false) := by
  induction t with
  | nil => exact ⟨[a], rfl, List.Perm.refl _, by simp⟩
  | cons b t ih =>
    have hb : b ∈ S := ht b (List.mem_cons_self _ _)
    have htS : ∀ x ∈ t, x ∈ S := fun x hx => ht x (List.mem_cons_of_mem _ hx)
    obtain ⟨hbt, htt⟩ := List.pairwise_cons.mp hsorted
    cases hlt : lt b a with
    | true =>
      obtain ⟨r, hr, hperm, hsr⟩ := ih htS htt
      refine ⟨b :: r, ?_, ?_, ?_⟩
      · simp [insertSlice, hagree b hb a ha, hlt, hr, bind, Except.bind, pure, Except.pure]
      · exact (List.Perm.cons b hperm).trans (List.Perm.swap a b t)
      · refine List.pairwise_cons.mpr ⟨?_, hsr⟩
        intro y hy
        rcases List.mem_cons.mp (hperm.mem_iff.mp hy) with rfl | hyt
        · exact hsw.asymm hb ha hlt
        · exact hbt y hyt
    | false =>
      refine ⟨a :: b :: t, ?_, List.Perm.refl _, ?_⟩
      · simp [insertSlice, hagree b hb a ha, hlt, bind, Except.bind, pure, Except.pure]
      · refine List.pairwise_cons.mpr ⟨?_, hsorted⟩
        intro y hy
        rcases List.mem_cons.mp hy with rfl | hyt
        · exact hlt
        · exact hsw.2.2 y (htS y hyt) b hb a ha (hbt y hyt) hlt

theorem insertionSlice_sub (less : pyObject → pyObject → Except Signal Bool)
    (lt : pyObject → pyObject → Bool) (S : List pyObject)
    (hagree : ∀ a ∈ S, ∀ b ∈ S, less a b = .ok (lt a b)) (hsw : StrictWeakOn lt S)
    (l : List pyObject) (hl : ∀ x ∈ l, x ∈ S) :
    ∃ r, insertionSlice less l = .ok r ∧ r.Perm l ∧
      r.Pairwise (fun x y => lt y x = false) := by
  induction l with
  | nil => exact ⟨[], rfl, List.Perm.refl _, List.Pairwise.nil⟩
  | cons a t ih =>
    obtain ⟨r, hr, hperm, hsr⟩ := ih (fun x hx => hl x (List.mem_cons_of_mem _ hx))
    have hrS : ∀ x ∈ r, x ∈ S := fun x hx =>
      hl x (List.mem_cons_of_mem _ (hperm.mem_iff.mp hx))
    obtain ⟨r2, hr2, hperm2, hsr2⟩ :=
      insertSlice_spec less lt S hagree hsw a (hl a (List.mem_cons_self _ _)) r hrS hsr
    refine ⟨r2, ?_, hperm2.trans (List.Perm.cons a hperm), hsr2⟩
    have hfold : insertionSlice less t = .ok r := hr
    simp only [insertionSlice, List.foldr_cons] at hfold ⊢
    rw [hfold]
    exact hr2

theorem insertionSlice_contract : SortsSlices insertionSlice := by
  intro less lt l hagree hsw
  exact insertionSlice_sub less lt l hagree hsw l (fun _ h => h)

theorem reversingSlice_contract : SortsSlices reversingSlice := by
  intro less lt l hagree hsw
  obtain ⟨r, hr, hperm, hsr⟩ := insertionSlice_sub less lt l hagree hsw l.reverse
    (fun x hx => List.mem_reverse.mp hx)
  exact ⟨r, hr, hperm.trans (List.reverse_perm l), hsr⟩

theorem intLess_strictWeak (ns : List Int) : StrictWeakOn intLess (ns.map .pyInt) := by
  refine ⟨?_, ?_, ?_⟩
  · intro a ha
    obtain ⟨x, _, rfl⟩ := List.mem_map.mp ha
    simp [intLess]
  · intro a ha b hb c hc
    obtain ⟨x, _, rfl⟩ := List.mem_map.mp ha
    obtain ⟨y, _, rfl⟩ := List.mem_map.mp hb
    obtain ⟨z, _, rfl⟩ := List.mem_map.mp hc
    simp only [intLess, decide_eq_true_eq]
    omega
  · intro a ha b hb c hc
    obtain ⟨x, _, rfl⟩ := List.mem_map.mp ha
    obtain ⟨y, _, rfl⟩ := List.mem_map.mp hb
    obtain ⟨z, _, rfl⟩ := List.mem_map.mp hc
    simp only [intLess, decide_eq_false_iff_not]
    omega

theorem sorted_contract (vm : Values) (sortSlice : SliceSorter) (hsort : SortsSlices sortSlice)
    (lt : pyObject → pyObject → Bool) (l : List pyObject)
    (hagree : ∀ a ∈ l, ∀ b ∈ l, vm.LessThan a b = .ok (lt a b)) (hsw : StrictWeakOn lt l) :
    ∃ r, sorted vm sortSlice [.pyList l] = .ok (.pyList r, .pyList r) ∧ r.Perm l ∧
      r.Pairwise (fun a b => lt b a = false) := by
  obtain ⟨r, hr, hperm, hsr⟩ := hsort vm.LessThan lt l hagree hsw
  exact ⟨r, by simp [sorted, arg, hr, bind, Except.bind, pure, Except.pure], hperm, hsr⟩

theorem intLess_agree (vm : Values)
    (hint : ∀ x y : Int, vm.LessThan (.pyInt x) (.pyInt y) = .ok (decide (x < y)))
    (ns : List Int) :
    ∀ a ∈ ns.map pyObject.pyInt, ∀ b ∈ ns.map pyObject.pyInt,
      vm.LessThan a b = .ok (intLess a b) := by
  intro a ha b hb
  obtain ⟨x, _, rfl⟩ := List.mem_map.mp ha
  obtain ⟨y, _, rfl⟩ := List.mem_map.mp hb
  exact hint x y

theorem sorted_ints (vm : Values) (sortSlice : SliceSorter) (hsort : SortsSlices sortSlice)
    (hint : ∀ x y : Int, vm.LessThan (.pyInt x) (.pyInt y) = .ok (decide (x < y)))
    (ns : List Int) :
    ∃ ms : List Int, sorted vm sortSlice [.pyList (ns.map .pyInt)] =
        .ok (.pyList (ms.map .pyInt), .pyList (ms.map .pyInt)) ∧
      ms.Perm ns ∧ ms.Sorted (fun x y => x ≤ y) := by
  obtain ⟨r, hr, hperm, hsr⟩ := sorted_contract vm sortSlice hsort intLess (ns.map .pyInt)
    (intLess_agree vm hint ns) (intLess_strictWeak ns)
  have hall : ∀ y ∈ r, ∃ x : Int, y = pyObject.pyInt x := by
    intro y hy
    obtain ⟨x, _, rfl⟩ := List.mem_map.mp (hperm.mem_iff.mp hy)
    exact ⟨x, rfl⟩
  have hback : (r.map intOf).map pyObject.pyInt = r := by
    rw [List.map_map]
    conv_rhs => rw [← List.map_id r]
    apply List.map_congr_left
    intro y hy
    obtain ⟨x, rfl⟩ := hall y hy
    rfl
  refine ⟨r.map intOf, by rw [hback]; exact hr, ?_, ?_⟩
  · have h := hperm.map intOf
    rw [List.map_map] at h
    have hid : (intOf ∘ pyObject.pyInt) = id := rfl
    rw [hid, List.map_id] at h
    exact h
  · unfold List.Sorted
    rw [List.pairwise_map]
    refine hsr.imp_of_mem ?_
    intro a b ha hb hlt
    obtain ⟨x, rfl⟩ := hall a ha
    obtain ⟨y, rfl⟩ := hall b hb
    simp only [intLess, decide_eq_false_iff_not] at hlt
    simp only [intOf]
    omega

/-- C15: with a `sort.Slice` that meets its documented contract and with Ints
compared as numbers, `sorted` on a list of Int values returns a permutation of
the list in non-decreasing order, `sorted([3,1,2])` being `[1,2,3]`; on an
argument that is not a list it fails. -/
theorem sorted_orders_int_lists (vm : Values) (sortSlice : SliceSorter)
    (hsort : SortsSlices sortSlice)
    (hint : ∀ x y : Int, vm.LessThan (.pyInt x) (.pyInt y) = .ok (decide (x < y))) :
    (∀ ns : List Int, ∃ (ms : List Int) (after : pyObject),
      sorted vm sortSlice [.pyList (ns.map .pyInt)] = .ok (.pyList (ms.map .pyInt), after) ∧
        ms.Perm ns ∧ ms.Sorted (fun x y => x ≤ y)) ∧
    (∃ after, sorted vm sortSlice [.pyList [.pyInt 3, .pyInt 1, .pyInt 2]] =
      .ok (.pyList [.pyInt 1, .pyInt 2, .pyInt 3], after)) ∧
    (∀ a : pyObject, (∀ l, a ≠ .pyList l) → ∃ e, sorted vm sortSlice [a] = .error e) := by
  refine ⟨?_, ?_, ?_⟩
  · intro ns
    obtain ⟨ms, h, hp, hs⟩ := sorted_ints vm sortSlice hsort hint ns
    exact ⟨ms, _, h, hp, hs⟩
  · obtain ⟨ms, h, hp, hs⟩ := sorted_ints vm sortSlice hsort hint [3, 1, 2]
    have hms : ms = [1, 2, 3] :=
      List.eq_of_perm_of_sorted (hp.trans (by decide)) hs (by decide)
    subst hms
    exact ⟨_, h⟩
  · intro a ha
    cases a with
    | pyList l => exact absurd rfl (ha l)
    | _ => exact ⟨_, rfl⟩

/-- Witness of C15 with insertion sort for `sort.Slice` and the example value
model. -/
theorem sorted_orders_int_lists_witness :
    sorted exValues insertionSlice [.pyList [.pyInt 3, .pyInt 1, .pyInt 2]] =
        .ok (.pyList [.pyInt 1, .pyInt 2, .pyInt 3], .pyList [.pyInt 1, .pyInt 2, .pyInt 3]) ∧
      (∃ after, sorted exValues insertionSlice [.pyList [.pyInt 3, .pyInt 1, .pyInt 2]] =
        .ok (.pyList [.pyInt 1, .pyInt 2, .pyInt 3], after)) ∧
      ∃ e, sorted exValues insertionSlice [.pyInt 3] = .error e :=
  ⟨rfl,
    (sorted_orders_int_lists exValues insertionSlice insertionSlice_contract
      (fun _ _ => rfl)).2.1,
    (sorted_orders_int_lists exValues insertionSlice insertionSlice_contract
      (fun _ _ => rfl)).2.2 (.pyInt 3) (fun l h => by cases h)⟩

theorem pair_sublist_of_perm (a : pyObject) (l r : List pyObject) (hperm : r.Perm l)
    (h : List.Sublist [a, a] l) : List.Sublist [a, a] r := by
  have h1 : List.Subperm [a, a] r := (hperm.symm.subperm_left).mp h.subperm
  obtain ⟨l1, hl1, hsub⟩ := h1
  have : l1 = [a, a] := by
    have h2 : l1.Perm (List.replicate 2 a) := hl1
    exact List.perm_replicate.mp h2
  rw [this] at hsub
  exact hsub

/-- What the contract of `sort.Slice` gives on the order of ties: with an
ordering relation that is a strict weak ordering on the elements of the list,
`sorted` returns a permutation of the list in which no element is less than one
before it; and elements that are equal under the ordering keep their relative
order when such elements are the same value, as Int values are. For distinct
values that are equal under the ordering the contract fixes no order. -/
theorem sorted_stable_on_total_orders (vm : Values) (sortSlice : SliceSorter)
    (hsort : SortsSlices sortSlice) (lt : pyObject → pyObject → Bool) (l : List pyObject)
    (hagree : ∀ a ∈ l, ∀ b ∈ l, vm.LessThan a b = .ok (lt a b)) (hsw : StrictWeakOn lt l) :
    ∃ r, sorted vm sortSlice [.pyList l] = .ok (.pyList r, .pyList r) ∧ r.Perm l ∧
      r.Pairwise (fun a b => lt b a = false) ∧
      ((∀ a ∈ l, ∀ b ∈ l, lt a b = false → lt b a = false → a = b) → StableOn lt l r) := by
  obtain ⟨r, hr, hperm, hsr⟩ := sorted_contract vm sortSlice hsort lt l hagree hsw
  refine ⟨r, hr, hperm, hsr, ?_⟩
  intro htotal a b hab hba hsub
  have ha : a ∈ l := hsub.subset (by simp)
  have hb : b ∈ l := hsub.subset (by simp)
  have heq := htotal a ha b hb hab hba
  subst heq
  exact pair_sublist_of_perm a l r hperm hsub

/-- The Int list `[2, 1, 2]` under insertion sort, as an instance of the lemma
before it. -/
theorem sorted_stable_on_int_example :
    ∃ r, sorted exValues insertionSlice [.pyList ([2, 1, 2].map .pyInt)] =
        .ok (.pyList r, .pyList r) ∧ r.Perm ([2, 1, 2].map .pyInt) ∧
      r.Pairwise (fun a b => intLess b a = false) ∧
      StableOn intLess ([2, 1, 2].map .pyInt) r := by
  obtain ⟨r, h, hp, hs, hst⟩ := sorted_stable_on_total_orders exValues insertionSlice
    insertionSlice_contract intLess ([2, 1, 2].map .pyInt)
    (intLess_agree exValues (fun _ _ => rfl) [2, 1, 2]) (intLess_strictWeak [2, 1, 2])
  refine ⟨r, h, hp, hs, hst ?_⟩
  intro a ha b hb hab hba
  obtain ⟨x, _, rfl⟩ := List.mem_map.mp ha
  obtain ⟨y, _, rfl⟩ := List.mem_map.mp hb
  simp only [intLess, decide_eq_false_iff_not] at hab hba
  have : x = y := by omega
  rw [this]

theorem not_pair_sublist_swap (a b : pyObject) (h : a ≠ b) :
    ¬ List.Sublist [a, b] [b, a] := by
  intro hs
  cases hs with
  | cons _ h1 =>
    have := h1.length_le
    simp at this
  | cons₂ _ _ => exact h rfl

/-- With an ordering under which two different values are equal, a sorter that
meets the contract of `sort.Slice` can give them back in the other order. -/
theorem sorted_swaps_a_tie (vm : Values) (lt : pyObject → pyObject → Bool) (a b : pyObject)
    (hagree : ∀ x ∈ [a, b], ∀ y ∈ [a, b], vm.LessThan x y = .ok (lt x y))
    (hab : lt a b = false) (hne : a ≠ b) :
    sorted vm reversingSlice [.pyList [a, b]] = .ok (.pyList [b, a], .pyList [b, a]) ∧
      ¬ List.Sublist [a, b] [b, a] := by
  refine ⟨?_, not_pair_sublist_swap a b hne⟩
  have h1 := hagree a (by simp) b (by simp)
  simp [sorted, arg, reversingSlice, insertionSlice, insertSlice, h1, hab, bind, Except.bind,
    pure, Except.pure]

/-- The contract of `sort.Slice` does not fix the order of ties: insertion sort
of the reversed slice meets the contract, and under an ordering for which two
distinct values are equal it returns them swapped. This is a statement on the
contract; it says nothing on the sort of a given Go release, which is not part
of this development. -/
theorem sortsSlices_allows_swapped_tie :
    SortsSlices reversingSlice ∧
      (∀ a ∈ [pyObject.pyInt 1, .pyBool true], ∀ b ∈ [pyObject.pyInt 1, .pyBool true],
        exValues.LessThan a b = .ok (exLess a b)) ∧
      StrictWeakOn exLess [.pyInt 1, .pyBool true] ∧
      sorted exValues reversingSlice [.pyList [.pyInt 1, .pyBool true]] =
        .ok (.pyList [.pyBool true, .pyInt 1], .pyList [.pyBool true, .pyInt 1]) ∧
      exLess (.pyInt 1) (.pyBool true) = false ∧ exLess (.pyBool true) (.pyInt 1) = false ∧
      ¬ StableOn exLess [.pyInt 1, .pyBool true] [.pyBool true, .pyInt 1] := by
  have hagree : ∀ a ∈ [pyObject.pyInt 1, .pyBool true],
      ∀ b ∈ [pyObject.pyInt 1, .pyBool true], exValues.LessThan a b = .ok (exLess a b) := by
    intro a ha b hb
    simp only [List.mem_cons, List.mem_singleton, List.not_mem_nil, or_false] at ha hb
    rcases ha with rfl | rfl <;> rcases hb with rfl | rfl <;> rfl
  have hfalse : ∀ a ∈ [pyObject.pyInt 1, .pyBool true],
      ∀ b ∈ [pyObject.pyInt 1, .pyBool true], exLess a b = false := by
    intro a ha b hb
    simp only [List.mem_cons, List.mem_singleton, List.not_mem_nil, or_false] at ha hb
    rcases ha with rfl | rfl <;> rcases hb with rfl | rfl <;> rfl
  refine ⟨reversingSlice_contract, hagree, ⟨?_, ?_, ?_⟩, rfl, rfl, rfl, ?_⟩
  · intro a ha
    exact hfalse a ha a ha
  · intro a ha b hb c _ hab _
    rw [hfalse a ha b hb] at hab
    cases hab
  · intro a ha b _ c hc _ _
    exact hfalse a ha c hc
  · intro hst
    exact not_pair_sublist_swap (.pyInt 1) (.pyBool true) (by intro h; cases h)
      (hst (.pyInt 1) (.pyBool true) rfl rfl (List.Sublist.refl _))

/-! ### Formatting -/

theorem replaceScan_cons_zero (old new : GoString) (c : Fin 256) (t : GoString) :
    replaceScan old new (c :: t) 0 =
      if HasPrefix (c :: t) old then new ++ replaceScan old new t (old.length - 1)
      else c :: replaceScan old new t 0 := rfl

theorem replaceScan_cons_succ (old new : GoString) (c : Fin 256) (t : GoString) (skip : Nat) :
    replaceScan old new (c :: t) (skip + 1) = replaceScan old new t skip := rfl

theorem replaceScan_skip (old new : GoString) (u rest : GoString) :
    replaceScan old new (u ++ rest) u.length = replaceScan old new rest 0 := by
  induction u with
  | nil => rfl
  | cons c u ih =>
    rw [List.cons_append, List.length_cons, replaceScan_cons_succ]
    exact ih

theorem replaceScan_text (old1 new : GoString) (t rest : GoString)
    (ht : (0x7B : Fin 256) ∉ t) :
    replaceScan (0x7B :: old1) new (t ++ rest) 0 =
      t ++ replaceScan (0x7B :: old1) new rest 0 := by
  induction t with
  | nil => rfl
  | cons c t ih =>
    have hc : (0x7B : Fin 256) ≠ c := fun h => ht (by simp [h])
    have htt : (0x7B : Fin 256) ∉ t := fun h => ht (List.mem_cons_of_mem _ h)
    have hp : HasPrefix (c :: (t ++ rest)) (0x7B :: old1) = false := by
      simp [HasPrefix, List.isPrefixOf, hc]
    rw [List.cons_append, replaceScan_cons_zero, hp, ih htt]
    rfl

theorem closing_prefix_eq (k n rest : GoString) (hk : (0x7D : Fin 256) ∉ k)
    (hn : (0x7D : Fin 256) ∉ n) (h : (k ++ [0x7D]) <+: (n ++ [0x7D] ++ rest)) : k = n := by
  induction k generalizing n with
  | nil =>
    cases n with
    | nil => rfl
    | cons d n1 =>
      exfalso
      obtain ⟨r, hr⟩ := h
      simp only [List.nil_append, List.cons_append, List.cons.injEq] at hr
      exact hn (by simp [hr.1])
  | cons c k1 ih =>
    cases n with
    | nil =>
      exfalso
      obtain ⟨r, hr⟩ := h
      simp only [List.nil_append, List.cons_append, List.cons.injEq] at hr
      exact hk (by simp [hr.1])
    | cons d n1 =>
      obtain ⟨r, hr⟩ := h
      simp only [List.cons_append, List.cons.injEq] at hr
      have hrest : (k1 ++ [0x7D]) <+: (n1 ++ [0x7D] ++ rest) := ⟨r, by simpa using hr.2⟩
      rw [hr.1, ih n1 (fun h => hk (List.mem_cons_of_mem _ h))
        (fun h => hn (List.mem_cons_of_mem _ h)) hrest]

theorem replaceScan_group (k new n rest : GoString)
    (hk : (0x7B : Fin 256) ∉ k ∧ (0x7D : Fin 256) ∉ k)
    (hn : (0x7B : Fin 256) ∉ n ∧ (0x7D : Fin 256) ∉ n) :
    replaceScan (0x7B :: (k ++ [0x7D])) new (0x7B :: (n ++ [0x7D]) ++ rest) 0 =
      (if n = k then new else 0x7B :: (n ++ [0x7D])) ++
        replaceScan (0x7B :: (k ++ [0x7D])) new rest 0 := by
  by_cases hnk : n = k
  · subst hnk
    have hp : HasPrefix (0x7B :: (n ++ [0x7D]) ++ rest) (0x7B :: (n ++ [0x7D])) = true :=
      (HasPrefix_iff _ _).mpr (List.prefix_append _ _)
    have hskip := replaceScan_skip (0x7B :: (n ++ [0x7D])) new (n ++ [0x7D]) rest
    rw [List.cons_append, replaceScan_cons_zero, ← List.cons_append, hp]
    simp only [if_true, List.length_cons, Nat.add_sub_cancel]
    rw [hskip]
  · have hp : HasPrefix (0x7B :: (n ++ [0x7D]) ++ rest) (0x7B :: (k ++ [0x7D])) = false := by
      cases hx : HasPrefix (0x7B :: (n ++ [0x7D]) ++ rest) (0x7B :: (k ++ [0x7D])) with
      | false => rfl
      | true =>
        exfalso
        have hpre := (HasPrefix_iff _ _).mp hx
        obtain ⟨r, hr⟩ := hpre
        simp only [List.cons_append, List.cons.injEq, true_and] at hr
        exact hnk (closing_prefix_eq k n rest hk.2 hn.2 ⟨r, by simpa using hr⟩).symm
    have htext : (0x7B : Fin 256) ∉ n ++ [0x7D] := by
      simp only [List.mem_append, List.mem_singleton, not_or]
      exact ⟨hn.1, by decide⟩
    have ht := replaceScan_text (k ++ [0x7D]) new (n ++ [0x7D]) rest htext
    rw [List.cons_append, replaceScan_cons_zero, ← List.cons_append, hp, ht]
    simp [hnk]

theorem gs_lbrace : gs "\x7b" = [0x7B] := rfl

theorem gs_rbrace : gs "\x7d" = [0x7D] := rfl

theorem replaceScan_render (k new : GoString)
    (hk : (0x7B : Fin 256) ∉ k ∧ (0x7D : Fin 256) ∉ k) (segs : List Seg)
    (hsegs : ∀ seg ∈ segs, seg.WellFormed) :
    replaceScan (0x7B :: (k ++ [0x7D])) new (renderSegs segs) 0 =
      renderSegs (segs.map (Seg.subst k new)) := by
  induction segs with
  | nil => rfl
  | cons seg rest ih =>
    have hrest := ih (fun x hx => hsegs x (List.mem_cons_of_mem _ hx))
    have hseg := hsegs seg (List.mem_cons_self _ _)
    cases seg with
    | text t =>
      simp only [renderSegs, Seg.render, List.map_cons, Seg.subst]
      rw [replaceScan_text _ _ _ _ hseg, hrest]
    | group n =>
      simp only [renderSegs, Seg.render, List.map_cons, Seg.subst, gs_lbrace, gs_rbrace]
      have h := replaceScan_group k new n (renderSegs rest) hk hseg
      simp only [List.cons_append, List.nil_append, List.append_assoc] at h ⊢
      rw [h, hrest]
      by_cases hnk : n = k
      · simp [hnk, Seg.render]
      · simp [hnk, Seg.render, gs_lbrace, gs_rbrace]

theorem Replace_render (k new : GoString)
    (hk : (0x7B : Fin 256) ∉ k ∧ (0x7D : Fin 256) ∉ k) (hnew : (0x7B : Fin 256) ∉ new)
    (segs : List Seg) (hsegs : ∀ seg ∈ segs, seg.WellFormed) :
    Replace (renderSegs segs) (gs "\x7b" ++ k ++ gs "\x7d") new =
      renderSegs (segs.map (Seg.subst k new)) := by
  have hne : ¬ ((0x7B : Fin 256) :: (k ++ [0x7D]) = new) := by
    intro h
    exact hnew (by rw [← h]; simp)
  simp only [Replace, gs_lbrace, gs_rbrace, List.cons_append, List.nil_append, hne, if_false,
    List.cons_ne_nil]
  exact replaceScan_render k new hk segs hsegs

theorem subst_wellFormed (k new : GoString) (hnew : (0x7B : Fin 256) ∉ new) (segs : List Seg)
    (hsegs : ∀ seg ∈ segs, seg.WellFormed) :
    ∀ seg ∈ segs.map (Seg.subst k new), seg.WellFormed := by
  intro seg hseg
  obtain ⟨s0, hs0, rfl⟩ := List.mem_map.mp hseg
  have h0 := hsegs s0 hs0
  cases s0 with
  | text t => exact h0
  | group n =>
    simp only [Seg.subst]
    split
    · exact hnew
    · exact h0

theorem resolve_cons (vm : Values) (k : GoString) (v : pyObject)
    (rest : List (GoString × pyObject)) (seg : Seg) :
    Seg.resolve vm ((k, v) :: rest) seg = Seg.resolve vm rest (Seg.subst k (vm.String v) seg) := by
  cases seg with
  | text t => rfl
  | group n =>
    by_cases hnk : n = k
    · subst hnk
      simp [Seg.resolve, Seg.subst, List.lookup_cons]
    · have hb : (n == k) = false := by simpa using hnk
      simp [Seg.resolve, Seg.subst, List.lookup_cons, hb, hnk]

theorem resolve_nil (vm : Values) (segs : List Seg) : segs.map (Seg.resolve vm []) = segs := by
  induction segs with
  | nil => rfl
  | cons seg rest ih =>
    rw [List.map_cons, ih]
    cases seg <;> rfl

theorem format_fold (vm : Values) (locals : List (GoString × pyObject))
    (hnames : ∀ kv ∈ locals, (0x7B : Fin 256) ∉ kv.1 ∧ (0x7D : Fin 256) ∉ kv.1)
    (hvals : ∀ kv ∈ locals, (0x7B : Fin 256) ∉ vm.String kv.2)
    (segs : List Seg) (hsegs : ∀ seg ∈ segs, seg.WellFormed) :
    locals.foldl
        (fun self kv => Replace self (gs "\x7b" ++ kv.1 ++ gs "\x7d") (vm.String kv.2))
        (renderSegs segs) =
      renderSegs (segs.map (Seg.resolve vm locals)) := by
  induction locals generalizing segs with
  | nil => rw [List.foldl_nil, resolve_nil]
  | cons kv rest ih =>
    obtain ⟨k, v⟩ := kv
    have hk := hnames (k, v) (List.mem_cons_self _ _)
    have hv := hvals (k, v) (List.mem_cons_self _ _)
    rw [List.foldl_cons, Replace_render k (vm.String v) hk hv segs hsegs,
      ih (fun x hx => hnames x (List.mem_cons_of_mem _ hx))
        (fun x hx => hvals x (List.mem_cons_of_mem _ hx)) _
        (subst_wellFormed k (vm.String v) hv segs hsegs),
      List.map_map]
    congr 1
    apply List.map_congr_left
    intro seg _
    exact (resolve_cons vm k v rest seg).symm

theorem lookup_eq_some_iff_mem (l : List (GoString × pyObject))
    (hnd : (l.map Prod.fst).Nodup) (k : GoString) (v : pyObject) :
    l.lookup k = some v ↔ (k, v) ∈ l := by
  induction l with
  | nil => simp
  | cons kv rest ih =>
    obtain ⟨k1, v1⟩ := kv
    simp only [List.map_cons, List.nodup_cons] at hnd
    obtain ⟨hnot, hrest⟩ := hnd
    by_cases hk : k = k1
    · subst hk
      simp only [List.lookup_cons, beq_self_eq_true, Option.some.injEq, List.mem_cons,
        Prod.mk.injEq, true_and]
      constructor
      · intro h
        exact Or.inl h.symm
      · rintro (h | h)
        · exact h.symm
        · exact absurd (List.mem_map.mpr ⟨(k, v), h, rfl⟩) hnot
    · have hb : (k == k1) = false := by simpa using hk
      simp only [List.lookup_cons, hb, List.mem_cons, Prod.mk.injEq, hk, false_and, false_or]
      exact ih hrest

theorem lookup_perm (l1 l2 : List (GoString × pyObject)) (hperm : l1.Perm l2)
    (hnd : (l1.map Prod.fst).Nodup) (k : GoString) : l1.lookup k = l2.lookup k := by
  have hnd2 : (l2.map Prod.fst).Nodup := (hperm.map Prod.fst).nodup_iff.mp hnd
  apply Option.ext
  intro v
  show l1.lookup k = some v ↔ l2.lookup k = some v
  rw [lookup_eq_some_iff_mem l1 hnd, lookup_eq_some_iff_mem l2 hnd2]
  exact hperm.mem_iff

theorem strFormat_value (vm : Values) (locals : List (GoString × pyObject))
    (hnames : ∀ kv ∈ locals, (0x7B : Fin 256) ∉ kv.1 ∧ (0x7D : Fin 256) ∉ kv.1)
    (hvals : ∀ kv ∈ locals, (0x7B : Fin 256) ∉ vm.String kv.2)
    (segs : List Seg) (hsegs : ∀ seg ∈ segs, seg.WellFormed) :
    strFormat vm locals [.pyString (renderSegs segs)] =
      .ok (.pyString (Replace (Replace (renderSegs (segs.map (Seg.resolve vm locals)))
        (gs "\x7b\x7b") (gs "\x7b")) (gs "\x7d\x7d") (gs "\x7d"))) := by
  simp only [strFormat, arg, asString, bind, Except.bind, pure, Except.pure,
    List.getElem?_cons_zero, format_fold vm locals hnames hvals segs hsegs]

/-- C20, as amended: for a receiver in which every opening brace starts a group
`{name}` whose name holds no brace (the braces are not nested), and for locals
whose names hold no brace and whose renderings hold no opening brace, `format`
returns the same string for every order in which the locals are substituted:
every group whose name is a local is replaced by the rendering of that local. -/
theorem strFormat_order_independent (vm : Values) (locals1 locals2 : List (GoString × pyObject))
    (segs : List Seg) (hperm : locals1.Perm locals2)
    (hnodup : (locals1.map Prod.fst).Nodup)
    (hnames : ∀ kv ∈ locals1, (0x7B : Fin 256) ∉ kv.1 ∧ (0x7D : Fin 256) ∉ kv.1)
    (hvals : ∀ kv ∈ locals1, (0x7B : Fin 256) ∉ vm.String kv.2)
    (hsegs : ∀ seg ∈ segs, seg.WellFormed) :
    strFormat vm locals1 [.pyString (renderSegs segs)] =
        strFormat vm locals2 [.pyString (renderSegs segs)] ∧
      strFormat vm locals1 [.pyString (renderSegs segs)] =
        .ok (.pyString (Replace (Replace (renderSegs (segs.map (Seg.resolve vm locals1)))
          (gs "\x7b\x7b") (gs "\x7b")) (gs "\x7d\x7d") (gs "\x7d"))) := by
  have h1 := strFormat_value vm locals1 hnames hvals segs hsegs
  have h2 := strFormat_value vm locals2
    (fun kv hkv => hnames kv (hperm.mem_iff.mpr hkv))
    (fun kv hkv => hvals kv (hperm.mem_iff.mpr hkv)) segs hsegs
  refine ⟨?_, h1⟩
  rw [h1, h2]
  have hres : segs.map (Seg.resolve vm locals1) = segs.map (Seg.resolve vm locals2) := by
    apply List.map_congr_left
    intro seg _
    cases seg with
    | text t => rfl
    | group n => simp only [Seg.resolve, lookup_perm locals1 locals2 hperm hnodup n]
  rw [hres]

/-- Witness of C20: the receiver `a{x}c{y}` with the locals `x` and `y` in both
orders. -/
theorem strFormat_order_independent_witness :
    strFormat exValues [(gs "x", .pyString (gs "1")), (gs "y", .pyString (gs "2"))]
        [.pyString (gs "a\x7bx\x7dc\x7by\x7d")] =
      strFormat exValues [(gs "y", .pyString (gs "2")), (gs "x", .pyString (gs "1"))]
        [.pyString (gs "a\x7bx\x7dc\x7by\x7d")] :=
  (strFormat_order_independent exValues
    [(gs "x", .pyString (gs "1")), (gs "y", .pyString (gs "2"))]
    [(gs "y", .pyString (gs "2")), (gs "x", .pyString (gs "1"))]
    [.text (gs "a"), .group (gs "x"), .text (gs "c"), .group (gs "y")]
    (List.Perm.swap _ _ _) (by decide)
    (by
      intro kv hkv
      simp only [List.mem_cons, List.mem_singleton, List.not_mem_nil, or_false] at hkv
      rcases hkv with rfl | rfl <;> decide)
    (by
      intro kv hkv
      simp only [List.mem_cons, List.mem_singleton, List.not_mem_nil, or_false] at hkv
      rcases hkv with rfl | rfl <;> decide)
    (by
      intro seg hseg
      simp only [List.mem_cons, List.mem_singleton, List.not_mem_nil, or_false] at hseg
      rcases hseg with rfl | rfl | rfl | rfl <;> simp only [Seg.WellFormed] <;> decide)).1

/-- Counterexample to C20 as stated: the receiver `{a{x}}` with the locals `x`,
rendered `b`, and `ab`, rendered `Q`. Neither rendering holds `{x}` or `{ab}`,
yet substituting `x` first gives `Q` and substituting `ab` first gives
`{ab}`: the rendering of `x` completes a group together with the text of the
receiver around it. -/
theorem strFormat_order_counterexample :
    strFormat exValues [(gs "x", .pyString (gs "b")), (gs "ab", .pyString (gs "Q"))]
        [.pyString (gs "\x7ba\x7bx\x7d\x7d")] = .ok (.pyString (gs "Q")) ∧
      strFormat exValues [(gs "ab", .pyString (gs "Q")), (gs "x", .pyString (gs "b"))]
        [.pyString (gs "\x7ba\x7bx\x7d\x7d")] = .ok (.pyString (gs "\x7bab\x7d")) ∧
      gs "Q" ≠ gs "\x7bab\x7d" ∧
      Index (exValues.String (.pyString (gs "b"))) (gs "\x7bx\x7d") = -1 ∧
      Index (exValues.String (.pyString (gs "b"))) (gs "\x7bab\x7d") = -1 ∧
      Index (exValues.String (.pyString (gs "Q"))) (gs "\x7bx\x7d") = -1 ∧
      Index (exValues.String (.pyString (gs "Q"))) (gs "\x7bab\x7d") = -1 :=
  ⟨rfl, rfl, by decide, rfl, rfl, rfl, rfl⟩

/-! ### Sorting in place -/

theorem GoSlice.slice_all (l : GoSlice) : l.slice 0 l.len = l := rfl

theorem GoSlice.elems_store (mem : Arrays) (l : GoSlice) (vals : List pyObject)
    (harr : l.array < mem.length) (hoff : l.off ≤ (mem.getD l.array []).length)
    (hlen : vals.length = l.len) : l.elems (l.store mem vals) = vals := by
  have hget : (l.store mem vals).getD l.array [] =
      (mem.getD l.array []).take l.off ++ vals ++ (mem.getD l.array []).drop (l.off + l.len) := by
    simp [GoSlice.store, List.getD_eq_getElem?_getD, harr]
  have htake : ((mem.getD l.array []).take l.off).length = l.off := by
    rw [List.length_take]
    omega
  rw [GoSlice.elems, hget, List.append_assoc, List.drop_append_of_le_length (by omega),
    List.drop_of_length_le (by omega), List.nil_append, ← hlen, List.take_left]

theorem sorted_list_eq (vm : Values) (sortSlice : SliceSorter) (l : List pyObject) :
    sorted vm sortSlice [.pyList l] =
      (sortSlice vm.LessThan l).map (fun r => (pyObject.pyList r, pyObject.pyList r)) := by
  cases h : sortSlice vm.LessThan l <;>
    simp [sorted, arg, h, bind, Except.bind, pure, Except.pure, Except.map]

theorem sortedInPlace_eq (vm : Values) (sortSlice : SliceSorter) (mem : Arrays) (l : GoSlice) :
    sortedInPlace vm sortSlice mem l =
      (sortSlice vm.LessThan (l.elems mem)).map (fun r => (l, l.store mem r)) := by
  cases h : sortSlice vm.LessThan (l.elems mem) <;>
    simp [sortedInPlace, GoSlice.slice_all, h, bind, Except.bind, pure, Except.pure, Except.map]

/-- The pair that `sorted` gives is what the memory holds after `sortedInPlace`:
its first part is the content of the slice returned, its second part the content
of the argument. -/
theorem sortedInPlace_refines (vm : Values) (sortSlice : SliceSorter) (mem : Arrays)
    (l : GoSlice) (harr : l.array < mem.length)
    (hoff : l.off + l.len ≤ (mem.getD l.array []).length)
    (vals : List pyObject) (hvals : sortSlice vm.LessThan (l.elems mem) = .ok vals)
    (hlen : vals.length = l.len) :
    ∃ r mem', sortedInPlace vm sortSlice mem l = .ok (r, mem') ∧
      sorted vm sortSlice [.pyList (l.elems mem)] =
        .ok (.pyList (r.elems mem'), .pyList (l.elems mem')) ∧
      l.elems mem' = vals := by
  have hst := GoSlice.elems_store mem l vals harr (by omega) hlen
  refine ⟨l, l.store mem vals, ?_, ?_, hst⟩
  · rw [sortedInPlace_eq, hvals]
    rfl
  · rw [sorted_list_eq, hvals, hst]
    rfl

theorem GoSlice.elems_length (mem : Arrays) (l : GoSlice)
    (hoff : l.off + l.len ≤ (mem.getD l.array []).length) : (l.elems mem).length = l.len := by
  rw [GoSlice.elems, List.length_take, List.length_drop]
  omega

theorem sortedInPlace_ints (vm : Values) (sortSlice : SliceSorter)
    (hsort : SortsSlices sortSlice)
    (hint : ∀ x y : Int, vm.LessThan (.pyInt x) (.pyInt y) = .ok (decide (x < y)))
    (mem : Arrays) (l : GoSlice) (ns : List Int) (harr : l.array < mem.length)
    (hoff : l.off + l.len ≤ (mem.getD l.array []).length)
    (hns : l.elems mem = ns.map .pyInt) :
    ∃ (ms : List Int) (r : GoSlice) (mem' : Arrays),
      sortedInPlace vm sortSlice mem l = .ok (r, mem') ∧
        r.elems mem' = ms.map .pyInt ∧ l.elems mem' = ms.map .pyInt ∧
        ms.Perm ns ∧ ms.Sorted (fun x y => x ≤ y) := by
  obtain ⟨ms, hs, hperm, hsorted⟩ := sorted_ints vm sortSlice hsort hint ns
  have hvals : sortSlice vm.LessThan (l.elems mem) = .ok (ms.map .pyInt) := by
    rw [sorted_list_eq] at hs
    rw [hns]
    cases h : sortSlice vm.LessThan (ns.map .pyInt) with
    | error e => rw [h] at hs; cases hs
    | ok v =>
      rw [h] at hs
      simp only [Except.map, Except.ok.injEq, Prod.mk.injEq, pyObject.pyList.injEq,
        and_self] at hs
      rw [hs]
  have hlen : (ms.map pyObject.pyInt).length = l.len := by
    rw [List.length_map, hperm.length_eq, ← GoSlice.elems_length mem l hoff, hns,
      List.length_map]
  obtain ⟨r, mem', hrun, hpair, hafter⟩ :=
    sortedInPlace_refines vm sortSlice mem l harr hoff _ hvals hlen
  refine ⟨ms, r, mem', hrun, ?_, hafter, hperm, hsorted⟩
  rw [sortedInPlace_eq, hvals] at hrun
  simp only [Except.map, Except.ok.injEq, Prod.mk.injEq] at hrun
  rw [← hrun.1, hafter]

/-- C21, as the code has it: `l = l[:]` makes no copy, so `sorted` sorts its
argument in place. With a `sort.Slice` that meets its contract and Ints compared
as numbers, after `sorted(l)` on a list of Ints held in memory the argument
holds the sorted list that is returned; for the list `[3, 1, 2]` the argument
holds `[1, 2, 3]` after the call, not the elements in the order it had before. -/
theorem sorted_sorts_its_argument (vm : Values) (sortSlice : SliceSorter)
    (hsort : SortsSlices sortSlice)
    (hint : ∀ x y : Int, vm.LessThan (.pyInt x) (.pyInt y) = .ok (decide (x < y))) :
    (∀ (mem : Arrays) (l : GoSlice) (ns : List Int), l.array < mem.length →
      l.off + l.len ≤ (mem.getD l.array []).length → l.elems mem = ns.map .pyInt →
      ∃ (ms : List Int) (r : GoSlice) (mem' : Arrays),
        sortedInPlace vm sortSlice mem l = .ok (r, mem') ∧
          r.elems mem' = ms.map .pyInt ∧ l.elems mem' = ms.map .pyInt ∧
          ms.Perm ns ∧ ms.Sorted (fun x y => x ≤ y)) ∧
    GoSlice.elems [[.pyInt 3, .pyInt 1, .pyInt 2]] ⟨0, 0, 3⟩ = [.pyInt 3, .pyInt 1, .pyInt 2] ∧
    (∃ (r : GoSlice) (mem' : Arrays),
      sortedInPlace vm sortSlice [[.pyInt 3, .pyInt 1, .pyInt 2]] ⟨0, 0, 3⟩ = .ok (r, mem') ∧
        r.elems mem' = [.pyInt 1, .pyInt 2, .pyInt 3] ∧
        GoSlice.elems mem' ⟨0, 0, 3⟩ = [.pyInt 1, .pyInt 2, .pyInt 3] ∧
        GoSlice.elems mem' ⟨0, 0, 3⟩ ≠ [.pyInt 3, .pyInt 1, .pyInt 2]) ∧
    sorted vm sortSlice [.pyList [.pyInt 3, .pyInt 1, .pyInt 2]] =
      .ok (.pyList [.pyInt 1, .pyInt 2, .pyInt 3], .pyList [.pyInt 1, .pyInt 2, .pyInt 3]) := by
  have h312 : ∀ ms : List Int, ms.Perm [3, 1, 2] → ms.Sorted (fun x y => x ≤ y) →
      ms = [1, 2, 3] := fun ms hp hs =>
    List.eq_of_perm_of_sorted (hp.trans (by decide)) hs (by decide)
  refine ⟨fun mem l ns harr hoff hns =>
    sortedInPlace_ints vm sortSlice hsort hint mem l ns harr hoff hns, rfl, ?_, ?_⟩
  · obtain ⟨ms, r, mem', hrun, hr, hl, hp, hs⟩ :=
      sortedInPlace_ints vm sortSlice hsort hint [[.pyInt 3, .pyInt 1, .pyInt 2]] ⟨0, 0, 3⟩
        [3, 1, 2] (by decide) (by decide) rfl
    have hms := h312 ms hp hs
    subst hms
    refine ⟨r, mem', hrun, hr, hl, ?_⟩
    rw [hl]
    simp
  · obtain ⟨ms, h, hp, hs⟩ := sorted_ints vm sortSlice hsort hint [3, 1, 2]
    have hms := h312 ms hp hs
    subst hms
    exact h

/-- Witness of C21 with insertion sort for `sort.Slice` and the example value
model: the list `[3, 1, 2]` in memory. -/
theorem sorted_sorts_its_argument_witness :
    sortedInPlace exValues insertionSlice [[.pyInt 3, .pyInt 1, .pyInt 2]] ⟨0, 0, 3⟩ =
        .ok (⟨0, 0, 3⟩, [[.pyInt 1, .pyInt 2, .pyInt 3]]) ∧
      sorted exValues insertionSlice [.pyList [.pyInt 3, .pyInt 1, .pyInt 2]] =
        .ok (.pyList [.pyInt 1, .pyInt 2, .pyInt 3], .pyList [.pyInt 1, .pyInt 2, .pyInt 3]) :=
  ⟨rfl, (sorted_sorts_its_argument exValues insertionSlice insertionSlice_contract
    (fun _ _ => rfl)).2.2.2⟩

/-! ### Ranges of negative length -/

theorem pyRange_two_negative (lim : Limits) (start stop : Int) (h : stop < start)
    (hd : -(2 : Int) ^ 63 ≤ stop - start) :
    pyRange lim [.pyInt start, .pyInt stop] =
      .error (.runtimePanic "makeslice: len out of range") := by
  have hw : wrapInt (stop - start) = stop - start := wrapInt_of_fits _ ⟨hd, by omega⟩
  have hneg : stop - start < 0 := by omega
  rw [pyRange_ints, hw, makeList_negative lim _ hneg]
  rfl

theorem pyRange_one_negative (lim : Limits) (n : Int) (b : Bool) (h : n < 0)
    (hd : -(2 : Int) ^ 63 ≤ n) :
    pyRange lim [.pyInt n, .pyBool b] =
      .error (.runtimePanic "makeslice: len out of range") := by
  have hw : wrapInt (n - 0) = n := by
    rw [Int.sub_zero]
    exact wrapInt_of_fits _ ⟨hd, by omega⟩
  rw [pyRange_int_bool, hw, makeList_negative lim _ h]
  rfl

/-- C22, as the code has it: `range` does fail on integer arguments. When
`stop < start` (the difference being one a 64-bit `int` holds), and in the
single-argument form when `n < 0`, `make(pyList, stop-start)` is given a
negative length and panics; `range(5, 3)` and `range(-1)` panic, where the claim
has the empty list. For Go `int`s `start ≤ stop` and for `0 ≤ n`, with a length
that `make` allocates, the list has the length the claim says. -/
theorem pyRange_panics_on_negative_length :
    (∀ (lim : Limits) (start stop : Int), stop < start → -(2 : Int) ^ 63 ≤ stop - start →
      pyRange lim [.pyInt start, .pyInt stop] =
        .error (.runtimePanic "makeslice: len out of range")) ∧
    (∀ (lim : Limits) (n : Int) (b : Bool), n < 0 → -(2 : Int) ^ 63 ≤ n →
      pyRange lim [.pyInt n, .pyBool b] =
        .error (.runtimePanic "makeslice: len out of range")) ∧
    (∀ lim : Limits, pyRange lim [.pyInt 5, .pyInt 3] =
      .error (.runtimePanic "makeslice: len out of range")) ∧
    (∀ lim : Limits, pyRange lim [.pyInt (-1), .pyBool false] =
      .error (.runtimePanic "makeslice: len out of range")) ∧
    (∀ (lim : Limits) (start stop : Int), fitsInt start → fitsInt stop → start ≤ stop →
      stop - start ≤ lim.maxLen → stop - start ≤ lim.memLen →
      ∃ l, pyRange lim [.pyInt start, .pyInt stop] = .ok (.pyList l) ∧
        (l.length : Int) = max 0 (stop - start)) ∧
    (∀ (lim : Limits) (n : Int) (b : Bool), 0 ≤ n → n ≤ lim.maxLen → n ≤ lim.memLen →
      ∃ l, pyRange lim [.pyInt n, .pyBool b] = .ok (.pyList l) ∧
        (l.length : Int) = max 0 n) := by
  refine ⟨fun lim start stop h hd => pyRange_two_negative lim start stop h hd,
    fun lim n b h hd => pyRange_one_negative lim n b h hd,
    fun lim => pyRange_two_negative lim 5 3 (by decide) (by decide),
    fun lim => pyRange_one_negative lim (-1) false (by decide) (by decide), ?_, ?_⟩
  · intro lim start stop hs ht h hmax hmem
    refine ⟨_, pyRange_two lim start stop hs.1 ht.2 h hmax hmem, ?_⟩
    simp only [List.length_map, List.length_range]
    rw [Int.toNat_of_nonneg (by omega)]
    omega
  · intro lim n b h hmax hmem
    refine ⟨_, pyRange_one lim n b h hmax hmem, ?_⟩
    simp only [List.length_map, List.length_range]
    rw [Int.toNat_of_nonneg h]
    omega

/-- Witness of C22: `range(5, 3)`, `range(-1)` and `range(3, 5)`. -/
theorem pyRange_panics_on_negative_length_witness :
    pyRange exLimits [.pyInt 5, .pyInt 3] =
        .error (.runtimePanic "makeslice: len out of range") ∧
      pyRange exLimits [.pyInt (-1), .pyBool true] =
        .error (.runtimePanic "makeslice: len out of range") ∧
      ∃ l, pyRange exLimits [.pyInt 3, .pyInt 5] = .ok (.pyList l) ∧
        (l.length : Int) = max 0 (5 - 3) :=
  ⟨pyRange_panics_on_negative_length.1 exLimits 5 3 (by decide) (by decide),
    pyRange_panics_on_negative_length.2.1 exLimits (-1) true (by decide) (by decide),
    pyRange_panics_on_negative_length.2.2.2.2.1 exLimits 3 5 (by decide) (by decide)
      (by decide) (by decide) (by decide)⟩

end Asp
